import Mathlib

/-!
# The gostatsd metric aggregator (`pkg/statsd/aggregator.go`)

A shallow embedding of `MetricAggregator` and of its `Flush` / `Reset` cycle.

* `float64` is read as exact arithmetic: every definition is generic in a linear
  ordered field `F` with a floor function, so it runs on `ℚ` and the theorems hold
  on `ℝ` as well.  `math.Sqrt` is a parameter `sqrt : F → F`.
* Where the code takes an integer from a float (`round`, `numInThreshold`), the result
  depends on the rounding of `float64`, so every operation on the way is rounded to the
  nearest `float64` by `rnd64` (IEEE 754 binary64, ties to even, no fused
  multiply-add; overflow to infinity and NaN are no values of the model).
* Go maps are association lists without duplicate keys (`AList`); ranging over a
  map visits the entries the map held when the loop began.
* A Go run-time panic (index out of range, failed type assertion, write to a nil
  map) is the result `none`.
* `int64` time stamps and durations are integers (Unix nanoseconds) and their
  subtraction is exact; the theorem on expiry carries the bound (`fitsInt64`) under
  which the `int64` subtraction of the code does not wrap.
* `newHttpTransport` of `pkg/transport/transport_http.go` returns an `Except`: the
  error message, or the transport.
-/

namespace Statsd

/-! ## Data model -/

/-- The type `gostatsd.Nanotime`: Unix time in nanoseconds. -/
abbrev Nanotime := Int

/-- The struct `gostatsd.Counter`, with the fields the aggregator and the graphite
test name. -/
structure Counter (F : Type) where
  PerSecond : F
  Value : Int
  Timestamp : Nanotime
  Hostname : String
  Tags : List String

/-- The struct `gostatsd.Percentile`, as the literal in `graphite_test.go` shows it. -/
structure Percentile (F : Type) where
  Float : F
  Str : String

/-- The slice type `gostatsd.Percentiles`. -/
abbrev Percentiles (F : Type) := List (Percentile F)

/-- Modelled from the spec: `Percentiles.Set` is declared outside the files at hand;
"emit into `timer.percentiles`" is read as appending one named value to the slice. -/
def Percentiles.Set {F : Type} (p : Percentiles F) (key : String) (value : F) : Percentiles F :=
  p ++ [{ Float := value, Str := key }]

/-- The struct `gostatsd.Timer`, with the fields the aggregator names. -/
structure Timer (F : Type) where
  Count : Int
  PerSecond : F
  Mean : F
  Median : F
  Min : F
  Max : F
  StdDev : F
  Sum : F
  SumSquares : F
  Values : List F
  Percentiles : Percentiles F
  Timestamp : Nanotime
  Hostname : String
  Tags : List String
  SampledCount : F
  Buckets : AList (fun _ : F => Int)

/-- The struct `gostatsd.Gauge`. -/
structure Gauge (F : Type) where
  Value : F
  Timestamp : Nanotime
  Hostname : String
  Tags : List String

/-- The struct `gostatsd.Set`; `Values` is a `map[string]struct{}`. -/
structure Set where
  Values : Finset String
  Timestamp : Nanotime
  Hostname : String
  Tags : List String

/-- A `map[string]map[string]α`: the shape of `gostatsd.Counters`, `Timers`, `Gauges`
and `Sets` (metric name, then tags key). -/
abbrev AggregatedMetrics (α : Type) := AList (fun _ : String => AList (fun _ : String => α))

/-- The cell `m[key][tagsKey]`, when there is one. -/
def cell {α : Type} (m : AggregatedMetrics α) (key tagsKey : String) : Option α :=
  (m.lookup key).bind (fun inner => inner.lookup tagsKey)

/-- The Go statement `m[key][tagsKey] = v`: a write to the inner map of `key`, a panic
when `m[key]` is the nil map. -/
def assign {α : Type} (m : AggregatedMetrics α) (key tagsKey : String) (v : α) :
    Option (AggregatedMetrics α) :=
  match m.lookup key with
  | none => none
  | some inner => some (m.insert key (inner.insert tagsKey v))

/-- Modelled from the spec: `DeleteChild(name, tagsKey)` of `gostatsd.AggregatedMetrics`
(declared outside the files at hand) removes one cell of a name. -/
def DeleteChild {α : Type} (m : AggregatedMetrics α) (key tagsKey : String) :
    AggregatedMetrics α :=
  match m.lookup key with
  | none => m
  | some inner => m.insert key (inner.erase tagsKey)

/-- Modelled from the spec: `HasChildren(name)` of `gostatsd.AggregatedMetrics` tells
whether the inner map of a name holds a cell. -/
def HasChildren {α : Type} (m : AggregatedMetrics α) (key : String) : Bool :=
  match m.lookup key with
  | none => false
  | some inner => !inner.keys.isEmpty

/-- Modelled from the spec: `Delete(name)` of `gostatsd.AggregatedMetrics` removes the
outer entry of a name. -/
def Delete {α : Type} (m : AggregatedMetrics α) (key : String) : AggregatedMetrics α :=
  m.erase key

/-- A name whose inner map holds no cell. -/
def emptyName {α : Type} (m : AggregatedMetrics α) (k : String) : Prop :=
  ∃ inner, m.lookup k = some inner ∧ inner.keys = []

/-- The cells of a map as `(name, tagsKey, cell)` triples, in the order a traversal
meets them. -/
def cells {α : Type} (m : AggregatedMetrics α) : List (String × String × α) :=
  m.entries.flatMap (fun e => e.2.entries.map (fun c => (e.1, c.1, c.2)))

/-- Modelled from the spec: `Each(fn)` of `gostatsd.AggregatedMetrics` visits every cell
of the map once; the callback works on the state `σ` (the aggregator that owns the
map) and may panic.  The callbacks of `Flush` and `Reset` rewrite or delete only the
cell they are handed (and its name once that is empty), so the cells met are those the
map held when the traversal began, each passed by value. -/
def Each {α σ : Type} (m : AggregatedMetrics α) (f : String → String → α → σ → Option σ)
    (s : σ) : Option σ :=
  (cells m).foldlM (fun acc c => f c.1 c.2.1 c.2.2 acc) s

/-- The struct `gostatsd.MetricMap`: one nested map per metric kind. -/
structure MetricMap (F : Type) where
  Counters : AggregatedMetrics (Counter F)
  Timers : AggregatedMetrics (Timer F)
  Gauges : AggregatedMetrics (Gauge F)
  Sets : AggregatedMetrics Set

/-- The flags of `gostatsd.TimerSubtypes` that the aggregator reads. -/
structure TimerSubtypes where
  CountPct : Bool
  MeanPct : Bool
  SumPct : Bool
  SumSquaresPct : Bool
  UpperPct : Bool
  LowerPct : Bool

/-- The struct `percentStruct`: the cached names of one threshold. -/
structure percentStruct where
  count : String
  mean : String
  sum : String
  sumSquares : String
  upper : String
  lower : String

/-- The struct `MetricAggregator`.  The clock `now` is an argument of `Reset`; the
`statser` only reports and is left out. -/
structure MetricAggregator (F : Type) where
  metricsReceived : Nat
  expiryInterval : Int
  percentThresholds : AList (fun _ : F => percentStruct)
  disabledSubtypes : TimerSubtypes
  metricMap : MetricMap F

/-! ## Construction -/

section Model

variable {F : Type} [LinearOrderedField F] [FloorRing F]

/-- The Go conversion `int(x)` of a float within the range of `int`: truncation toward
zero.  Outside that range Go leaves the result to the implementation, and the theorems
on conversions of arbitrary floats carry the bound `|x| < 2 ^ 63`. -/
def toInt (x : F) : Int :=
  if 0 ≤ x then ⌊x⌋ else ⌈x⌉

/-- One turn of the loop of `NewMetricAggregator`: the names cached for `pct`, built
from `strconv.Itoa(int(pct))`. -/
def newPercentStruct (pct : F) : percentStruct :=
  let sPct := toString (toInt pct)
  { count := "count_" ++ sPct
    mean := "mean_" ++ sPct
    sum := "sum_" ++ sPct
    sumSquares := "sum_squares_" ++ sPct
    upper := "upper_" ++ sPct
    lower := "lower_" ++ sPct }

/-- The function `NewMetricAggregator`: empty maps and one `percentStruct` per threshold
(a later duplicate overwrites the entry of an earlier one). -/
def NewMetricAggregator (percentThresholds : List F) (expiryInterval : Int)
    (disabled : TimerSubtypes) : MetricAggregator F :=
  { metricsReceived := 0
    expiryInterval := expiryInterval
    percentThresholds :=
      percentThresholds.foldl (fun m pct => m.insert pct (newPercentStruct pct)) ∅
    disabledSubtypes := disabled
    metricMap := { Counters := ∅, Timers := ∅, Gauges := ∅, Sets := ∅ } }

/-! ## Flush -/

/-- The library function `math.Floor`, with a float result. -/
def mathFloor (x : F) : F :=
  ((⌊x⌋ : Int) : F)

/-- The library function `math.Mod`: the remainder of the truncated division, with
the sign of `x`. -/
def mathMod (x y : F) : F :=
  x - y * ((toInt (x / y) : Int) : F)

/-- The power `2 ^ e` for an integer exponent. -/
def pow2 (e : Int) : F :=
  if 0 ≤ e then (2 : F) ^ e.toNat else ((2 : F) ^ (-e).toNat)⁻¹

/-- The binary logarithm of `n`, rounded down, in at most `fuel` halvings. -/
def ilog2Aux : Nat → Nat → Nat
  | 0, _ => 0
  | fuel + 1, n => if 2 ≤ n then ilog2Aux fuel (n / 2) + 1 else 0

/-- The binary logarithm of a positive `n`, rounded down: `2 ^ ilog2 n ≤ n < 2 ^ (ilog2 n + 1)`. -/
def ilog2 (n : Nat) : Nat :=
  ilog2Aux n n

/-- The binary exponent of a positive `x`: the integer `e` with `2 ^ e ≤ x < 2 ^ (e + 1)`. -/
def binade (x : F) : Int :=
  if 1 ≤ x then (ilog2 ⌊x⌋.toNat : Int)
  else -((ilog2 (⌈1 / x⌉.toNat - 1) : Int) + 1)

/-- The integer nearest to a non-negative `s`, the even one of the two when `s` lies
half-way. -/
def roundHalfEven (s : F) : Int :=
  let f := ⌊s⌋
  let d := s - (f : F)
  if d < 1 / 2 then f
  else if 1 / 2 < d then f + 1
  else if f % 2 = 0 then f else f + 1

/-- The `float64` that an arithmetic operation with the exact result `x` returns: the
nearest multiple of `2 ^ (e - 52)`, ties to even, where `e` is the binary exponent of
`|x|` and at least -1022 (so subnormal results are covered); a result beyond the largest
`float64` is not turned into an infinity. -/
def rnd64 (x : F) : F :=
  if x = 0 then 0
  else
    let q := max (binade |x|) (-1022) - 52
    let r := ((roundHalfEven (|x| / pow2 q) : Int) : F) * pow2 q
    if 0 < x then r else -r

/-- The function `round`: `math.Floor(v + 0.5)`, the sum being a `float64`. -/
def round (v : F) : F :=
  mathFloor (rnd64 (v + 1 / 2))

/-- The function `contains`. -/
def contains (a : List String) (x : String) : Bool :=
  match a with
  | [] => false
  | n :: rest => if x = n then true else contains rest x

/-- The element `l[i]` of a slice for a Go `int` index: a panic outside `0 ≤ i < len(l)`. -/
def index {α : Type} (l : List α) (i : Int) : Option α :=
  if i < 0 then none else l[i.toNat]?

/-- The statement `a.metricMap.Counters[key][tagsKey] = counter`. -/
def setCounter (a : MetricAggregator F) (key tagsKey : String) (counter : Counter F) :
    Option (MetricAggregator F) :=
  (assign a.metricMap.Counters key tagsKey counter).map
    (fun m => { a with metricMap := { a.metricMap with Counters := m } })

/-- The statement `a.metricMap.Timers[key][tagsKey] = timer`. -/
def setTimer (a : MetricAggregator F) (key tagsKey : String) (timer : Timer F) :
    Option (MetricAggregator F) :=
  (assign a.metricMap.Timers key tagsKey timer).map
    (fun m => { a with metricMap := { a.metricMap with Timers := m } })

/-! ### The bucketed pipeline -/

/-- An ordered map from `float64` keys to counts, the `treemap.Map` of
`github.com/emirpasic/gods` under `utils.Float64Comparator`: its entries in ascending
key order. -/
abbrev TreeMap (F : Type) := List (F × Int)

/-- The method `treemap.Map.Put`: insert a key, or replace the value of a key already
there. -/
def TreeMap.Put (m : TreeMap F) (key : F) (value : Int) : TreeMap F :=
  match m with
  | [] => [(key, value)]
  | e :: rest =>
    if key < e.1 then (key, value) :: e :: rest
    else if key = e.1 then (key, value) :: rest
    else e :: TreeMap.Put rest key value

/-- The method `treemap.Map.Ceiling`: the entry of the smallest key that is larger than
or equal to `key`; `none` (both results nil) when there is no such key. -/
def TreeMap.Ceiling (m : TreeMap F) (key : F) : Option (F × Int) :=
  m.find? (fun e => key ≤ e.1)

/-- The array literal `buckets` of `fancyPipeline`: twelve slots, eleven of them
written, so the last one holds the zero value. -/
def buckets : List F :=
  [20, 30, 40, 50, 75, 100, 200, 500, 1000, 2000, 5000, 0]

/-- One turn of the loop over `timer.Values` in `fancyPipeline`.  The comparison
`foundKey == value` is false for a nil `foundKey`; the assertion `foundValue.(int)`
panics for a nil `foundValue`. -/
def bucketStep (valuesMap : TreeMap F) (value : F) : Option (TreeMap F) :=
  let found := TreeMap.Ceiling valuesMap value
  let found :=
    if found.map Prod.fst = some value then
      TreeMap.Ceiling valuesMap (value + 1 / 1000000000)
    else found
  match found with
  | none => none
  | some (foundKey, foundValue) => some (TreeMap.Put valuesMap foundKey (foundValue + 1))

/-- The part of `fancyPipeline` before the write to the metric map: the `Buckets` map
of the timer. -/
def fancyBuckets (values : List F) : Option (AList (fun _ : F => Int)) :=
  let valuesMap : TreeMap F := buckets.foldl (fun m value => TreeMap.Put m value 0) []
  (values.foldlM bucketStep valuesMap).map
    (fun valuesMap => valuesMap.foldl (fun result e => result.insert e.1 e.2) ∅)

/-- The function `fancyPipeline`. -/
def fancyPipeline (timer : Timer F) (a : MetricAggregator F) (_flushInSeconds : F)
    (key tagsKey : String) : Option (MetricAggregator F) :=
  match fancyBuckets timer.Values with
  | none => none
  | some result => setTimer a key tagsKey { timer with Buckets := result }

/-! ### The default pipeline -/

/-- The library function `sort.Float64s`: the values in ascending order. -/
def sortFloat64s (values : List F) : List F :=
  values.insertionSort (fun x y => x ≤ y)

/-- The loop that fills `cumulativeValues` and `cumulSumSquaresValues` from index 1 on:
each slot is `g` of the value plus the slot before it. -/
def cumulate (g : F → F) (prev : F) : List F → List F
  | [] => []
  | v :: rest => (g v + prev) :: cumulate g (g v + prev) rest

/-- The locals the loop over `a.percentThresholds` reads and writes, with the
`Percentiles` of the timer. -/
structure PctLocals (F : Type) where
  sumSquares : F
  mean : F
  sum : F
  thresholdBoundary : F
  Percentiles : Percentiles F

/-- The value `numInThreshold` for more than one value:
`int(round(math.Abs(pct) / 100 * count))`, the quotient and the product being
`float64`s (`count` is a slice length, which `float64` holds exactly). -/
def numInThreshold (pct : F) (n : Nat) : Int :=
  toInt (round (rnd64 (rnd64 (|pct| / 100) * (n : F))))

/-- The tail of the loop body over `a.percentThresholds`: the `Set` calls that the
disabled subtypes let through. -/
def emitPercentiles (disabled : TimerSubtypes) (pct : F) (pctStruct : percentStruct)
    (num : Int) (st : PctLocals F) : PctLocals F :=
  let p := st.Percentiles
  let p := if !disabled.CountPct then p.Set pctStruct.count (num : F) else p
  let p := if !disabled.MeanPct then p.Set pctStruct.mean st.mean else p
  let p := if !disabled.SumPct then p.Set pctStruct.sum st.sum else p
  let p := if !disabled.SumSquaresPct then p.Set pctStruct.sumSquares st.sumSquares else p
  let p :=
    if pct > 0 then
      if !disabled.UpperPct then p.Set pctStruct.upper st.thresholdBoundary else p
    else
      if !disabled.LowerPct then p.Set pctStruct.lower st.thresholdBoundary else p
  { st with Percentiles := p }

/-- One turn of the loop over `a.percentThresholds` in `defaultPipeline`, for the sorted
`values` (`n` of them) and the two running-sum slices. -/
def pctStep (disabled : TimerSubtypes) (values cumulativeValues cumulSumSquaresValues : List F)
    (n : Nat) (st : PctLocals F) (pct : F) (pctStruct : percentStruct) :
    Option (PctLocals F) :=
  if n > 1 then
    let num := numInThreshold pct n
    if num = 0 then some st
    else
      let bounds : Option (PctLocals F) :=
        if pct > 0 then do
          let boundary ← index values (num - 1)
          let sum ← index cumulativeValues (num - 1)
          let sumSquares ← index cumulSumSquaresValues (num - 1)
          pure { st with thresholdBoundary := boundary, sum := sum, sumSquares := sumSquares }
        else do
          let boundary ← index values ((n : Int) - num)
          let sumAll ← index cumulativeValues ((n : Int) - 1)
          let sumBelow ← index cumulativeValues ((n : Int) - num - 1)
          let sqAll ← index cumulSumSquaresValues ((n : Int) - 1)
          let sqBelow ← index cumulSumSquaresValues ((n : Int) - num - 1)
          pure { st with thresholdBoundary := boundary, sum := sumAll - sumBelow,
                         sumSquares := sqAll - sqBelow }
      match bounds with
      | none => none
      | some st =>
        some (emitPercentiles disabled pct pctStruct num { st with mean := st.sum / (num : F) })
  else some (emitPercentiles disabled pct pctStruct (n : Int) st)

/-- The branch `count > 0` of `defaultPipeline` up to the write to the metric map: the
timer with its values sorted and its statistics filled in. -/
def defaultStats (sqrt : F → F) (timer : Timer F) (a : MetricAggregator F)
    (flushInSeconds : F) : Option (Timer F) := do
  let values := sortFloat64s timer.Values
  let min ← index values 0
  let max ← index values ((timer.Values.length : Int) - 1)
  let n := values.length
  let count : F := (n : F)
  let cumulativeValues := min :: cumulate (fun v => v) min values.tail
  let cumulSumSquaresValues := (min * min) :: cumulate (fun v => v * v) (min * min) values.tail
  let st ← a.percentThresholds.entries.foldlM
    (fun st e => pctStep a.disabledSubtypes values cumulativeValues cumulSumSquaresValues n
      st e.1 e.2)
    { sumSquares := min * min, mean := min, sum := min, thresholdBoundary := max,
      Percentiles := timer.Percentiles }
  let sum ← index cumulativeValues ((n : Int) - 1)
  let sumSquares ← index cumulSumSquaresValues ((n : Int) - 1)
  let mean := sum / count
  let sumOfDiffs := values.foldl (fun acc v => acc + (v - mean) * (v - mean)) 0
  let mid := toInt (mathFloor (count / 2))
  let median ←
    if mathMod count 2 = 0 then do
      let lo ← index values (mid - 1)
      let hi ← index values mid
      pure ((lo + hi) / 2)
    else index values mid
  pure { timer with
    Values := values, Min := min, Max := max, Percentiles := st.Percentiles,
    Median := median, Mean := mean, StdDev := sqrt (sumOfDiffs / count),
    Sum := sum, SumSquares := sumSquares,
    Count := toInt (round timer.SampledCount),
    PerSecond := timer.SampledCount / flushInSeconds }

/-! ### The mean and the deviation in `float64`

`defaultStats` computes the statistics in exact arithmetic.  The two definitions below
are the same lines of `defaultPipeline` with the result of every operation rounded to
the nearest `float64`; they show where the two readings part. -/

/-- The `mean` of `defaultPipeline` in `float64`: the last running sum
`cumulativeValues[n-1]` divided by `count`, for the sorted `values`. -/
def mean64 (values : List F) : F :=
  match values with
  | [] => 0
  | min :: rest =>
    let sum := rest.foldl (fun acc v => rnd64 (v + acc)) min
    rnd64 (sum / (values.length : F))

/-- The argument `sumOfDiffs / count` of `math.Sqrt` for `StdDev` in `float64`. -/
def variance64 (values : List F) : F :=
  let mean := mean64 values
  let sumOfDiffs :=
    values.foldl (fun acc v => rnd64 (acc + rnd64 (rnd64 (v - mean) * rnd64 (v - mean)))) 0
  rnd64 (sumOfDiffs / (values.length : F))

/-- The function `defaultPipeline`.  In the `else` branch only the local copy `timer`
is written, so the aggregator is left as it is. -/
def defaultPipeline (sqrt : F → F) (timer : Timer F) (a : MetricAggregator F)
    (flushInSeconds : F) (key tagsKey : String) : Option (MetricAggregator F) :=
  if timer.Values.length > 0 then
    match defaultStats sqrt timer a flushInSeconds with
    | none => none
    | some timer => setTimer a key tagsKey timer
  else some a

/-- The first loop of `Flush`: the rate of every counter. -/
def flushCounters (a : MetricAggregator F) (flushInSeconds : F) : Option (MetricAggregator F) :=
  Each a.metricMap.Counters
    (fun key tagsKey counter a =>
      setCounter a key tagsKey { counter with PerSecond := (counter.Value : F) / flushInSeconds })
    a

/-- The second loop of `Flush`: one of the two pipelines for every timer. -/
def flushTimers (sqrt : F → F) (a : MetricAggregator F) (flushInSeconds : F) :
    Option (MetricAggregator F) :=
  Each a.metricMap.Timers
    (fun key tagsKey timer a =>
      if contains timer.Tags "percentiles:true" then
        fancyPipeline timer a flushInSeconds key tagsKey
      else
        defaultPipeline sqrt timer a flushInSeconds key tagsKey)
    a

/-- What the second loop of `Flush` leaves in the map for one timer cell, for the
configuration of `a`: `none` for a panic of the pipeline, the cell itself when the
pipeline writes nothing. -/
def flushedTimer (sqrt : F → F) (a : MetricAggregator F) (flushInSeconds : F)
    (timer : Timer F) : Option (Timer F) :=
  if contains timer.Tags "percentiles:true" then
    (fancyBuckets timer.Values).map (fun result => { timer with Buckets := result })
  else if timer.Values.length > 0 then defaultStats sqrt timer a flushInSeconds
  else some timer

/-- The seconds in a flush interval: `float64(flushInterval) / float64(time.Second)`. -/
def flushSeconds (flushInterval : Int) : F :=
  (flushInterval : F) / ((1000000000 : Int) : F)

/-- The method `MetricAggregator.Flush`. -/
def Flush (sqrt : F → F) (a : MetricAggregator F) (flushInterval : Int) :
    Option (MetricAggregator F) :=
  let flushInSeconds : F := flushSeconds flushInterval
  match flushCounters a flushInSeconds with
  | none => none
  | some a => flushTimers sqrt a flushInSeconds

/-! ## Reset -/

/-- The method `MetricAggregator.isExpired`.  The subtraction is that of the integers: it
is the `int64` subtraction of the code as long as `now - ts` fits `int64` (`fitsInt64`),
which holds for any two time stamps after 1970. -/
def isExpired (a : MetricAggregator F) (now ts : Nanotime) : Bool :=
  a.expiryInterval != 0 && decide (now - ts > a.expiryInterval)

/-- The function `deleteMetric`. -/
def deleteMetric {α : Type} (key tagsKey : String) (metrics : AggregatedMetrics α) :
    AggregatedMetrics α :=
  let metrics := DeleteChild metrics key tagsKey
  if !HasChildren metrics key then Delete metrics key else metrics

/-- The statement `a.metricMap.Sets[key][tagsKey] = set`. -/
def setSet (a : MetricAggregator F) (key tagsKey : String) (set : Set) :
    Option (MetricAggregator F) :=
  (assign a.metricMap.Sets key tagsKey set).map
    (fun m => { a with metricMap := { a.metricMap with Sets := m } })

/-- The first loop of `Reset`. -/
def resetCounters (a : MetricAggregator F) (nowNano : Nanotime) : Option (MetricAggregator F) :=
  Each a.metricMap.Counters
    (fun key tagsKey counter a =>
      if isExpired a nowNano counter.Timestamp then
        some { a with metricMap :=
          { a.metricMap with Counters := deleteMetric key tagsKey a.metricMap.Counters } }
      else
        setCounter a key tagsKey
          { PerSecond := 0, Value := 0, Timestamp := counter.Timestamp,
            Hostname := counter.Hostname, Tags := counter.Tags })
    a

/-- The second loop of `Reset`; `timer.Values[:0]` is the empty slice. -/
def resetTimers (a : MetricAggregator F) (nowNano : Nanotime) : Option (MetricAggregator F) :=
  Each a.metricMap.Timers
    (fun key tagsKey timer a =>
      if isExpired a nowNano timer.Timestamp then
        some { a with metricMap :=
          { a.metricMap with Timers := deleteMetric key tagsKey a.metricMap.Timers } }
      else
        setTimer a key tagsKey
          { Count := 0, PerSecond := 0, Mean := 0, Median := 0, Min := 0, Max := 0,
            StdDev := 0, Sum := 0, SumSquares := 0, Values := timer.Values.take 0,
            Percentiles := [], Timestamp := timer.Timestamp, Hostname := timer.Hostname,
            Tags := timer.Tags, SampledCount := 0, Buckets := ∅ })
    a

/-- The third loop of `Reset`: a gauge is only ever deleted. -/
def resetGauges (a : MetricAggregator F) (nowNano : Nanotime) : Option (MetricAggregator F) :=
  Each a.metricMap.Gauges
    (fun key tagsKey gauge a =>
      if isExpired a nowNano gauge.Timestamp then
        some { a with metricMap :=
          { a.metricMap with Gauges := deleteMetric key tagsKey a.metricMap.Gauges } }
      else some a)
    a

/-- The fourth loop of `Reset`. -/
def resetSets (a : MetricAggregator F) (nowNano : Nanotime) : Option (MetricAggregator F) :=
  Each a.metricMap.Sets
    (fun key tagsKey set a =>
      if isExpired a nowNano set.Timestamp then
        some { a with metricMap :=
          { a.metricMap with Sets := deleteMetric key tagsKey a.metricMap.Sets } }
      else
        setSet a key tagsKey
          { Values := ∅, Timestamp := set.Timestamp, Hostname := set.Hostname,
            Tags := set.Tags })
    a

/-- The method `MetricAggregator.Reset`, for the reading `nowNano` of the clock
`a.now().UnixNano()`. -/
def Reset (a : MetricAggregator F) (nowNano : Nanotime) : Option (MetricAggregator F) := do
  let a := { a with metricsReceived := 0 }
  let a ← resetCounters a nowNano
  let a ← resetTimers a nowNano
  let a ← resetGauges a nowNano
  resetSets a nowNano

/-! ## Receive, and the states the program reaches -/

/-- The difference of two time stamps lies in the range of `int64`, so that the
subtraction `now - ts` of `isExpired` does not wrap. -/
abbrev fitsInt64 (x : Int) : Prop :=
  -2 ^ 63 ≤ x ∧ x < 2 ^ 63

/-! ## The entries of one threshold, as the specification words them -/

/-- The entries a threshold with the names `s` emits, in the order of the `Set` calls,
for the count `num`, the mean, the sum, the sum of squares and the boundary: those
that `d` does not disable, `upper` for a positive threshold and `lower` otherwise. -/
def emitted (d : TimerSubtypes) (pct : F) (s : percentStruct) (num : Int)
    (mean sum sumSquares boundary : F) : List (Percentile F) :=
  (if d.CountPct then [] else [{ Float := (num : F), Str := s.count }]) ++
  (if d.MeanPct then [] else [{ Float := mean, Str := s.mean }]) ++
  (if d.SumPct then [] else [{ Float := sum, Str := s.sum }]) ++
  (if d.SumSquaresPct then [] else [{ Float := sumSquares, Str := s.sumSquares }]) ++
  (if pct > 0 then (if d.UpperPct then [] else [{ Float := boundary, Str := s.upper }])
   else (if d.LowerPct then [] else [{ Float := boundary, Str := s.lower }]))

/-- The entries of one threshold for the sorted `values`, after §4.2.3 of the
specification: with `k = round(|pct| / 100 * n)`, nothing for `k = 0`, the `k` smallest
values for a positive threshold, the `k` largest for any other one; a single value
stands for itself.  The result is `none` where the slices of the source have no such
index (`k > n`, or `k = n` in the lower tail). -/
def pctBlock (d : TimerSubtypes) (values : List F) (pct : F) (s : percentStruct) :
    Option (List (Percentile F)) :=
  let n := values.length
  let sq : F → F := fun v => v * v
  if n > 1 then
    let k := numInThreshold pct n
    if k = 0 then some []
    else if pct > 0 then
      if k ≤ (n : Int) then
        let sum := (values.take k.toNat).sum
        some (emitted d pct s k (sum / (k : F)) sum ((values.take k.toNat).map sq).sum
          (values.getD (k.toNat - 1) 0))
      else none
    else
      if k < (n : Int) then
        let sum := values.sum - (values.take (n - k.toNat)).sum
        some (emitted d pct s k (sum / (k : F)) sum
          ((values.map sq).sum - ((values.take (n - k.toNat)).map sq).sum)
          (values.getD (n - k.toNat) 0))
      else none
  else
    let v := values.headD 0
    some (emitted d pct s (n : Int) v v (v * v) v)

/-! ## The buckets, as the code fills them -/

/-- The keys of the ordered map of `fancyPipeline`, ascending: the eleven bounds and
the zero of the twelfth array slot. -/
def bucketKeys : List F :=
  [0, 20, 30, 40, 50, 75, 100, 200, 500, 1000, 2000, 5000]

/-- The key under which a value is counted: the smallest key strictly above it, when
there is one. -/
def bucketOf (v : F) : Option F :=
  bucketKeys.find? (fun k => decide (v < k))

/-! ## A sample aggregator -/

/-- A counter cell with the value 6. -/
def sampleCounter : Counter F :=
  { PerSecond := 0, Value := 6, Timestamp := 5, Hostname := "web1", Tags := ["env:prod"] }

/-- A timer cell with the two values 3 and 1, as `Receive` leaves it. -/
def sampleTimer : Timer F :=
  { Count := 0, PerSecond := 0, Mean := 0, Median := 0, Min := 0, Max := 0, StdDev := 0,
    Sum := 0, SumSquares := 0, Values := [3, 1], Percentiles := [], Timestamp := 5,
    Hostname := "web1", Tags := ["env:prod"], SampledCount := 2, Buckets := ∅ }

/-- A gauge cell with the value 3. -/
def sampleGauge : Gauge F :=
  { Value := 3, Timestamp := 5, Hostname := "web1", Tags := ["env:prod"] }

/-- A set cell with two members. -/
def sampleSet : Set :=
  { Values := {"joe", "bob"}, Timestamp := 5, Hostname := "web1", Tags := ["env:prod"] }

/-- A timer cell tagged for the bucketed pipeline, with the single value 5000. -/
def bucketedTimer : Timer F :=
  { Count := 0, PerSecond := 0, Mean := 0, Median := 0, Min := 0, Max := 0, StdDev := 0,
    Sum := 0, SumSquares := 0, Values := [5000], Percentiles := [], Timestamp := 5,
    Hostname := "web1", Tags := ["percentiles:true"], SampledCount := 1, Buckets := ∅ }

/-- A timer cell with the single value 7. -/
def singleTimer : Timer F :=
  { Count := 0, PerSecond := 0, Mean := 0, Median := 0, Min := 0, Max := 0, StdDev := 0,
    Sum := 0, SumSquares := 0, Values := [7], Percentiles := [], Timestamp := 5,
    Hostname := "web1", Tags := ["env:prod"], SampledCount := 1, Buckets := ∅ }

/-- A timer cell without values whose `Count`, `SampledCount` and `PerSecond` are not
zero. -/
def staleTimer : Timer F :=
  { Count := 5, PerSecond := 2, Mean := 0, Median := 0, Min := 0, Max := 0, StdDev := 0,
    Sum := 0, SumSquares := 0, Values := [], Percentiles := [], Timestamp := 5,
    Hostname := "web1", Tags := ["env:prod"], SampledCount := 3, Buckets := ∅ }

/-- An aggregator that holds the one timer cell `timer` and is configured with the
given thresholds, no subtype disabled. -/
def timerAggregator (thresholds : List F) (timer : Timer F) : MetricAggregator F :=
  { NewMetricAggregator thresholds 10
      { CountPct := false, MeanPct := false, SumPct := false, SumSquaresPct := false,
        UpperPct := false, LowerPct := false } with
    metricMap :=
      { Counters := ∅
        Timers := AList.insert "latency" (AList.insert "env:prod" timer ∅) ∅
        Gauges := ∅
        Sets := ∅ } }

/-- The aggregator `timerAggregator thresholds timer` with the subtypes `MeanPct` and
`UpperPct` disabled. -/
def meanUpperDisabled (thresholds : List F) (timer : Timer F) : MetricAggregator F :=
  { timerAggregator thresholds timer with
    disabledSubtypes :=
      { CountPct := false, MeanPct := true, SumPct := false, SumSquaresPct := false,
        UpperPct := true, LowerPct := false } }

/-- An aggregator with one cell of each kind, the thresholds 90 and -50, an expiry
interval of 10 ns and no subtype disabled. -/
def sampleAggregator : MetricAggregator F :=
  { NewMetricAggregator [90, -50] 10
      { CountPct := false, MeanPct := false, SumPct := false, SumSquaresPct := false,
        UpperPct := false, LowerPct := false } with
    metricsReceived := 5
    metricMap :=
      { Counters := AList.insert "hits" (AList.insert "env:prod" sampleCounter ∅) ∅
        Timers := AList.insert "latency" (AList.insert "env:prod" sampleTimer ∅) ∅
        Gauges := AList.insert "temp" (AList.insert "env:prod" sampleGauge ∅) ∅
        Sets := AList.insert "users" (AList.insert "env:prod" sampleSet ∅) ∅ } }

end Model

/-! ## The HTTP transport

The function `newHttpTransport` of `pkg/transport/transport_http.go`, with the part of
the libraries `viper`, `net`, `crypto/tls` and `net/http` that it reads and writes. -/

/-- The type `time.Duration`: a count of nanoseconds. -/
abbrev Duration := Int

/-- The constant `time.Second`. -/
def Second : Duration := 1000000000

/-- The constant `time.Minute`. -/
def Minute : Duration := 60 * Second

/-- The constant `tls.VersionTLS12`. -/
def VersionTLS12 : Nat := 0x0303

/-- A configuration value, held at the type at which its getter returns it (the casts
of the library between the types are outside the model). -/
inductive Value where
  | duration (d : Duration)
  | bool (b : Bool)
  | int (i : Int)
  | string (s : String)

/-- The part of a `viper.Viper` that `newHttpTransport` reads: the values that are set,
and the defaults, by key. -/
structure Viper where
  config : AList (fun _ : String => Value)
  defaults : AList (fun _ : String => Value)

/-- The method `Viper.SetDefault`. -/
def Viper.SetDefault (v : Viper) (key : String) (value : Value) : Viper :=
  { v with defaults := v.defaults.insert key value }

/-- The method `Viper.Get`: the value that is set, else the default. -/
def Viper.Get (v : Viper) (key : String) : Option Value :=
  match v.config.lookup key with
  | some value => some value
  | none => v.defaults.lookup key

/-- The method `Viper.GetDuration`; the zero value when there is no duration. -/
def Viper.GetDuration (v : Viper) (key : String) : Duration :=
  match v.Get key with
  | some (Value.duration d) => d
  | _ => 0

/-- The method `Viper.GetBool`; the zero value when there is no boolean. -/
def Viper.GetBool (v : Viper) (key : String) : Bool :=
  match v.Get key with
  | some (Value.bool b) => b
  | _ => false

/-- The method `Viper.GetInt`; the zero value when there is no integer. -/
def Viper.GetInt (v : Viper) (key : String) : Int :=
  match v.Get key with
  | some (Value.int i) => i
  | _ => 0

/-- The method `Viper.GetString`; the zero value when there is no string. -/
def Viper.GetString (v : Viper) (key : String) : String :=
  match v.Get key with
  | some (Value.string s) => s
  | _ => ""

/-- The fields of `net.Dialer` that `newHttpTransport` sets. -/
structure Dialer where
  Timeout : Duration
  KeepAlive : Duration

/-- The field of `tls.Config` that `newHttpTransport` sets. -/
structure TLSConfig where
  MinVersion : Nat

/-- The fields of `http.Transport` that `newHttpTransport` sets.  `Proxy` tells whether
the field is `http.ProxyFromEnvironment`; `DialContext` holds the dialer and the network
that the closure captures; `TLSNextProto` is `none` for the nil map and else the keys of
the map. -/
structure Transport where
  Proxy : Bool
  TLSHandshakeTimeout : Duration
  TLSClientConfig : TLSConfig
  DialContext : Dialer × String
  MaxIdleConns : Int
  IdleConnTimeout : Duration
  TLSNextProto : Option (List String)

/-! The keys and the defaults, as the `const` block declares them. -/

def paramHttpDialerKeepAlive : String := "dialer-keep-alive"
def paramHttpDialerTimeout : String := "dialer-timeout"
def paramHttpEnableHttp2 : String := "enable-http2"
def paramHttpIdleConnectionTimeout : String := "idle-connection-timeout"
def paramHttpMaxIdleConnections : String := "max-idle-connections"
def paramHttpNetwork : String := "network"
def paramHttpTLSHandshakeTimeout : String := "tls-handshake-timeout"

def defaultHttpDialerKeepAlive : Duration := 30 * Second
def defaultHttpDialerTimeout : Duration := 5 * Second
def defaultHttpEnableHttp2 : Bool := false
def defaultHttpIdleConnectionTimeout : Duration := 1 * Minute
def defaultHttpMaxIdleConnections : Int := 50
def defaultHttpNetwork : String := "tcp"
def defaultHttpTLSHandshakeTimeout : Duration := 3 * Second

/-- The seven `SetDefault` calls that open `newHttpTransport`. -/
def setHttpDefaults (v : Viper) : Viper :=
  let v := v.SetDefault paramHttpDialerKeepAlive (Value.duration defaultHttpDialerKeepAlive)
  let v := v.SetDefault paramHttpDialerTimeout (Value.duration defaultHttpDialerTimeout)
  let v := v.SetDefault paramHttpEnableHttp2 (Value.bool defaultHttpEnableHttp2)
  let v := v.SetDefault paramHttpIdleConnectionTimeout
    (Value.duration defaultHttpIdleConnectionTimeout)
  let v := v.SetDefault paramHttpMaxIdleConnections (Value.int defaultHttpMaxIdleConnections)
  let v := v.SetDefault paramHttpNetwork (Value.string defaultHttpNetwork)
  v.SetDefault paramHttpTLSHandshakeTimeout (Value.duration defaultHttpTLSHandshakeTimeout)

/-- The method `TransportPool.newHttpTransport`; the log line is left out, and with it
the receiver and the use of `name`. -/
def newHttpTransport (_name : String) (v : Viper) : Except String Transport :=
  let v := setHttpDefaults v
  let dialerKeepAlive := v.GetDuration paramHttpDialerKeepAlive
  let dialerTimeout := v.GetDuration paramHttpDialerTimeout
  let enableHttp2 := v.GetBool paramHttpEnableHttp2
  let idleConnectionTimeout := v.GetDuration paramHttpIdleConnectionTimeout
  let maxIdleConnections := v.GetInt paramHttpMaxIdleConnections
  let network := v.GetString paramHttpNetwork
  let tlsHandshakeTimeout := v.GetDuration paramHttpTLSHandshakeTimeout
  if dialerKeepAlive < -1 then
    Except.error (paramHttpDialerKeepAlive ++ " must be -1, 0, or positive")
  else if dialerTimeout < 0 then
    Except.error (paramHttpDialerTimeout ++ " must not be negative")
  else if idleConnectionTimeout < 0 then
    Except.error (paramHttpIdleConnectionTimeout ++ " must not be negative")
  else if maxIdleConnections < 0 then
    Except.error (paramHttpMaxIdleConnections ++ " must not be negative")
  else if tlsHandshakeTimeout < 0 then
    Except.error (paramHttpTLSHandshakeTimeout ++ " must not be negative")
  else
    let dialer : Dialer := { Timeout := dialerTimeout, KeepAlive := dialerKeepAlive }
    let transport : Transport :=
      { Proxy := true
        TLSHandshakeTimeout := tlsHandshakeTimeout
        TLSClientConfig := { MinVersion := VersionTLS12 }
        DialContext := (dialer, network)
        MaxIdleConns := maxIdleConnections
        IdleConnTimeout := idleConnectionTimeout
        TLSNextProto := none }
    let transport :=
      if !enableHttp2 then { transport with TLSNextProto := some [] } else transport
    Except.ok transport

/-- A configuration that sets the dialer timeout to -1 s and the TLS handshake timeout
to -2 s. -/
def negativeTimeouts : Viper :=
  { config := AList.insert paramHttpDialerTimeout (Value.duration (-1 * Second))
      (AList.insert paramHttpTLSHandshakeTimeout (Value.duration (-2 * Second)) ∅)
    defaults := ∅ }

/-! ## Lemmas on the nested maps and on their traversal -/

section MapLemmas

variable {α : Type}

theorem cell_assign {m m' : AggregatedMetrics α} {key tagsKey : String} {v : α}
    (h : assign m key tagsKey v = some m') (k t : String) :
    cell m' k t = if k = key ∧ t = tagsKey then some v else cell m k t := by
  unfold assign at h
  cases hl : m.lookup key with
  | none => simp [hl] at h
  | some inner =>
    simp only [hl, Option.some.injEq] at h
    subst h
    by_cases hk : k = key
    · subst hk
      by_cases ht : t = tagsKey
      · subst ht
        simp [cell, AList.lookup_insert]
      · simp [cell, AList.lookup_insert, AList.lookup_insert_ne ht, hl, ht]
    · simp [cell, AList.lookup_insert_ne hk, hk]

theorem assign_isSome {m : AggregatedMetrics α} {key tagsKey : String} {c : α}
    (h : cell m key tagsKey = some c) (v : α) :
    ∃ m', assign m key tagsKey v = some m' := by
  unfold cell at h
  cases hl : m.lookup key with
  | none => simp [hl] at h
  | some inner => exact ⟨m.insert key (inner.insert tagsKey v), by simp [assign, hl]⟩

theorem emptyName_assign {m m' : AggregatedMetrics α} {key tagsKey : String} {v : α}
    (h : assign m key tagsKey v = some m') (k : String) (he : emptyName m' k) :
    emptyName m k := by
  unfold assign at h
  cases hl : m.lookup key with
  | none => simp [hl] at h
  | some inner =>
    simp only [hl, Option.some.injEq] at h
    subst h
    obtain ⟨inner', h1, h2⟩ := he
    by_cases hk : k = key
    · subst hk
      rw [AList.lookup_insert] at h1
      cases h1
      simp [AList.keys_insert] at h2
    · rw [AList.lookup_insert_ne hk] at h1
      exact ⟨inner', h1, h2⟩

theorem cell_deleteMetric (m : AggregatedMetrics α) (key tagsKey k t : String) :
    cell (deleteMetric key tagsKey m) k t =
      if k = key ∧ t = tagsKey then none else cell m k t := by
  unfold deleteMetric DeleteChild HasChildren Delete
  cases hl : m.lookup key with
  | none =>
    simp only [hl, Bool.not_false, if_true]
    by_cases hk : k = key
    · subst hk; simp [cell, AList.lookup_erase, hl]
    · simp [cell, AList.lookup_erase_ne hk, hk]
  | some inner =>
    simp only [AList.lookup_insert]
    split
    · rename_i hempty
      by_cases hk : k = key
      · subst hk
        simp only [cell, AList.lookup_erase, Option.none_bind, hl, Option.some_bind]
        split
        · rfl
        · rename_i hne
          simp only [true_and] at hne
          have : t ∈ (inner.erase tagsKey).keys → False := by
            simp only [Bool.not_not, List.isEmpty_iff] at hempty
            rw [hempty]; simp
          symm
          rw [AList.lookup_eq_none]
          intro hmem
          apply this
          rw [← AList.mem_keys, AList.mem_erase]
          exact ⟨hne, hmem⟩
      · simp [cell, AList.lookup_erase_ne hk, AList.lookup_insert_ne hk, hk]
    · by_cases hk : k = key
      · subst hk
        by_cases ht : t = tagsKey
        · subst ht
          simp [cell, AList.lookup_insert, AList.lookup_erase]
        · simp [cell, AList.lookup_insert, AList.lookup_erase_ne ht, hl, ht]
      · simp [cell, AList.lookup_insert_ne hk, hk]

theorem emptyName_deleteMetric (m : AggregatedMetrics α) (key tagsKey k : String)
    (he : emptyName (deleteMetric key tagsKey m) k) : emptyName m k := by
  unfold deleteMetric DeleteChild HasChildren Delete at he
  obtain ⟨inner', h1, h2⟩ := he
  cases hl : m.lookup key with
  | none =>
    simp only [hl, Bool.not_false, if_true] at h1
    by_cases hk : k = key
    · subst hk; simp [AList.lookup_erase] at h1
    · rw [AList.lookup_erase_ne hk] at h1
      exact ⟨inner', h1, h2⟩
  | some inner =>
    simp only [hl, AList.lookup_insert] at h1
    split at h1
    · by_cases hk : k = key
      · subst hk; simp [AList.lookup_erase] at h1
      · rw [AList.lookup_erase_ne hk, AList.lookup_insert_ne hk] at h1
        exact ⟨inner', h1, h2⟩
    · rename_i hne
      by_cases hk : k = key
      · subst hk
        rw [AList.lookup_insert] at h1
        cases h1
        simp [h2] at hne
      · rw [AList.lookup_insert_ne hk] at h1
        exact ⟨inner', h1, h2⟩

theorem mem_cells (m : AggregatedMetrics α) (k t : String) (c : α) :
    (k, t, c) ∈ cells m ↔ cell m k t = some c := by
  unfold cells cell
  simp only [List.mem_flatMap, List.mem_map, Prod.mk.injEq]
  constructor
  · rintro ⟨e, he, x, hx, h1, h2, h3⟩
    obtain ⟨ek, ev⟩ := e
    obtain ⟨xk, xv⟩ := x
    simp only at h1 h2 h3
    subst h1 h2 h3
    have h1 : m.lookup ek = some ev := AList.mem_lookup_iff.mpr he
    have h2 : ev.lookup xk = some xv := AList.mem_lookup_iff.mpr hx
    simp [h1, h2]
  · intro h
    cases hl : m.lookup k with
    | none => simp [hl] at h
    | some inner =>
      simp only [hl, Option.some_bind] at h
      exact ⟨⟨k, inner⟩, AList.mem_lookup_iff.mp hl, ⟨t, c⟩, AList.mem_lookup_iff.mp h, rfl, rfl, rfl⟩

theorem cells_nodup (m : AggregatedMetrics α) :
    ((cells m).map (fun c => (c.1, c.2.1))).Nodup := by
  unfold cells
  rw [List.map_flatMap, List.nodup_flatMap]
  constructor
  · intro e _
    have h2 : List.map (fun c : String × String × α => (c.1, c.2.1))
        (List.map (fun c : (_ : String) × α => (e.fst, c.fst, c.snd)) e.2.entries)
        = e.2.keys.map (fun t => (e.1, t)) := by
      simp [AList.keys, List.keys, List.map_map, Function.comp_def]
    rw [h2]
    exact e.2.keys_nodup.map (fun x y h => by simpa using h)
  · have hp := List.nodupKeys_iff_pairwise.mp m.nodupKeys
    refine hp.imp ?_
    intro a b hab
    simp only [Function.onFun]
    intro x hx hy
    simp only [List.map_map, List.mem_map, Function.comp_apply] at hx hy
    obtain ⟨c, _, rfl⟩ := hx
    obtain ⟨d, _, hd⟩ := hy
    simp only [Prod.mk.injEq] at hd
    exact hab hd.1.symm

/-- The traversal of a map by a callback that rewrites, deletes or keeps the cell it is
handed (`upd`: `none` for a panic, `some none` for a deletion, `some (some c)` for
the new cell), and touches nothing else, ends with every cell rewritten. -/
theorem foldlM_cells {σ : Type} (view : σ → AggregatedMetrics α)
    (f : String → String → α → σ → Option σ) (upd : α → Option (Option α)) (P : σ → Prop)
    (hf : ∀ s k t c, P s → cell (view s) k t = some c →
      (upd c = none → f k t c s = none) ∧
      (∀ r, upd c = some r → ∃ s', f k t c s = some s' ∧ P s' ∧
        cell (view s') k t = r ∧
        (∀ k' t', ¬(k' = k ∧ t' = t) → cell (view s') k' t' = cell (view s) k' t') ∧
        (∀ k', emptyName (view s') k' → emptyName (view s) k')))
    (l : List (String × String × α)) :
    ∀ s, P s → (l.map (fun c => (c.1, c.2.1))).Nodup →
      (∀ x ∈ l, cell (view s) x.1 x.2.1 = some x.2.2) →
      ((∃ x ∈ l, upd x.2.2 = none) → l.foldlM (fun acc c => f c.1 c.2.1 c.2.2 acc) s = none) ∧
      ((∀ x ∈ l, upd x.2.2 ≠ none) →
        ∃ s', l.foldlM (fun acc c => f c.1 c.2.1 c.2.2 acc) s = some s' ∧ P s' ∧
          (∀ x ∈ l, ∀ r, upd x.2.2 = some r → cell (view s') x.1 x.2.1 = r) ∧
          (∀ k t, (k, t) ∉ l.map (fun c => (c.1, c.2.1)) →
            cell (view s') k t = cell (view s) k t) ∧
          (∀ k', emptyName (view s') k' → emptyName (view s) k')) := by
  induction l with
  | nil =>
    intro s hP _ _
    refine ⟨by simp, fun _ => ⟨s, rfl, hP, by simp, by simp, fun _ h => h⟩⟩
  | cons x rest ih =>
    intro s hP hnd hcells
    obtain ⟨k, t, c⟩ := x
    simp only [List.map_cons, List.nodup_cons] at hnd
    obtain ⟨hnotin, hnd'⟩ := hnd
    have hx := hf s k t c hP (hcells (k, t, c) (List.mem_cons_self _ _))
    cases hu : upd c with
    | none =>
      refine ⟨fun _ => ?_, fun h => ?_⟩
      · simp [List.foldlM_cons, hx.1 hu]
      · exact absurd hu (h (k, t, c) (List.mem_cons_self _ _))
    | some r =>
      obtain ⟨s', hs', hP', hr, hframe, hempty⟩ := hx.2 r hu
      have hcells' : ∀ y ∈ rest, cell (view s') y.1 y.2.1 = some y.2.2 := by
        intro y hy
        rw [hframe, hcells y (List.mem_cons_of_mem _ hy)]
        rintro ⟨h1, h2⟩
        apply hnotin
        rw [List.mem_map]
        exact ⟨y, hy, by simp [h1, h2]⟩
      obtain ⟨ihn, ihs⟩ := ih s' hP' hnd' hcells'
      refine ⟨fun h => ?_, fun h => ?_⟩
      · obtain ⟨y, hy, hyu⟩ := h
        simp only [List.foldlM_cons, hs', Option.bind_eq_bind, Option.some_bind]
        rcases List.mem_cons.mp hy with rfl | hy'
        · simp [hu] at hyu
        · exact ihn ⟨y, hy', hyu⟩
      · obtain ⟨s'', hs'', hP'', hall, hout, hemp⟩ :=
          ihs (fun y hy => h y (List.mem_cons_of_mem _ hy))
        refine ⟨s'', ?_, hP'', ?_, ?_, fun k' hk' => hempty k' (hemp k' hk')⟩
        · simp only [List.foldlM_cons, hs', Option.bind_eq_bind, Option.some_bind]
          exact hs''
        · intro y hy r' hr'
          rcases List.mem_cons.mp hy with rfl | hy'
          · simp only at hr' ⊢
            rw [hout k t hnotin, hr]
            rw [hu] at hr'
            exact Option.some.inj hr'
          · exact hall y hy' r' hr'
        · intro k' t' hnot
          simp only [List.map_cons, List.mem_cons, not_or] at hnot
          rw [hout k' t' hnot.2, hframe]
          rintro ⟨h1, h2⟩
          exact hnot.1 (by simp [h1, h2])

theorem Each_cells {σ : Type} (view : σ → AggregatedMetrics α)
    (f : String → String → α → σ → Option σ) (upd : α → Option (Option α)) (P : σ → Prop)
    (hf : ∀ s k t c, P s → cell (view s) k t = some c →
      (upd c = none → f k t c s = none) ∧
      (∀ r, upd c = some r → ∃ s', f k t c s = some s' ∧ P s' ∧
        cell (view s') k t = r ∧
        (∀ k' t', ¬(k' = k ∧ t' = t) → cell (view s') k' t' = cell (view s) k' t') ∧
        (∀ k', emptyName (view s') k' → emptyName (view s) k')))
    (s : σ) (hP : P s) :
    ((∃ k t c, cell (view s) k t = some c ∧ upd c = none) → Each (view s) f s = none) ∧
    ((∀ k t c, cell (view s) k t = some c → upd c ≠ none) →
      ∃ s', Each (view s) f s = some s' ∧ P s' ∧
        (∀ k t c, cell (view s) k t = some c → ∀ r, upd c = some r → cell (view s') k t = r) ∧
        (∀ k t, cell (view s) k t = none → cell (view s') k t = none) ∧
        (∀ k', emptyName (view s') k' → emptyName (view s) k')) := by
  have h := foldlM_cells view f upd P hf (cells (view s)) s hP (cells_nodup _)
    (fun x hx => (mem_cells _ _ _ _).mp hx)
  refine ⟨fun ⟨k, t, c, hc, hu⟩ => h.1 ⟨(k, t, c), (mem_cells _ _ _ _).mpr hc, hu⟩, fun hall => ?_⟩
  obtain ⟨s', hs', hP', h1, h2, h3⟩ := h.2 (fun x hx => hall x.1 x.2.1 x.2.2 ((mem_cells _ _ _ _).mp hx))
  refine ⟨s', hs', hP', fun k t c hc r hr => h1 (k, t, c) ((mem_cells _ _ _ _).mpr hc) r hr, ?_, h3⟩
  intro k t hnone
  rw [h2 k t, hnone]
  intro hmem
  rw [List.mem_map] at hmem
  obtain ⟨x, hx, hxe⟩ := hmem
  obtain ⟨xk, xt, xc⟩ := x
  simp only [Prod.mk.injEq] at hxe
  rw [← hxe.1, ← hxe.2, (mem_cells _ _ _ _).mp hx] at hnone
  exact Option.noConfusion hnone

end MapLemmas

/-! ## Lemmas on Reset -/

section ResetLemmas

variable {F : Type} [LinearOrderedField F]

theorem resetCounters_spec (a : MetricAggregator F) (now : Nanotime) :
    ∃ a', resetCounters a now = some a' ∧
      (a'.expiryInterval = a.expiryInterval ∧ a'.percentThresholds = a.percentThresholds ∧
        a'.disabledSubtypes = a.disabledSubtypes ∧ a'.metricsReceived = a.metricsReceived ∧
        a'.metricMap.Timers = a.metricMap.Timers ∧ a'.metricMap.Gauges = a.metricMap.Gauges ∧
        a'.metricMap.Sets = a.metricMap.Sets) ∧
      (∀ k t c, cell a.metricMap.Counters k t = some c →
        cell a'.metricMap.Counters k t =
          if isExpired a now c.Timestamp then none
          else some { PerSecond := 0, Value := 0, Timestamp := c.Timestamp,
                      Hostname := c.Hostname, Tags := c.Tags }) ∧
      (∀ k t, cell a.metricMap.Counters k t = none → cell a'.metricMap.Counters k t = none) ∧
      (∀ k, emptyName a'.metricMap.Counters k → emptyName a.metricMap.Counters k) := by
  have h := Each_cells (fun s : MetricAggregator F => s.metricMap.Counters)
    (fun key tagsKey counter s =>
      if isExpired s now counter.Timestamp then
        some { s with metricMap :=
          { s.metricMap with Counters := deleteMetric key tagsKey s.metricMap.Counters } }
      else
        setCounter s key tagsKey
          { PerSecond := 0, Value := 0, Timestamp := counter.Timestamp,
            Hostname := counter.Hostname, Tags := counter.Tags })
    (fun c => some (if isExpired a now c.Timestamp then none
          else some { PerSecond := 0, Value := 0, Timestamp := c.Timestamp,
                      Hostname := c.Hostname, Tags := c.Tags }))
    (fun s => s.expiryInterval = a.expiryInterval ∧ s.percentThresholds = a.percentThresholds ∧
        s.disabledSubtypes = a.disabledSubtypes ∧ s.metricsReceived = a.metricsReceived ∧
        s.metricMap.Timers = a.metricMap.Timers ∧ s.metricMap.Gauges = a.metricMap.Gauges ∧
        s.metricMap.Sets = a.metricMap.Sets)
    (by
      intro s k t c hP hc
      refine ⟨by simp, ?_⟩
      intro r hr
      dsimp only at hc hP ⊢
      simp only [Option.some.injEq] at hr
      subst hr
      have hexp : isExpired s now c.Timestamp = isExpired a now c.Timestamp := by
        simp [isExpired, hP.1]
      rw [hexp]
      by_cases he : isExpired a now c.Timestamp = true
      · simp only [he, if_true]
        refine ⟨_, rfl, hP, ?_, ?_, ?_⟩
        · simp [cell_deleteMetric]
        · intro k' t' hne
          simp [cell_deleteMetric, hne]
        · intro k' hk'
          exact emptyName_deleteMetric _ _ _ _ hk'
      · simp only [he, if_false]
        obtain ⟨m', hm'⟩ := assign_isSome hc
          ({ PerSecond := 0, Value := 0, Timestamp := c.Timestamp,
                      Hostname := c.Hostname, Tags := c.Tags } : Counter F)
        refine ⟨{ s with metricMap := { s.metricMap with Counters := m' } },
          by simp [setCounter, hm'], hP, ?_, ?_, ?_⟩
        · simp [cell_assign hm']
        · intro k' t' hne
          simp [cell_assign hm', hne]
        · intro k' hk'
          exact emptyName_assign hm' _ hk')
    a ⟨rfl, rfl, rfl, rfl, rfl, rfl, rfl⟩
  obtain ⟨a', ha', hP', h1, h2, h3⟩ := h.2 (by intro k t c _; simp)
  exact ⟨a', ha', hP', fun k t c hc => h1 k t c hc _ rfl, h2, h3⟩

theorem resetTimers_spec (a : MetricAggregator F) (now : Nanotime) :
    ∃ a', resetTimers a now = some a' ∧
      (a'.expiryInterval = a.expiryInterval ∧ a'.percentThresholds = a.percentThresholds ∧
        a'.disabledSubtypes = a.disabledSubtypes ∧ a'.metricsReceived = a.metricsReceived ∧
        a'.metricMap.Counters = a.metricMap.Counters ∧ a'.metricMap.Gauges = a.metricMap.Gauges ∧
        a'.metricMap.Sets = a.metricMap.Sets) ∧
      (∀ k t c, cell a.metricMap.Timers k t = some c →
        cell a'.metricMap.Timers k t =
          if isExpired a now c.Timestamp then none
          else some { Count := 0, PerSecond := 0, Mean := 0, Median := 0, Min := 0, Max := 0,
                               StdDev := 0, Sum := 0, SumSquares := 0, Values := c.Values.take 0,
                               Percentiles := [], Timestamp := c.Timestamp, Hostname := c.Hostname,
                               Tags := c.Tags, SampledCount := 0, Buckets := ∅ }) ∧
      (∀ k t, cell a.metricMap.Timers k t = none → cell a'.metricMap.Timers k t = none) ∧
      (∀ k, emptyName a'.metricMap.Timers k → emptyName a.metricMap.Timers k) := by
  have h := Each_cells (fun s : MetricAggregator F => s.metricMap.Timers)
    (fun key tagsKey timer s =>
      if isExpired s now timer.Timestamp then
        some { s with metricMap :=
          { s.metricMap with Timers := deleteMetric key tagsKey s.metricMap.Timers } }
      else
        setTimer s key tagsKey
          { Count := 0, PerSecond := 0, Mean := 0, Median := 0, Min := 0, Max := 0,
                               StdDev := 0, Sum := 0, SumSquares := 0, Values := timer.Values.take 0,
                               Percentiles := [], Timestamp := timer.Timestamp, Hostname := timer.Hostname,
                               Tags := timer.Tags, SampledCount := 0, Buckets := ∅ })
    (fun c => some (if isExpired a now c.Timestamp then none
          else some { Count := 0, PerSecond := 0, Mean := 0, Median := 0, Min := 0, Max := 0,
                               StdDev := 0, Sum := 0, SumSquares := 0, Values := c.Values.take 0,
                               Percentiles := [], Timestamp := c.Timestamp, Hostname := c.Hostname,
                               Tags := c.Tags, SampledCount := 0, Buckets := ∅ }))
    (fun s => s.expiryInterval = a.expiryInterval ∧ s.percentThresholds = a.percentThresholds ∧
        s.disabledSubtypes = a.disabledSubtypes ∧ s.metricsReceived = a.metricsReceived ∧
        s.metricMap.Counters = a.metricMap.Counters ∧ s.metricMap.Gauges = a.metricMap.Gauges ∧
        s.metricMap.Sets = a.metricMap.Sets)
    (by
      intro s k t c hP hc
      refine ⟨by simp, ?_⟩
      intro r hr
      dsimp only at hc hP ⊢
      simp only [Option.some.injEq] at hr
      subst hr
      have hexp : isExpired s now c.Timestamp = isExpired a now c.Timestamp := by
        simp [isExpired, hP.1]
      rw [hexp]
      by_cases he : isExpired a now c.Timestamp = true
      · simp only [he, if_true]
        refine ⟨_, rfl, hP, ?_, ?_, ?_⟩
        · simp [cell_deleteMetric]
        · intro k' t' hne
          simp [cell_deleteMetric, hne]
        · intro k' hk'
          exact emptyName_deleteMetric _ _ _ _ hk'
      · simp only [he, if_false]
        obtain ⟨m', hm'⟩ := assign_isSome hc
          ({ Count := 0, PerSecond := 0, Mean := 0, Median := 0, Min := 0, Max := 0,
                               StdDev := 0, Sum := 0, SumSquares := 0, Values := c.Values.take 0,
                               Percentiles := [], Timestamp := c.Timestamp, Hostname := c.Hostname,
                               Tags := c.Tags, SampledCount := 0, Buckets := ∅ } : Timer F)
        refine ⟨{ s with metricMap := { s.metricMap with Timers := m' } },
          by simp only [setTimer, hm']; rfl, hP, ?_, ?_, ?_⟩
        · simp [cell_assign hm']
        · intro k' t' hne
          simp [cell_assign hm', hne]
        · intro k' hk'
          exact emptyName_assign hm' _ hk')
    a ⟨rfl, rfl, rfl, rfl, rfl, rfl, rfl⟩
  obtain ⟨a', ha', hP', h1, h2, h3⟩ := h.2 (by intro k t c _; simp)
  exact ⟨a', ha', hP', fun k t c hc => h1 k t c hc _ rfl, h2, h3⟩

omit [LinearOrderedField F] in
theorem resetSets_spec (a : MetricAggregator F) (now : Nanotime) :
    ∃ a', resetSets a now = some a' ∧
      (a'.expiryInterval = a.expiryInterval ∧ a'.percentThresholds = a.percentThresholds ∧
        a'.disabledSubtypes = a.disabledSubtypes ∧ a'.metricsReceived = a.metricsReceived ∧
        a'.metricMap.Counters = a.metricMap.Counters ∧ a'.metricMap.Timers = a.metricMap.Timers ∧
        a'.metricMap.Gauges = a.metricMap.Gauges) ∧
      (∀ k t c, cell a.metricMap.Sets k t = some c →
        cell a'.metricMap.Sets k t =
          if isExpired a now c.Timestamp then none
          else some { Values := ∅, Timestamp := c.Timestamp, Hostname := c.Hostname,
                               Tags := c.Tags }) ∧
      (∀ k t, cell a.metricMap.Sets k t = none → cell a'.metricMap.Sets k t = none) ∧
      (∀ k, emptyName a'.metricMap.Sets k → emptyName a.metricMap.Sets k) := by
  have h := Each_cells (fun s : MetricAggregator F => s.metricMap.Sets)
    (fun key tagsKey set s =>
      if isExpired s now set.Timestamp then
        some { s with metricMap :=
          { s.metricMap with Sets := deleteMetric key tagsKey s.metricMap.Sets } }
      else
        setSet s key tagsKey
          { Values := ∅, Timestamp := set.Timestamp, Hostname := set.Hostname,
                               Tags := set.Tags })
    (fun c => some (if isExpired a now c.Timestamp then none
          else some { Values := ∅, Timestamp := c.Timestamp, Hostname := c.Hostname,
                               Tags := c.Tags }))
    (fun s => s.expiryInterval = a.expiryInterval ∧ s.percentThresholds = a.percentThresholds ∧
        s.disabledSubtypes = a.disabledSubtypes ∧ s.metricsReceived = a.metricsReceived ∧
        s.metricMap.Counters = a.metricMap.Counters ∧ s.metricMap.Timers = a.metricMap.Timers ∧
        s.metricMap.Gauges = a.metricMap.Gauges)
    (by
      intro s k t c hP hc
      refine ⟨by simp, ?_⟩
      intro r hr
      dsimp only at hc hP ⊢
      simp only [Option.some.injEq] at hr
      subst hr
      have hexp : isExpired s now c.Timestamp = isExpired a now c.Timestamp := by
        simp [isExpired, hP.1]
      rw [hexp]
      by_cases he : isExpired a now c.Timestamp = true
      · simp only [he, if_true]
        refine ⟨_, rfl, hP, ?_, ?_, ?_⟩
        · simp [cell_deleteMetric]
        · intro k' t' hne
          simp [cell_deleteMetric, hne]
        · intro k' hk'
          exact emptyName_deleteMetric _ _ _ _ hk'
      · simp only [he, if_false]
        obtain ⟨m', hm'⟩ := assign_isSome hc
          ({ Values := ∅, Timestamp := c.Timestamp, Hostname := c.Hostname,
                               Tags := c.Tags } : Set)
        refine ⟨{ s with metricMap := { s.metricMap with Sets := m' } },
          by simp [setSet, hm'], hP, ?_, ?_, ?_⟩
        · simp [cell_assign hm']
        · intro k' t' hne
          simp [cell_assign hm', hne]
        · intro k' hk'
          exact emptyName_assign hm' _ hk')
    a ⟨rfl, rfl, rfl, rfl, rfl, rfl, rfl⟩
  obtain ⟨a', ha', hP', h1, h2, h3⟩ := h.2 (by intro k t c _; simp)
  exact ⟨a', ha', hP', fun k t c hc => h1 k t c hc _ rfl, h2, h3⟩

omit [LinearOrderedField F] in
theorem resetGauges_spec (a : MetricAggregator F) (now : Nanotime) :
    ∃ a', resetGauges a now = some a' ∧
      (a'.expiryInterval = a.expiryInterval ∧ a'.percentThresholds = a.percentThresholds ∧
        a'.disabledSubtypes = a.disabledSubtypes ∧ a'.metricsReceived = a.metricsReceived ∧
        a'.metricMap.Counters = a.metricMap.Counters ∧ a'.metricMap.Timers = a.metricMap.Timers ∧
        a'.metricMap.Sets = a.metricMap.Sets) ∧
      (∀ k t c, cell a.metricMap.Gauges k t = some c →
        cell a'.metricMap.Gauges k t = if isExpired a now c.Timestamp then none else some c) ∧
      (∀ k t, cell a.metricMap.Gauges k t = none → cell a'.metricMap.Gauges k t = none) ∧
      (∀ k, emptyName a'.metricMap.Gauges k → emptyName a.metricMap.Gauges k) := by
  have h := Each_cells (fun s : MetricAggregator F => s.metricMap.Gauges)
    (fun key tagsKey gauge s =>
      if isExpired s now gauge.Timestamp then
        some { s with metricMap :=
          { s.metricMap with Gauges := deleteMetric key tagsKey s.metricMap.Gauges } }
      else some s)
    (fun c => some (if isExpired a now c.Timestamp then none else some c))
    (fun s => s.expiryInterval = a.expiryInterval ∧ s.percentThresholds = a.percentThresholds ∧
        s.disabledSubtypes = a.disabledSubtypes ∧ s.metricsReceived = a.metricsReceived ∧
        s.metricMap.Counters = a.metricMap.Counters ∧ s.metricMap.Timers = a.metricMap.Timers ∧
        s.metricMap.Sets = a.metricMap.Sets)
    (by
      intro s k t c hP hc
      refine ⟨by simp, ?_⟩
      intro r hr
      dsimp only at hc hP ⊢
      simp only [Option.some.injEq] at hr
      subst hr
      have hexp : isExpired s now c.Timestamp = isExpired a now c.Timestamp := by
        simp [isExpired, hP.1]
      rw [hexp]
      by_cases he : isExpired a now c.Timestamp = true
      · simp only [he, if_true]
        refine ⟨_, rfl, hP, ?_, ?_, ?_⟩
        · simp [cell_deleteMetric]
        · intro k' t' hne
          simp [cell_deleteMetric, hne]
        · intro k' hk'
          exact emptyName_deleteMetric _ _ _ _ hk'
      · simp only [he, if_false]
        exact ⟨s, rfl, hP, hc, fun _ _ _ => rfl, fun _ h => h⟩)
    a ⟨rfl, rfl, rfl, rfl, rfl, rfl, rfl⟩
  obtain ⟨a', ha', hP', h1, h2, h3⟩ := h.2 (by intro k t c _; simp)
  exact ⟨a', ha', hP', fun k t c hc => h1 k t c hc _ rfl, h2, h3⟩

/-- The four loops of `Reset` in a row: it never fails, leaves the configuration alone,
and rewrites each map cell by cell. -/
theorem Reset_spec (a : MetricAggregator F) (now : Nanotime) :
    ∃ a', Reset a now = some a' ∧
      (a'.expiryInterval = a.expiryInterval ∧ a'.percentThresholds = a.percentThresholds ∧
        a'.disabledSubtypes = a.disabledSubtypes ∧ a'.metricsReceived = 0) ∧
      ((∀ k t c, cell a.metricMap.Counters k t = some c →
          cell a'.metricMap.Counters k t =
            if isExpired a now c.Timestamp then none
            else some { PerSecond := 0, Value := 0, Timestamp := c.Timestamp,
                        Hostname := c.Hostname, Tags := c.Tags }) ∧
        (∀ k t, cell a.metricMap.Counters k t = none → cell a'.metricMap.Counters k t = none) ∧
        (∀ k, emptyName a'.metricMap.Counters k → emptyName a.metricMap.Counters k)) ∧
      ((∀ k t c, cell a.metricMap.Timers k t = some c →
          cell a'.metricMap.Timers k t =
            if isExpired a now c.Timestamp then none
            else some { Count := 0, PerSecond := 0, Mean := 0, Median := 0, Min := 0, Max := 0,
                        StdDev := 0, Sum := 0, SumSquares := 0, Values := c.Values.take 0,
                        Percentiles := [], Timestamp := c.Timestamp, Hostname := c.Hostname,
                        Tags := c.Tags, SampledCount := 0, Buckets := ∅ }) ∧
        (∀ k t, cell a.metricMap.Timers k t = none → cell a'.metricMap.Timers k t = none) ∧
        (∀ k, emptyName a'.metricMap.Timers k → emptyName a.metricMap.Timers k)) ∧
      ((∀ k t c, cell a.metricMap.Gauges k t = some c →
          cell a'.metricMap.Gauges k t = if isExpired a now c.Timestamp then none else some c) ∧
        (∀ k t, cell a.metricMap.Gauges k t = none → cell a'.metricMap.Gauges k t = none) ∧
        (∀ k, emptyName a'.metricMap.Gauges k → emptyName a.metricMap.Gauges k)) ∧
      ((∀ k t c, cell a.metricMap.Sets k t = some c →
          cell a'.metricMap.Sets k t =
            if isExpired a now c.Timestamp then none
            else some { Values := ∅, Timestamp := c.Timestamp, Hostname := c.Hostname,
                        Tags := c.Tags }) ∧
        (∀ k t, cell a.metricMap.Sets k t = none → cell a'.metricMap.Sets k t = none) ∧
        (∀ k, emptyName a'.metricMap.Sets k → emptyName a.metricMap.Sets k)) := by
  obtain ⟨a1, h1, f1, c1⟩ := resetCounters_spec { a with metricsReceived := 0 } now
  obtain ⟨a2, h2, f2, c2⟩ := resetTimers_spec a1 now
  obtain ⟨a3, h3, f3, c3⟩ := resetGauges_spec a2 now
  obtain ⟨a4, h4, f4, c4⟩ := resetSets_spec a3 now
  obtain ⟨f11, f12, f13, f14, f15, f16, f17⟩ := f1
  obtain ⟨f21, f22, f23, f24, f25, f26, f27⟩ := f2
  obtain ⟨f31, f32, f33, f34, f35, f36, f37⟩ := f3
  obtain ⟨f41, f42, f43, f44, f45, f46, f47⟩ := f4
  have e1 : ∀ ts, isExpired a1 now ts = isExpired a now ts := by
    intro ts; simp [isExpired, f11]
  have e2 : ∀ ts, isExpired a2 now ts = isExpired a now ts := by
    intro ts; simp [isExpired, f21, f11]
  have e3 : ∀ ts, isExpired a3 now ts = isExpired a now ts := by
    intro ts; simp [isExpired, f31, f21, f11]
  have e0 : ∀ ts, isExpired ({ a with metricsReceived := 0 } : MetricAggregator F) now ts
      = isExpired a now ts := by
    intro ts; simp [isExpired]
  refine ⟨a4, ?_, ⟨?_, ?_, ?_, ?_⟩, ?_, ?_, ?_, ?_⟩
  · simp [Reset, h1, h2, h3, h4]
  · rw [f41, f31, f21, f11]
  · rw [f42, f32, f22, f12]
  · rw [f43, f33, f23, f13]
  · rw [f44, f34, f24, f14]
  · rw [f45, f35, f25]
    simp only [e0] at c1
    exact c1
  · rw [f46, f36]
    simp only [e1, f15] at c2
    exact c2
  · rw [f47]
    simp only [e2, f26, f16] at c3
    exact c3
  · simp only [e3, f37, f27, f17] at c4
    exact c4

end ResetLemmas

/-! ## Lemmas on the default pipeline -/

section PipelineLemmas

variable {F : Type} [LinearOrderedField F] [FloorRing F]

theorem toInt_intCast (z : Int) : toInt (z : F) = z := by
  unfold toInt
  split
  · exact Int.floor_intCast z
  · exact Int.ceil_intCast z

theorem toInt_mathFloor (x : F) : toInt (mathFloor x) = ⌊x⌋ := by
  unfold mathFloor
  exact toInt_intCast _

omit [FloorRing F] in
theorem pow2_pos (e : Int) : (0 : F) < pow2 e := by
  unfold pow2
  split <;> positivity

theorem roundHalfEven_nonneg (s : F) (hs : 0 ≤ s) : 0 ≤ roundHalfEven s := by
  have hf : (0 : Int) ≤ ⌊s⌋ := Int.floor_nonneg.mpr hs
  unfold roundHalfEven
  simp only
  split_ifs <;> omega

theorem rnd64_nonneg (x : F) (hx : 0 ≤ x) : 0 ≤ rnd64 x := by
  unfold rnd64
  by_cases h0 : x = 0
  · simp [h0]
  · have hpos : 0 < x := lt_of_le_of_ne hx (Ne.symm h0)
    simp only [h0, if_false, hpos, if_true]
    apply mul_nonneg
    · exact_mod_cast roundHalfEven_nonneg _ (div_nonneg (abs_nonneg _) (le_of_lt (pow2_pos _)))
    · exact le_of_lt (pow2_pos _)

theorem toInt_round (v : F) : toInt (round v) = ⌊rnd64 (v + 1 / 2)⌋ := by
  unfold round
  exact toInt_mathFloor _

theorem numInThreshold_eq (pct : F) (n : Nat) :
    numInThreshold pct n = ⌊rnd64 (rnd64 (rnd64 (|pct| / 100) * (n : F)) + 1 / 2)⌋ := by
  unfold numInThreshold
  exact toInt_round _

theorem numInThreshold_nonneg (pct : F) (n : Nat) : 0 ≤ numInThreshold pct n := by
  rw [numInThreshold_eq, Int.floor_nonneg]
  apply rnd64_nonneg
  have h1 : 0 ≤ rnd64 (|pct| / 100) := rnd64_nonneg _ (by positivity)
  have h2 : 0 ≤ rnd64 (rnd64 (|pct| / 100) * (n : F)) :=
    rnd64_nonneg _ (mul_nonneg h1 (Nat.cast_nonneg _))
  linarith


/-! The rounding commutes with the embedding of `ℚ`, so its values on any field are those
computed on `ℚ`. -/

omit [FloorRing F] in
theorem pow2_ratCast (e : Int) : pow2 e = (((pow2 e : ℚ) : ℚ) : F) := by
  unfold pow2
  split <;> push_cast <;> rfl

theorem binade_ratCast (x : ℚ) : binade (x : F) = binade x := by
  unfold binade
  have h1 : (1 ≤ (x : F)) ↔ 1 ≤ x := by exact_mod_cast Iff.rfl
  have h2 : ⌊(x : F)⌋ = ⌊x⌋ := Rat.floor_cast x
  have h3 : ⌈(1 : F) / (x : F)⌉ = ⌈1 / x⌉ := by
    rw [← Rat.ceil_cast (α := F) (1 / x)]
    push_cast
    rfl
  simp only [h1, h2, h3]

theorem roundHalfEven_ratCast (s : ℚ) : roundHalfEven (s : F) = roundHalfEven s := by
  unfold roundHalfEven
  have h2 : ⌊(s : F)⌋ = ⌊s⌋ := Rat.floor_cast s
  have h3 : ((s : F) - ((⌊s⌋ : Int) : F)) = ((s - ((⌊s⌋ : Int) : ℚ) : ℚ) : F) := by
    push_cast
    rfl
  have h4 : ∀ d : ℚ, ((d : F) < 1 / 2) ↔ d < 1 / 2 := by
    intro d
    have : ((1 / 2 : ℚ) : F) = 1 / 2 := by push_cast; rfl
    rw [← this, Rat.cast_lt]
  have h5 : ∀ d : ℚ, ((1 / 2 : F) < (d : F)) ↔ 1 / 2 < d := by
    intro d
    have : ((1 / 2 : ℚ) : F) = 1 / 2 := by push_cast; rfl
    rw [← this, Rat.cast_lt]
  simp only [h2, h3, h4, h5]

theorem rnd64_ratCast (x : ℚ) : rnd64 (x : F) = ((rnd64 x : ℚ) : F) := by
  unfold rnd64
  have h0 : ((x : F) = 0) ↔ x = 0 := Rat.cast_eq_zero
  have hp : ((0 : F) < (x : F)) ↔ 0 < x := Rat.cast_pos
  have ha : |(x : F)| = ((|x| : ℚ) : F) := (Rat.cast_abs x).symm
  simp only [h0, hp, ha, binade_ratCast]
  have hs : ∀ q : Int, ((|x| : ℚ) : F) / pow2 q = ((|x| / pow2 q : ℚ) : F) := by
    intro q
    rw [pow2_ratCast (F := F) q]
    push_cast
    rfl
  simp only [hs, roundHalfEven_ratCast]
  split_ifs
  · simp
  · rw [pow2_ratCast (F := F)]
    push_cast
    rfl
  · rw [pow2_ratCast (F := F)]
    push_cast
    rfl

theorem numInThreshold_ratCast (p : ℚ) (n : Nat) :
    numInThreshold (p : F) n = numInThreshold p n := by
  unfold numInThreshold round mathFloor toInt
  have h1 : rnd64 (rnd64 (rnd64 (|(p : F)| / 100) * (n : F)) + 1 / 2)
      = ((rnd64 (rnd64 (rnd64 (|p| / 100) * (n : ℚ)) + 1 / 2) : ℚ) : F) := by
    have e1 : |(p : F)| / 100 = ((|p| / 100 : ℚ) : F) := by push_cast; rfl
    rw [e1, rnd64_ratCast]
    have e2 : ((rnd64 (|p| / 100) : ℚ) : F) * (n : F) = ((rnd64 (|p| / 100) * (n : ℚ) : ℚ) : F) := by
      push_cast; rfl
    rw [e2, rnd64_ratCast]
    have e3 : ((rnd64 (rnd64 (|p| / 100) * (n : ℚ)) : ℚ) : F) + 1 / 2
        = ((rnd64 (rnd64 (|p| / 100) * (n : ℚ)) + 1 / 2 : ℚ) : F) := by
      push_cast; rfl
    rw [e3, rnd64_ratCast]
  rw [h1, Rat.floor_cast]
  simp

theorem round_ratCast (x : ℚ) : round (x : F) = ((round x : ℚ) : F) := by
  unfold round mathFloor
  have e : (x : F) + 1 / 2 = ((x + 1 / 2 : ℚ) : F) := by push_cast; rfl
  rw [e, rnd64_ratCast, Rat.floor_cast]
  simp

/-- The count of a threshold on ordinary inputs where the `float64` product decides it:
58 % of 25 values, 70 % of 45 and 29 % of 50 give 14, 31 and 14, one less than the exact
products 14.5, 31.5 and 14.5 rounded half-up. -/
theorem numInThreshold_float64 :
    numInThreshold (58 : ℚ) 25 = 14 ∧ ⌊(58 : ℚ) / 100 * 25 + 1 / 2⌋ = 15 ∧
    numInThreshold (70 : ℚ) 45 = 31 ∧ ⌊(70 : ℚ) / 100 * 45 + 1 / 2⌋ = 32 ∧
    numInThreshold (29 : ℚ) 50 = 14 ∧ ⌊(29 : ℚ) / 100 * 50 + 1 / 2⌋ = 15 := by
  decide!

theorem floor_natCast_div_two (n : Nat) : ⌊(n : F) / 2⌋ = ((n / 2 : Nat) : Int) := by
  rw [Int.floor_eq_iff]
  have h := Nat.div_add_mod n 2
  have h2 : n % 2 < 2 := Nat.mod_lt _ (by norm_num)
  generalize n / 2 = m at h ⊢
  generalize n % 2 = r at h h2
  have hc : (n : F) = 2 * (m : F) + (r : F) := by
    exact_mod_cast h.symm
  have h3 : (r : F) < 2 := by exact_mod_cast h2
  have h4 : (0 : F) ≤ (r : F) := Nat.cast_nonneg _
  simp only [Int.cast_natCast]
  constructor
  · rw [le_div_iff₀ (by norm_num : (0 : F) < 2)]
    linarith
  · rw [div_lt_iff₀ (by norm_num : (0 : F) < 2)]
    linarith

theorem mid_eq (n : Nat) : toInt (mathFloor ((n : F) / 2)) = ((n / 2 : Nat) : Int) := by
  rw [toInt_mathFloor, floor_natCast_div_two]

theorem mathMod_two (n : Nat) : mathMod (n : F) 2 = 0 ↔ n % 2 = 0 := by
  unfold mathMod toInt
  have hnn : (0 : F) ≤ (n : F) / 2 := by positivity
  simp only [hnn, if_true, floor_natCast_div_two, Int.cast_natCast]
  have h := Nat.div_add_mod n 2
  generalize n / 2 = m at h ⊢
  have hc : (n : F) = 2 * (m : F) + ((n % 2 : Nat) : F) := by
    exact_mod_cast h.symm
  constructor
  · intro h0
    have : ((n % 2 : Nat) : F) = 0 := by linarith
    exact_mod_cast this
  · intro h0
    rw [h0] at hc
    simp only [Nat.cast_zero, add_zero] at hc
    linarith

theorem index_natCast {α : Type} (l : List α) (i : Nat) : index l (i : Int) = l[i]? := by
  simp [index]

theorem index_neg {α : Type} (l : List α) (i : Int) (h : i < 0) : index l i = none := by
  simp [index, h]

omit [FloorRing F] in
theorem length_cumulate (g : F → F) (prev : F) (l : List F) :
    (cumulate g prev l).length = l.length := by
  induction l generalizing prev with
  | nil => rfl
  | cons v rest ih => simp [cumulate, ih]

omit [FloorRing F] in
theorem getElem?_cumulate (g : F → F) (prev : F) (l : List F) (i : Nat) (hi : i < l.length) :
    (cumulate g prev l)[i]? = some (((l.take (i + 1)).map g).sum + prev) := by
  induction l generalizing prev i with
  | nil => simp at hi
  | cons v rest ih =>
    cases i with
    | zero => simp [cumulate]
    | succ j =>
      simp only [List.length_cons, Nat.add_lt_add_iff_right] at hi
      simp only [cumulate, List.getElem?_cons_succ, ih _ j hi, List.take_succ_cons, List.map_cons,
        List.sum_cons]
      congr 1
      ring

omit [FloorRing F] in
/-- The slot `i` of a running-sum slice of `defaultPipeline` holds the sum of `g` over
the first `i + 1` values. -/
theorem getElem?_running (g : F → F) (v : F) (rest : List F) (i : Nat)
    (hi : i < (v :: rest).length) :
    (g v :: cumulate g (g v) rest)[i]? = some ((((v :: rest).take (i + 1)).map g).sum) := by
  cases i with
  | zero => simp
  | succ j =>
    simp only [List.length_cons, Nat.add_lt_add_iff_right] at hi
    simp only [List.getElem?_cons_succ, getElem?_cumulate g (g v) rest j hi, List.take_succ_cons,
      List.map_cons, List.sum_cons]
    congr 1
    ring

omit [FloorRing F] in
theorem emitPercentiles_eq (d : TimerSubtypes) (pct : F) (s : percentStruct) (num : Int)
    (st : PctLocals F) :
    emitPercentiles d pct s num st =
      { st with Percentiles := st.Percentiles ++
          emitted d pct s num st.mean st.sum st.sumSquares st.thresholdBoundary } := by
  obtain ⟨d1, d2, d3, d4, d5, d6⟩ := d
  by_cases hp : pct > 0 <;> cases d1 <;> cases d2 <;> cases d3 <;> cases d4 <;> cases d5 <;>
    cases d6 <;> simp [emitPercentiles, emitted, Percentiles.Set, hp]

omit [FloorRing F] in
theorem index_values (values : List F) (i : Nat) (hi : i < values.length) :
    index values (i : Int) = some (values.getD i 0) := by
  rw [index_natCast, List.getD_eq_getElem?_getD, List.getElem?_eq_getElem hi]
  rfl

omit [FloorRing F] in
theorem index_cum (v : F) (rest : List F) (i : Nat) (hi : i < (v :: rest).length) :
    index (v :: cumulate (fun x => x) v rest) (i : Int) = some (((v :: rest).take (i + 1)).sum) := by
  rw [index_natCast]
  have := getElem?_running (fun x => x) v rest i hi
  simpa using this

omit [FloorRing F] in
theorem index_cumSq (v : F) (rest : List F) (i : Nat) (hi : i < (v :: rest).length) :
    index ((v * v) :: cumulate (fun x => x * x) (v * v) rest) (i : Int) =
      some ((((v :: rest).take (i + 1)).map (fun x => x * x)).sum) := by
  rw [index_natCast]
  exact getElem?_running (fun x => x * x) v rest i hi

omit [FloorRing F] in
theorem index_ge {α : Type} (l : List α) (i : Int) (h : (l.length : Int) ≤ i) :
    index l i = none := by
  unfold index
  split
  · rfl
  · rw [List.getElem?_eq_none]
    omega

theorem pctStep_spec (d : TimerSubtypes) (v : F) (rest : List F) (st : PctLocals F) (pct : F)
    (s : percentStruct)
    (hinv : (v :: rest).length ≤ 1 →
      st.mean = v ∧ st.sum = v ∧ st.sumSquares = v * v ∧ st.thresholdBoundary = v) :
    (pctBlock d (v :: rest) pct s = none →
      pctStep d (v :: rest) (v :: cumulate (fun x => x) v rest)
        ((v * v) :: cumulate (fun x => x * x) (v * v) rest) (v :: rest).length st pct s = none) ∧
    (∀ b, pctBlock d (v :: rest) pct s = some b →
      ∃ st', pctStep d (v :: rest) (v :: cumulate (fun x => x) v rest)
        ((v * v) :: cumulate (fun x => x * x) (v * v) rest) (v :: rest).length st pct s = some st' ∧
        st'.Percentiles = st.Percentiles ++ b ∧
        ((v :: rest).length ≤ 1 →
          st'.mean = v ∧ st'.sum = v ∧ st'.sumSquares = v * v ∧ st'.thresholdBoundary = v)) := by
  generalize hvals : v :: rest = values at *
  have hlen : values.length = rest.length + 1 := by rw [← hvals]; rfl
  have hk := numInThreshold_nonneg pct values.length
  unfold pctStep pctBlock
  simp only [emitPercentiles_eq]
  by_cases hn : values.length > 1
  · simp only [hn, if_true]
    have hinv' : ¬ values.length ≤ 1 := by omega
    by_cases hk0 : numInThreshold pct values.length = 0
    · simp only [hk0, if_true]
      refine ⟨by simp, ?_⟩
      intro b hb
      simp only [Option.some.injEq] at hb
      subst hb
      exact ⟨st, rfl, by simp, fun h => absurd h hinv'⟩
    · simp only [hk0, if_false]
      obtain ⟨kn, hkn⟩ := Int.eq_ofNat_of_zero_le hk
      have hkn1 : 1 ≤ kn := by
        rcases Nat.eq_zero_or_pos kn with h0 | h0
        · rw [h0] at hkn; exact absurd hkn hk0
        · exact h0
      rw [hkn] at hk0 ⊢
      simp only [Int.toNat_ofNat]
      by_cases hp : pct > 0
      · simp only [hp, if_true]
        by_cases hle : (kn : Int) ≤ (values.length : Int)
        · have hle' : kn ≤ values.length := by exact_mod_cast hle
          have e1 : ((kn : Int) - 1) = ((kn - 1 : Nat) : Int) := by omega
          have hlt : kn - 1 < values.length := by omega
          have hlt' : kn - 1 < (v :: rest).length := by rw [hvals]; exact hlt
          have i1 := index_values values (kn - 1) hlt
          have i2 := index_cum v rest (kn - 1) hlt'
          have i3 := index_cumSq v rest (kn - 1) hlt'
          rw [hvals] at i2 i3
          have e2 : kn - 1 + 1 = kn := by omega
          rw [e2] at i2 i3
          simp only [hle, if_true, e1, i1, i2, i3, Option.bind_eq_bind, Option.some_bind,
            Option.pure_def]
          refine ⟨by simp, ?_⟩
          intro b hb
          simp only [Option.some.injEq] at hb
          subst hb
          exact ⟨_, rfl, rfl, fun h => absurd h hinv'⟩
        · simp only [hle, if_false]
          refine ⟨fun _ => ?_, by simp⟩
          have : index values ((kn : Int) - 1) = none := index_ge _ _ (by omega)
          simp [this]
      · simp only [hp, if_false]
        by_cases hlt : (kn : Int) < (values.length : Int)
        · have hlt' : kn < values.length := by exact_mod_cast hlt
          have e1 : ((values.length : Int) - (kn : Int)) = ((values.length - kn : Nat) : Int) := by
            omega
          have e2 : ((values.length : Int) - 1) = ((values.length - 1 : Nat) : Int) := by omega
          have e3 : (((values.length - kn : Nat) : Int) - 1)
              = ((values.length - kn - 1 : Nat) : Int) := by omega
          have i1 := index_values values (values.length - kn) (by omega)
          have i2 := index_cum v rest (values.length - 1) (by rw [hvals]; omega)
          have i3 := index_cum v rest (values.length - kn - 1) (by rw [hvals]; omega)
          have i4 := index_cumSq v rest (values.length - 1) (by rw [hvals]; omega)
          have i5 := index_cumSq v rest (values.length - kn - 1) (by rw [hvals]; omega)
          rw [hvals] at i2 i3 i4 i5
          have e4 : values.length - 1 + 1 = values.length := by omega
          have e5 : values.length - kn - 1 + 1 = values.length - kn := by omega
          rw [e4, List.take_length] at i2 i4
          rw [e5] at i3 i5
          simp only [hlt, if_true, e1, e2, e3, i1, i2, i3, i4, i5, Option.bind_eq_bind,
            Option.some_bind, Option.pure_def]
          refine ⟨by simp, ?_⟩
          intro b hb
          simp only [Option.some.injEq] at hb
          subst hb
          exact ⟨_, rfl, rfl, fun h => absurd h hinv'⟩
        · simp only [hlt, if_false]
          refine ⟨fun _ => ?_, by simp⟩
          rcases eq_or_lt_of_le (not_lt.mp hlt) with heq | hgt
          · have hz : ((values.length : Int) - (kn : Int)) = ((0 : Nat) : Int) := by omega
            have : index (v :: cumulate (fun x => x) v rest) (((0 : Nat) : Int) - 1) = none :=
              index_neg _ _ (by omega)
            have e2 : ((values.length : Int) - 1) = ((values.length - 1 : Nat) : Int) := by omega
            have i1 := index_values values 0 (by omega)
            have i2 := index_cum v rest (values.length - 1) (by rw [hvals]; omega)
            simp only [hz, e2, i1, i2, this, Option.bind_eq_bind, Option.some_bind,
              Option.none_bind]
          · have : index values ((values.length : Int) - (kn : Int)) = none :=
              index_neg _ _ (by omega)
            simp [this]
  · simp only [hn, if_false]
    have hle : values.length ≤ 1 := by omega
    have hrest : rest = [] := by
      have : rest.length = 0 := by omega
      exact List.length_eq_zero.mp this
    obtain ⟨h1, h2, h3, h4⟩ := hinv hle
    refine ⟨by simp, ?_⟩
    intro b hb
    simp only [Option.some.injEq] at hb
    subst hb
    refine ⟨_, rfl, ?_, fun _ => ⟨h1, h2, h3, h4⟩⟩
    simp only [h1, h2, h3, h4]
    rw [← hvals]
    rfl

theorem foldlM_pctStep (d : TimerSubtypes) (v : F) (rest : List F)
    (entries : List (Sigma fun _ : F => percentStruct)) :
    ∀ st : PctLocals F,
      ((v :: rest).length ≤ 1 →
        st.mean = v ∧ st.sum = v ∧ st.sumSquares = v * v ∧ st.thresholdBoundary = v) →
      ((∃ e ∈ entries, pctBlock d (v :: rest) e.1 e.2 = none) →
        entries.foldlM (fun st e => pctStep d (v :: rest) (v :: cumulate (fun x => x) v rest)
          ((v * v) :: cumulate (fun x => x * x) (v * v) rest) (v :: rest).length st e.1 e.2) st
          = none) ∧
      ((∀ e ∈ entries, pctBlock d (v :: rest) e.1 e.2 ≠ none) →
        ∃ st' blocks,
          entries.foldlM (fun st e => pctStep d (v :: rest) (v :: cumulate (fun x => x) v rest)
            ((v * v) :: cumulate (fun x => x * x) (v * v) rest) (v :: rest).length st e.1 e.2) st
            = some st' ∧
          List.Forall₂ (fun e b => pctBlock d (v :: rest) e.1 e.2 = some b) entries blocks ∧
          st'.Percentiles = st.Percentiles ++ blocks.flatten) := by
  induction entries with
  | nil =>
    intro st _
    exact ⟨by simp, fun _ => ⟨st, [], rfl, List.Forall₂.nil, by simp⟩⟩
  | cons e es ih =>
    intro st hinv
    have hstep := pctStep_spec d v rest st e.1 e.2 hinv
    cases hb : pctBlock d (v :: rest) e.1 e.2 with
    | none =>
      refine ⟨fun _ => ?_, fun h => absurd hb (h e (List.mem_cons_self _ _))⟩
      simp only [List.foldlM_cons, hstep.1 hb, Option.bind_eq_bind, Option.none_bind]
    | some b =>
      obtain ⟨st1, h1, hp1, hinv1⟩ := hstep.2 b hb
      obtain ⟨ihn, ihs⟩ := ih st1 hinv1
      refine ⟨fun h => ?_, fun h => ?_⟩
      · obtain ⟨e', he', hn'⟩ := h
        simp only [List.foldlM_cons, h1, Option.bind_eq_bind, Option.some_bind]
        rcases List.mem_cons.mp he' with rfl | hmem
        · rw [hb] at hn'; exact Option.noConfusion hn'
        · exact ihn ⟨e', hmem, hn'⟩
      · obtain ⟨st', blocks, h2, hf, hp2⟩ := ihs (fun e' he' => h e' (List.mem_cons_of_mem _ he'))
        refine ⟨st', b :: blocks, ?_, List.Forall₂.cons hb hf, ?_⟩
        · simp only [List.foldlM_cons, h1, Option.bind_eq_bind, Option.some_bind]
          exact h2
        · rw [hp2, hp1]
          simp

omit [FloorRing F] in
theorem foldl_sumOfDiffs (mean : F) (values : List F) (acc : F) :
    values.foldl (fun acc v => acc + (v - mean) * (v - mean)) acc =
      acc + (values.map (fun v => (v - mean) * (v - mean))).sum := by
  induction values generalizing acc with
  | nil => simp
  | cons x xs ih => simp [List.foldl_cons, ih, add_assoc]

theorem defaultStats_spec (sqrt : F → F) (timer : Timer F) (a : MetricAggregator F) (fs : F)
    (v : F) (rest : List F) (hsort : sortFloat64s timer.Values = v :: rest) :
    ((∃ e ∈ a.percentThresholds.entries,
        pctBlock a.disabledSubtypes (v :: rest) e.1 e.2 = none) →
      defaultStats sqrt timer a fs = none) ∧
    ((∀ e ∈ a.percentThresholds.entries,
        pctBlock a.disabledSubtypes (v :: rest) e.1 e.2 ≠ none) →
      ∃ blocks,
        List.Forall₂ (fun e b => pctBlock a.disabledSubtypes (v :: rest) e.1 e.2 = some b)
          a.percentThresholds.entries blocks ∧
        defaultStats sqrt timer a fs = some
          { timer with
            Values := v :: rest
            Min := v
            Max := (v :: rest).getD ((v :: rest).length - 1) 0
            Percentiles := timer.Percentiles ++ blocks.flatten
            Median :=
              if (v :: rest).length % 2 = 0 then
                ((v :: rest).getD ((v :: rest).length / 2 - 1) 0 +
                  (v :: rest).getD ((v :: rest).length / 2) 0) / 2
              else (v :: rest).getD ((v :: rest).length / 2) 0
            Mean := (v :: rest).sum / ((v :: rest).length : F)
            StdDev := sqrt (((v :: rest).map (fun x =>
                (x - (v :: rest).sum / ((v :: rest).length : F)) *
                (x - (v :: rest).sum / ((v :: rest).length : F)))).sum /
              ((v :: rest).length : F))
            Sum := (v :: rest).sum
            SumSquares := ((v :: rest).map (fun x => x * x)).sum
            Count := ⌊rnd64 (timer.SampledCount + 1 / 2)⌋
            PerSecond := timer.SampledCount / fs }) := by
  have hlen : timer.Values.length = (v :: rest).length := by
    rw [← hsort]; exact (List.length_insertionSort _ _).symm
  have hfold := foldlM_pctStep a.disabledSubtypes v rest a.percentThresholds.entries
    { sumSquares := v * v, mean := v, sum := v,
      thresholdBoundary := (v :: rest).getD ((v :: rest).length - 1) 0,
      Percentiles := timer.Percentiles }
    (by
      intro h
      have : rest = [] := List.length_eq_zero.mp (by simpa using h)
      subst this
      exact ⟨rfl, rfl, rfl, rfl⟩)
  have i0 : index (v :: rest) 0 = some v := by simp [index]
  have e1 : ((timer.Values.length : Int) - 1) = (((v :: rest).length - 1 : Nat) : Int) := by
    rw [hlen]; simp
  have i1 := index_values (v :: rest) ((v :: rest).length - 1) (by simp)
  have e2 : (((v :: rest).length : Int) - 1) = (((v :: rest).length - 1 : Nat) : Int) := by simp
  have i2 := index_cum v rest ((v :: rest).length - 1) (by simp)
  have i3 := index_cumSq v rest ((v :: rest).length - 1) (by simp)
  have e3 : (v :: rest).length - 1 + 1 = (v :: rest).length := by simp
  rw [e3, List.take_length] at i2 i3
  unfold defaultStats
  simp only [hsort, i0, e1, i1, Option.bind_eq_bind, Option.some_bind, List.tail_cons]
  constructor
  · intro h
    rw [hfold.1 h]
    rfl
  · intro h
    obtain ⟨st', blocks, hf, hall, hp⟩ := hfold.2 h
    refine ⟨blocks, hall, ?_⟩
    rw [hf]
    simp only [Option.some_bind, e2, i2, i3, toInt_mathFloor, floor_natCast_div_two, toInt_round,
      mathMod_two,
      foldl_sumOfDiffs, zero_add]
    by_cases hpar : (v :: rest).length % 2 = 0
    · have hge : 1 ≤ (v :: rest).length / 2 := by
        have : 1 ≤ (v :: rest).length := by simp
        omega
      have e4 : ((((v :: rest).length / 2 : Nat) : Int) - 1)
          = (((v :: rest).length / 2 - 1 : Nat) : Int) := by omega
      have i4 := index_values (v :: rest) ((v :: rest).length / 2 - 1) (by omega)
      have i5 := index_values (v :: rest) ((v :: rest).length / 2) (by omega)
      simp only [hpar, if_true, e4, i4, i5, Option.some_bind, Option.pure_def, hp]
    · have i5 := index_values (v :: rest) ((v :: rest).length / 2)
        (by have : 1 ≤ (v :: rest).length := by simp
            omega)
      simp only [hpar, if_false, i5, Option.some_bind, Option.pure_def, hp]

end PipelineLemmas

/-! ## Lemmas on the bucketed pipeline -/

section BucketLemmas

variable {F : Type} [LinearOrderedField F] [FloorRing F]

omit [FloorRing F] in
theorem initial_valuesMap :
    (buckets : List F).foldl (fun m value => TreeMap.Put m value 0) []
      = (bucketKeys : List F).map (fun k => (k, (0 : Int))) := by
  norm_num [buckets, bucketKeys, TreeMap.Put]

omit [FloorRing F] in
theorem Put_map (keys : List F) (hs : keys.Pairwise (fun x y => x < y)) (cnt : F → Int)
    (b : F) (hb : b ∈ keys) (c : Int) :
    TreeMap.Put (keys.map (fun k => (k, cnt k))) b c
      = keys.map (fun k => (k, if k = b then c else cnt k)) := by
  induction keys with
  | nil => simp at hb
  | cons k ks ih =>
    rw [List.pairwise_cons] at hs
    rcases List.mem_cons.mp hb with rfl | hmem
    · simp only [List.map_cons, TreeMap.Put, lt_irrefl, if_false, if_true]
      congr 1
      apply List.map_congr_left
      intro k' hk'
      have : k' ≠ b := ne_of_gt (hs.1 k' hk')
      simp [this]
    · have hlt : k < b := hs.1 b hmem
      simp only [List.map_cons, TreeMap.Put, not_lt.mpr (le_of_lt hlt), if_false,
        ne_of_gt hlt, ne_of_lt hlt, ih hs.2 hmem]

omit [FloorRing F] in
theorem find?_lt_of_find?_le (keys : List F) (v : F) :
    (keys.find? (fun k => decide (v ≤ k)) = none →
      keys.find? (fun k => decide (v < k)) = none) ∧
    (∀ k, keys.find? (fun k => decide (v ≤ k)) = some k → k ≠ v →
      keys.find? (fun k => decide (v < k)) = some k) := by
  induction keys with
  | nil => simp
  | cons x xs ih =>
    by_cases hx : v ≤ x
    · constructor
      · intro h
        simp [List.find?_cons, hx] at h
      · intro k hk hne
        simp only [List.find?_cons, hx, decide_True, Option.some.injEq] at hk
        subst hk
        have : v < x := lt_of_le_of_ne hx (Ne.symm hne)
        simp [List.find?_cons, this]
    · have hx' : ¬ v < x := fun h => hx (le_of_lt h)
      simp only [List.find?_cons, hx, hx', decide_False]
      exact ih

omit [FloorRing F] in
theorem find?_congr_mem {α : Type} (l : List α) (p q : α → Bool) (h : ∀ x ∈ l, p x = q x) :
    l.find? p = l.find? q := by
  induction l with
  | nil => rfl
  | cons x xs ih =>
    simp only [List.find?_cons, h x (List.mem_cons_self _ _)]
    rw [ih (fun y hy => h y (List.mem_cons_of_mem _ hy))]

omit [FloorRing F] in
theorem bucketKeys_sorted : (bucketKeys : List F).Pairwise (fun x y => x < y) := by
  norm_num [bucketKeys]

omit [FloorRing F] in
/-- Every key is a natural number, so two keys differ by at least one. -/
theorem bucketKeys_gap (v k : F) (hv : v ∈ (bucketKeys : List F))
    (hk : k ∈ (bucketKeys : List F)) : v + 1 / 1000000000 ≤ k ↔ v < k := by
  have hnat : ∀ x ∈ (bucketKeys : List F), ∃ n : Nat, x = (n : F) := by
    intro x hx
    simp only [bucketKeys, List.mem_cons, List.mem_singleton, List.not_mem_nil, or_false] at hx
    rcases hx with h | h | h | h | h | h | h | h | h | h | h | h
    · exact ⟨0, by rw [h]; norm_num⟩
    · exact ⟨20, by rw [h]; norm_num⟩
    · exact ⟨30, by rw [h]; norm_num⟩
    · exact ⟨40, by rw [h]; norm_num⟩
    · exact ⟨50, by rw [h]; norm_num⟩
    · exact ⟨75, by rw [h]; norm_num⟩
    · exact ⟨100, by rw [h]; norm_num⟩
    · exact ⟨200, by rw [h]; norm_num⟩
    · exact ⟨500, by rw [h]; norm_num⟩
    · exact ⟨1000, by rw [h]; norm_num⟩
    · exact ⟨2000, by rw [h]; norm_num⟩
    · exact ⟨5000, by rw [h]; norm_num⟩
  obtain ⟨a, rfl⟩ := hnat v hv
  obtain ⟨b, rfl⟩ := hnat k hk
  have hpos : (0 : F) < 1 / 1000000000 := by norm_num
  constructor
  · intro h
    linarith
  · intro h
    have h' : a < b := by exact_mod_cast h
    have h'' : ((a + 1 : Nat) : F) ≤ (b : F) := by exact_mod_cast h'
    have hle : (1 : F) / 1000000000 ≤ 1 := by norm_num
    push_cast at h''
    linarith

omit [FloorRing F] in
/-- One value moves the count of exactly one key, the smallest key strictly above it;
without such a key the loop body panics. -/
theorem bucketStep_map (cnt : F → Int) (v : F) :
    bucketStep ((bucketKeys : List F).map (fun k => (k, cnt k))) v =
      (bucketOf v).map (fun b =>
        (bucketKeys : List F).map (fun k => (k, if k = b then cnt k + 1 else cnt k))) := by
  have hput : ∀ b, b ∈ (bucketKeys : List F) →
      TreeMap.Put ((bucketKeys : List F).map (fun k => (k, cnt k))) b (cnt b + 1)
        = (bucketKeys : List F).map (fun k => (k, if k = b then cnt k + 1 else cnt k)) := by
    intro b hb
    rw [Put_map _ bucketKeys_sorted cnt b hb]
    apply List.map_congr_left
    intro k _
    by_cases hk : k = b
    · simp [hk]
    · simp [hk]
  have hcomp : ∀ x : F, ((fun e : F × Int => decide (x ≤ e.1)) ∘ fun k => (k, cnt k))
      = fun k => decide (x ≤ k) := fun _ => rfl
  unfold bucketStep TreeMap.Ceiling bucketOf
  simp only [List.find?_map, hcomp]
  obtain ⟨hnone, hsome⟩ := find?_lt_of_find?_le (bucketKeys : List F) v
  cases h : (bucketKeys : List F).find? (fun k => decide (v ≤ k)) with
  | none => simp [hnone h]
  | some k =>
    by_cases hkv : k = v
    · subst hkv
      have hmem : k ∈ (bucketKeys : List F) := List.mem_of_find?_eq_some h
      have hcongr : (bucketKeys : List F).find? (fun k' => decide (k + 1 / 1000000000 ≤ k'))
          = (bucketKeys : List F).find? (fun k' => decide (k < k')) := by
        apply find?_congr_mem
        intro x hx
        simp only [decide_eq_decide]
        exact bucketKeys_gap k x hmem hx
      simp only [Option.map_some', if_true, hcongr]
      cases h2 : (bucketKeys : List F).find? (fun k' => decide (k < k')) with
      | none => simp
      | some b =>
        simp only [Option.map_some']
        rw [hput b (List.mem_of_find?_eq_some h2)]
    · have hne : ¬ (some k = some v) := fun hh => hkv (Option.some.inj hh)
      simp only [Option.map_some', hne, if_false, hsome k h hkv]
      rw [hput k (List.mem_of_find?_eq_some h)]

omit [FloorRing F] in
theorem bucketOf_eq_none (v : F) : bucketOf v = none ↔ 5000 ≤ v := by
  unfold bucketOf
  rw [List.find?_eq_none]
  constructor
  · intro h
    have := h 5000 (by simp [bucketKeys])
    simpa using this
  · intro h k hk
    simp only [bucketKeys, List.mem_cons, List.mem_singleton, List.not_mem_nil, or_false] at hk
    simp only [decide_eq_true_eq, not_lt]
    rcases hk with h' | h' | h' | h' | h' | h' | h' | h' | h' | h' | h' | h' <;>
      (rw [h']; linarith)

omit [FloorRing F] in
theorem bucketOf_mem (v b : F) (h : bucketOf v = some b) : b ∈ (bucketKeys : List F) :=
  List.mem_of_find?_eq_some h

omit [FloorRing F] in
theorem foldlM_bucketStep (values : List F) :
    ∀ cnt : F → Int,
      ((∃ v ∈ values, bucketOf v = none) →
        values.foldlM bucketStep ((bucketKeys : List F).map (fun k => (k, cnt k))) = none) ∧
      ((∀ v ∈ values, bucketOf v ≠ none) →
        values.foldlM bucketStep ((bucketKeys : List F).map (fun k => (k, cnt k))) =
          some ((bucketKeys : List F).map (fun k =>
            (k, cnt k + (values.countP (fun v => decide (bucketOf v = some k)) : Int))))) := by
  induction values with
  | nil =>
    intro cnt
    exact ⟨by simp, fun _ => by simp⟩
  | cons v vs ih =>
    intro cnt
    cases hb : bucketOf v with
    | none =>
      refine ⟨fun _ => ?_, fun h => absurd hb (h v (List.mem_cons_self _ _))⟩
      simp only [List.foldlM_cons, bucketStep_map, hb, Option.map_none', Option.bind_eq_bind,
        Option.none_bind]
    | some b =>
      obtain ⟨ihn, ihs⟩ := ih (fun k => if k = b then cnt k + 1 else cnt k)
      have hstep : bucketStep ((bucketKeys : List F).map (fun k => (k, cnt k))) v
          = some ((bucketKeys : List F).map
              (fun k => (k, if k = b then cnt k + 1 else cnt k))) := by
        rw [bucketStep_map, hb]; rfl
      refine ⟨fun h => ?_, fun h => ?_⟩
      · obtain ⟨w, hw, hwn⟩ := h
        simp only [List.foldlM_cons, hstep, Option.bind_eq_bind, Option.some_bind]
        rcases List.mem_cons.mp hw with rfl | hmem
        · rw [hb] at hwn; exact Option.noConfusion hwn
        · exact ihn ⟨w, hmem, hwn⟩
      · simp only [List.foldlM_cons, hstep, Option.bind_eq_bind, Option.some_bind]
        rw [ihs (fun w hw => h w (List.mem_cons_of_mem _ hw))]
        congr 1
        apply List.map_congr_left
        intro k _
        by_cases hk : k = b
        · subst hk
          simp [List.countP_cons, hb]
          ring
        · have : ¬ (b = k) := fun h' => hk h'.symm
          simp [List.countP_cons, hb, hk, this]

omit [FloorRing F] in
theorem foldl_insert_entries (l : List F) (hnd : l.Nodup) (c : F → Int) :
    ∀ init : AList (fun _ : F => Int), (∀ k ∈ l, k ∉ init) →
      ((l.map (fun k => (k, c k))).foldl (fun result e => result.insert e.1 e.2) init).entries
        = l.reverse.map (fun k => (⟨k, c k⟩ : Sigma fun _ : F => Int)) ++ init.entries := by
  induction l with
  | nil => intro init _; simp
  | cons k ks ih =>
    intro init hdisj
    rw [List.nodup_cons] at hnd
    simp only [List.map_cons, List.foldl_cons]
    rw [ih hnd.2 (init.insert k (c k)) (by
      intro k' hk'
      rw [AList.mem_insert]
      rintro (h | h)
      · exact hnd.1 (h ▸ hk')
      · exact hdisj k' (List.mem_cons_of_mem _ hk') h)]
    rw [AList.insert_entries_of_neg (hdisj k (List.mem_cons_self _ _))]
    simp

omit [FloorRing F] in
/-- The bucketed pipeline, value by value: it panics as soon as one value is 5000 or
more, and otherwise its map has the twelve keys of `bucketKeys`, each with the number
of values whose smallest strictly larger key it is. -/
theorem fancyBuckets_spec (values : List F) :
    ((∃ v ∈ values, 5000 ≤ v) → fancyBuckets values = none) ∧
    ((∀ v ∈ values, v < 5000) →
      ∃ m, fancyBuckets values = some m ∧
        m.entries = (bucketKeys : List F).reverse.map (fun k =>
          (⟨k, (values.countP (fun v => decide (bucketOf v = some k)) : Int)⟩ :
            Sigma fun _ : F => Int))) := by
  have hfold := foldlM_bucketStep values (fun _ : F => (0 : Int))
  unfold fancyBuckets
  simp only [initial_valuesMap]
  constructor
  · rintro ⟨v, hv, h5⟩
    rw [hfold.1 ⟨v, hv, (bucketOf_eq_none v).mpr h5⟩]
    rfl
  · intro hall
    rw [hfold.2 (fun v hv hn => absurd ((bucketOf_eq_none v).mp hn) (not_le.mpr (hall v hv)))]
    refine ⟨_, rfl, ?_⟩
    have hnd : (bucketKeys : List F).Nodup :=
      (bucketKeys_sorted (F := F)).imp (fun h => ne_of_lt h)
    have := foldl_insert_entries (bucketKeys : List F) hnd
      (fun k => (0 : Int) + (values.countP (fun v => decide (bucketOf v = some k)) : Int)) ∅
      (fun k _ => AList.not_mem_empty k)
    simp only [zero_add, AList.empty_entries, List.append_nil] at this
    simp only [Option.map_some', zero_add]
    exact this

omit [FloorRing F] in
theorem sum_indicator (l : List F) (hnd : l.Nodup) (b : F) (hb : b ∈ l) :
    (l.map (fun k => if b = k then (1 : Int) else 0)).sum = 1 := by
  induction l with
  | nil => simp at hb
  | cons x xs ih =>
    rw [List.nodup_cons] at hnd
    rw [List.map_cons, List.sum_cons]
    rcases List.mem_cons.mp hb with rfl | hmem
    · have : (xs.map (fun k => if b = k then (1 : Int) else 0)).sum = 0 := by
        apply List.sum_eq_zero
        intro y hy
        rw [List.mem_map] at hy
        obtain ⟨k, hk, rfl⟩ := hy
        have : b ≠ k := fun h => hnd.1 (h ▸ hk)
        simp [this]
      simp [this]
    · have : b ≠ x := fun h => hnd.1 (h ▸ hmem)
      simp [this, ih hnd.2 hmem]

omit [FloorRing F] in
theorem sum_bucket_counts (values : List F) (hall : ∀ v ∈ values, v < 5000) :
    ((bucketKeys : List F).map (fun k =>
      (values.countP (fun v => decide (bucketOf v = some k)) : Int))).sum
      = (values.length : Int) := by
  have hnd : (bucketKeys : List F).Nodup :=
    (bucketKeys_sorted (F := F)).imp (fun h => ne_of_lt h)
  induction values with
  | nil => simp
  | cons v vs ih =>
    have hv : v < 5000 := hall v (List.mem_cons_self _ _)
    obtain ⟨b, hb⟩ : ∃ b, bucketOf v = some b := by
      cases h : bucketOf v with
      | none => exact absurd ((bucketOf_eq_none v).mp h) (not_le.mpr hv)
      | some b => exact ⟨b, rfl⟩
    have hsplit : ∀ k : F,
        ((List.countP (fun w => decide (bucketOf w = some k)) (v :: vs) : Nat) : Int)
          = ((List.countP (fun w => decide (bucketOf w = some k)) vs : Nat) : Int)
            + (if b = k then (1 : Int) else 0) := by
      intro k
      by_cases hk : b = k
      · simp [List.countP_cons, hb, hk]
      · simp [List.countP_cons, hb, hk]
    simp only [hsplit]
    rw [List.sum_map_add, ih (fun w hw => hall w (List.mem_cons_of_mem _ hw)),
      sum_indicator _ hnd b (bucketOf_mem v b hb)]
    simp

omit [FloorRing F] in
/-- Where every value is below 5000 the bucketed pipeline returns and its counts add up
to the number of values. -/
theorem fancyBuckets_counts_sum (values : List F) (hall : ∀ v ∈ values, v < 5000) :
    ∃ m, fancyBuckets values = some m ∧
      (m.entries.map (fun e => e.2)).sum = (values.length : Int) := by
  obtain ⟨m, hm, hentries⟩ := (fancyBuckets_spec values).2 hall
  refine ⟨m, hm, ?_⟩
  rw [hentries, List.map_map, List.map_reverse, List.sum_reverse]
  exact sum_bucket_counts values hall

end BucketLemmas

/-! ## Lemmas on Flush -/

section FlushLemmas

variable {F : Type} [LinearOrderedField F] [FloorRing F]

omit [FloorRing F] in
theorem flushCounters_spec (a : MetricAggregator F) (fs : F) :
    ∃ a', flushCounters a fs = some a' ∧
      (a'.expiryInterval = a.expiryInterval ∧ a'.percentThresholds = a.percentThresholds ∧
        a'.disabledSubtypes = a.disabledSubtypes ∧ a'.metricsReceived = a.metricsReceived ∧
        a'.metricMap.Timers = a.metricMap.Timers ∧ a'.metricMap.Gauges = a.metricMap.Gauges ∧
        a'.metricMap.Sets = a.metricMap.Sets) ∧
      (∀ k t c, cell a.metricMap.Counters k t = some c →
        cell a'.metricMap.Counters k t = some { c with PerSecond := (c.Value : F) / fs }) ∧
      (∀ k t, cell a.metricMap.Counters k t = none → cell a'.metricMap.Counters k t = none) := by
  have h := Each_cells (fun s : MetricAggregator F => s.metricMap.Counters)
    (fun key tagsKey counter s =>
      setCounter s key tagsKey { counter with PerSecond := (counter.Value : F) / fs })
    (fun c => some (some { c with PerSecond := (c.Value : F) / fs }))
    (fun s => s.expiryInterval = a.expiryInterval ∧ s.percentThresholds = a.percentThresholds ∧
        s.disabledSubtypes = a.disabledSubtypes ∧ s.metricsReceived = a.metricsReceived ∧
        s.metricMap.Timers = a.metricMap.Timers ∧ s.metricMap.Gauges = a.metricMap.Gauges ∧
        s.metricMap.Sets = a.metricMap.Sets)
    (by
      intro s k t c hP hc
      refine ⟨by simp, ?_⟩
      intro r hr
      dsimp only at hc hP ⊢
      simp only [Option.some.injEq] at hr
      subst hr
      obtain ⟨m', hm'⟩ := assign_isSome hc ({ c with PerSecond := (c.Value : F) / fs } : Counter F)
      refine ⟨{ s with metricMap := { s.metricMap with Counters := m' } },
        by simp only [setCounter, hm']; rfl, hP, ?_, ?_, ?_⟩
      · simp [cell_assign hm']
      · intro k' t' hne
        simp [cell_assign hm', hne]
      · intro k' hk'
        exact emptyName_assign hm' _ hk')
    a ⟨rfl, rfl, rfl, rfl, rfl, rfl, rfl⟩
  obtain ⟨a', ha', hP', h1, h2, _⟩ := h.2 (by intro k t c _; simp)
  exact ⟨a', ha', hP', fun k t c hc => h1 k t c hc _ rfl, h2⟩

theorem defaultStats_congr (sqrt : F → F) (timer : Timer F) (a b : MetricAggregator F) (fs : F)
    (h1 : b.percentThresholds = a.percentThresholds)
    (h2 : b.disabledSubtypes = a.disabledSubtypes) :
    defaultStats sqrt timer b fs = defaultStats sqrt timer a fs := by
  simp only [defaultStats, h1, h2]

theorem flushedTimer_congr (sqrt : F → F) (timer : Timer F) (a b : MetricAggregator F) (fs : F)
    (h1 : b.percentThresholds = a.percentThresholds)
    (h2 : b.disabledSubtypes = a.disabledSubtypes) :
    flushedTimer sqrt b fs timer = flushedTimer sqrt a fs timer := by
  simp only [flushedTimer, defaultStats_congr sqrt timer a b fs h1 h2]

theorem flushTimers_spec (sqrt : F → F) (a : MetricAggregator F) (fs : F) :
    ((∃ k t c, cell a.metricMap.Timers k t = some c ∧ flushedTimer sqrt a fs c = none) →
      flushTimers sqrt a fs = none) ∧
    ((∀ k t c, cell a.metricMap.Timers k t = some c → flushedTimer sqrt a fs c ≠ none) →
      ∃ a', flushTimers sqrt a fs = some a' ∧
        (a'.expiryInterval = a.expiryInterval ∧ a'.percentThresholds = a.percentThresholds ∧
          a'.disabledSubtypes = a.disabledSubtypes ∧ a'.metricsReceived = a.metricsReceived ∧
          a'.metricMap.Counters = a.metricMap.Counters ∧
          a'.metricMap.Gauges = a.metricMap.Gauges ∧ a'.metricMap.Sets = a.metricMap.Sets) ∧
        (∀ k t c, cell a.metricMap.Timers k t = some c →
          cell a'.metricMap.Timers k t = flushedTimer sqrt a fs c) ∧
        (∀ k t, cell a.metricMap.Timers k t = none → cell a'.metricMap.Timers k t = none)) := by
  have h := Each_cells (fun s : MetricAggregator F => s.metricMap.Timers)
    (fun key tagsKey timer s =>
      if contains timer.Tags "percentiles:true" then
        fancyPipeline timer s fs key tagsKey
      else
        defaultPipeline sqrt timer s fs key tagsKey)
    (fun c => (flushedTimer sqrt a fs c).map some)
    (fun s => s.expiryInterval = a.expiryInterval ∧ s.percentThresholds = a.percentThresholds ∧
        s.disabledSubtypes = a.disabledSubtypes ∧ s.metricsReceived = a.metricsReceived ∧
        s.metricMap.Counters = a.metricMap.Counters ∧ s.metricMap.Gauges = a.metricMap.Gauges ∧
        s.metricMap.Sets = a.metricMap.Sets)
    (by
      intro s k t c hP hc
      dsimp only at hc hP ⊢
      have hcongr := defaultStats_congr sqrt c a s fs hP.2.1 hP.2.2.1
      have hset : ∀ c' : Timer F, ∃ s', setTimer s k t c' = some s' ∧
          (s'.expiryInterval = a.expiryInterval ∧ s'.percentThresholds = a.percentThresholds ∧
            s'.disabledSubtypes = a.disabledSubtypes ∧ s'.metricsReceived = a.metricsReceived ∧
            s'.metricMap.Counters = a.metricMap.Counters ∧
            s'.metricMap.Gauges = a.metricMap.Gauges ∧ s'.metricMap.Sets = a.metricMap.Sets) ∧
          cell s'.metricMap.Timers k t = some c' ∧
          (∀ k' t', ¬(k' = k ∧ t' = t) →
            cell s'.metricMap.Timers k' t' = cell s.metricMap.Timers k' t') ∧
          (∀ k', emptyName s'.metricMap.Timers k' → emptyName s.metricMap.Timers k') := by
        intro c'
        obtain ⟨m', hm'⟩ := assign_isSome hc c'
        refine ⟨{ s with metricMap := { s.metricMap with Timers := m' } },
          by simp only [setTimer, hm']; rfl, hP, ?_, ?_, ?_⟩
        · simp [cell_assign hm']
        · intro k' t' hne
          simp [cell_assign hm', hne]
        · intro k' hk'
          exact emptyName_assign hm' _ hk'
      unfold flushedTimer
      by_cases htag : contains c.Tags "percentiles:true" = true
      · simp only [htag, if_true, fancyPipeline]
        cases hb : fancyBuckets c.Values with
        | none => simp
        | some b =>
          refine ⟨by simp, ?_⟩
          intro r hr
          simp only [Option.map_some', Option.some.injEq] at hr
          subst hr
          exact hset _
      · simp only [htag, Bool.false_eq_true, if_false, defaultPipeline]
        by_cases hn : c.Values.length > 0
        · simp only [hn, if_true, hcongr]
          cases hd : defaultStats sqrt c a fs with
          | none => simp
          | some c' =>
            refine ⟨by simp, ?_⟩
            intro r hr
            simp only [Option.map_some', Option.some.injEq] at hr
            subst hr
            exact hset _
        · simp only [hn, if_false]
          refine ⟨by simp, ?_⟩
          intro r hr
          simp only [Option.map_some', Option.some.injEq] at hr
          subst hr
          exact ⟨s, rfl, hP, hc, fun _ _ _ => rfl, fun _ h => h⟩)
    a ⟨rfl, rfl, rfl, rfl, rfl, rfl, rfl⟩
  refine ⟨fun ⟨k, t, c, hc, hu⟩ => h.1 ⟨k, t, c, hc, by simp [hu]⟩, fun hall => ?_⟩
  obtain ⟨a', ha', hP', h1, h2, _⟩ := h.2 (by
    intro k t c hc
    have := hall k t c hc
    cases hf : flushedTimer sqrt a fs c with
    | none => exact absurd hf this
    | some x => simp [hf])
  refine ⟨a', ha', hP', fun k t c hc => ?_, h2⟩
  cases hf : flushedTimer sqrt a fs c with
  | none => exact absurd hf (hall k t c hc)
  | some x => exact h1 k t c hc (some x) (by simp [hf])

/-- The method `Flush` fails exactly when the pipeline of one of the timers does. -/
theorem Flush_none (sqrt : F → F) (a : MetricAggregator F) (flushInterval : Int)
    (h : ∃ k t c, cell a.metricMap.Timers k t = some c ∧
      flushedTimer sqrt a (flushSeconds flushInterval) c = none) :
    Flush sqrt a flushInterval = none := by
  obtain ⟨a1, h1, f1, _, _⟩ := flushCounters_spec a (flushSeconds flushInterval : F)
  obtain ⟨k, t, c, hc, hn⟩ := h
  simp only [Flush, h1]
  apply (flushTimers_spec sqrt a1 _).1
  refine ⟨k, t, c, by rw [f1.2.2.2.2.1]; exact hc, ?_⟩
  rw [flushedTimer_congr sqrt c a a1 _ f1.2.1 f1.2.2.1]
  exact hn

theorem Flush_isSome (sqrt : F → F) (a : MetricAggregator F) (flushInterval : Int)
    (h : ∀ k t c, cell a.metricMap.Timers k t = some c →
      flushedTimer sqrt a (flushSeconds flushInterval) c ≠ none) :
    ∃ a', Flush sqrt a flushInterval = some a' ∧
      (a'.expiryInterval = a.expiryInterval ∧ a'.percentThresholds = a.percentThresholds ∧
        a'.disabledSubtypes = a.disabledSubtypes ∧ a'.metricsReceived = a.metricsReceived ∧
        a'.metricMap.Gauges = a.metricMap.Gauges ∧ a'.metricMap.Sets = a.metricMap.Sets) ∧
      (∀ k t c, cell a.metricMap.Counters k t = some c →
        cell a'.metricMap.Counters k t =
          some { c with PerSecond := (c.Value : F) / flushSeconds flushInterval }) ∧
      (∀ k t, cell a.metricMap.Counters k t = none → cell a'.metricMap.Counters k t = none) ∧
      (∀ k t c, cell a.metricMap.Timers k t = some c →
        cell a'.metricMap.Timers k t = flushedTimer sqrt a (flushSeconds flushInterval) c) ∧
      (∀ k t, cell a.metricMap.Timers k t = none → cell a'.metricMap.Timers k t = none) := by
  obtain ⟨a1, h1, f1, c1, n1⟩ := flushCounters_spec a (flushSeconds flushInterval : F)
  obtain ⟨f11, f12, f13, f14, f15, f16, f17⟩ := f1
  have hc : ∀ c, flushedTimer sqrt a1 (flushSeconds flushInterval) c
      = flushedTimer sqrt a (flushSeconds flushInterval) c :=
    fun c => flushedTimer_congr sqrt c a a1 _ f12 f13
  obtain ⟨a2, h2, f2, c2, n2⟩ := (flushTimers_spec sqrt a1 (flushSeconds flushInterval)).2 (by
    intro k t c hcell
    rw [hc]
    rw [f15] at hcell
    exact h k t c hcell)
  obtain ⟨f21, f22, f23, f24, f25, f26, f27⟩ := f2
  refine ⟨a2, by simp only [Flush, h1, h2], ⟨?_, ?_, ?_, ?_, ?_, ?_⟩, ?_, ?_, ?_, ?_⟩
  · rw [f21, f11]
  · rw [f22, f12]
  · rw [f23, f13]
  · rw [f24, f14]
  · rw [f26, f16]
  · rw [f27, f17]
  · intro k t c hcell
    rw [f25]
    exact c1 k t c hcell
  · intro k t hcell
    rw [f25]
    exact n1 k t hcell
  · intro k t c hcell
    rw [← hc]
    apply c2
    rw [f15]
    exact hcell
  · intro k t hcell
    apply n2
    rw [f15]
    exact hcell

/-- What a `Flush` that returns has done: the configuration, the gauges and the sets
are as before, every counter has its rate, and every timer cell holds what its
pipeline computed. -/
theorem Flush_some (sqrt : F → F) (a a' : MetricAggregator F) (flushInterval : Int)
    (h : Flush sqrt a flushInterval = some a') :
    (a'.expiryInterval = a.expiryInterval ∧ a'.percentThresholds = a.percentThresholds ∧
      a'.disabledSubtypes = a.disabledSubtypes ∧ a'.metricsReceived = a.metricsReceived ∧
      a'.metricMap.Gauges = a.metricMap.Gauges ∧ a'.metricMap.Sets = a.metricMap.Sets) ∧
    (∀ k t c, cell a.metricMap.Counters k t = some c →
      cell a'.metricMap.Counters k t =
        some { c with PerSecond := (c.Value : F) / flushSeconds flushInterval }) ∧
    (∀ k t, cell a.metricMap.Counters k t = none → cell a'.metricMap.Counters k t = none) ∧
    (∀ k t c, cell a.metricMap.Timers k t = some c →
      ∃ c', flushedTimer sqrt a (flushSeconds flushInterval) c = some c' ∧
        cell a'.metricMap.Timers k t = some c') ∧
    (∀ k t, cell a.metricMap.Timers k t = none → cell a'.metricMap.Timers k t = none) := by
  by_cases hall : ∀ k t c, cell a.metricMap.Timers k t = some c →
      flushedTimer sqrt a (flushSeconds flushInterval) c ≠ none
  · obtain ⟨a2, h2, f, c1, n1, c2, n2⟩ := Flush_isSome sqrt a flushInterval hall
    rw [h] at h2
    cases h2
    refine ⟨f, c1, n1, ?_, n2⟩
    intro k t c hcell
    cases hf : flushedTimer sqrt a (flushSeconds flushInterval) c with
    | none => exact absurd hf (hall k t c hcell)
    | some c' => exact ⟨c', rfl, by rw [c2 k t c hcell, hf]⟩
  · push_neg at hall
    rw [Flush_none sqrt a flushInterval hall] at h
    exact Option.noConfusion h

omit [FloorRing F] in
theorem sortFloat64s_ne_nil (values : List F) (hn : 1 ≤ values.length) :
    ∃ v rest, sortFloat64s values = v :: rest := by
  cases h : sortFloat64s values with
  | nil =>
    have := List.length_insertionSort (fun x y : F => x ≤ y) values
    unfold sortFloat64s at h
    rw [h] at this
    simp at this
    omega
  | cons v rest => exact ⟨v, rest, rfl⟩

/-- The default pipeline of a timer with at least one value returns exactly when no
threshold indexes outside the slices, and then it returns the statistics of
`defaultStats_spec`. -/
theorem flushedTimer_default (sqrt : F → F) (a : MetricAggregator F) (fs : F) (timer : Timer F)
    (htag : contains timer.Tags "percentiles:true" = false) (hn : 1 ≤ timer.Values.length) :
    flushedTimer sqrt a fs timer = defaultStats sqrt timer a fs := by
  unfold flushedTimer
  have : timer.Values.length > 0 := hn
  simp [htag, this]

omit [FloorRing F] in
theorem sorted_getD_last_max (v : F) (rest : List F) (hs : (v :: rest).Sorted (· ≤ ·)) :
    ∀ x ∈ v :: rest, x ≤ (v :: rest).getD ((v :: rest).length - 1) 0 := by
  intro x hx
  obtain ⟨i, hi⟩ := List.get_of_mem hx
  have hlast : (v :: rest).length - 1 < (v :: rest).length := by simp
  have hle : i ≤ (⟨(v :: rest).length - 1, hlast⟩ : Fin (v :: rest).length) := by
    have := i.isLt
    apply Fin.mk_le_of_le_val
    simp only [List.length_cons] at this ⊢
    omega
  have := hs.rel_get_of_le hle
  rw [hi] at this
  rw [List.getD_eq_getElem?_getD, List.getElem?_eq_getElem hlast]
  exact this

theorem pctBlock_eq_none_iff (d : TimerSubtypes) (values : List F) (pct : F) (s : percentStruct) :
    pctBlock d values pct s = none ↔
      (values.length > 1 ∧ numInThreshold pct values.length ≠ 0 ∧
        ((0 < pct ∧ (values.length : Int) < numInThreshold pct values.length) ∨
         (¬ 0 < pct ∧ (values.length : Int) ≤ numInThreshold pct values.length))) := by
  unfold pctBlock
  by_cases hn : values.length > 1
  · by_cases hk : numInThreshold pct values.length = 0
    · simp [hn, hk]
    · by_cases hp : pct > 0
      · by_cases hle : numInThreshold pct values.length ≤ (values.length : Int)
        · simp [hn, hk, hp, hle]
        · simp [hn, hk, hp, hle]
          omega
      · by_cases hlt : numInThreshold pct values.length < (values.length : Int)
        · simp [hn, hk, hp, hlt]
        · simp [hn, hk, hp, hlt]
          omega
  · simp [hn]

/-- The default pipeline returns for a timer with at least one value whenever no
threshold selects more values than there are, and no lower-tail one all of them. -/
theorem defaultStats_isSome (sqrt : F → F) (a : MetricAggregator F) (fs : F) (timer : Timer F)
    (hn : 1 ≤ timer.Values.length)
    (hb : ∀ p ∈ a.percentThresholds.keys, timer.Values.length > 1 →
        (0 < p → numInThreshold p timer.Values.length ≤ (timer.Values.length : Int)) ∧
        (¬ 0 < p → numInThreshold p timer.Values.length = 0 ∨
          numInThreshold p timer.Values.length < (timer.Values.length : Int))) :
    ∃ t', defaultStats sqrt timer a fs = some t' := by
  obtain ⟨v, rest, hsort⟩ := sortFloat64s_ne_nil timer.Values hn
  have hperm : (v :: rest).Perm timer.Values := by
    rw [← hsort]; exact List.perm_insertionSort _ _
  have hlen : (v :: rest).length = timer.Values.length := hperm.length_eq
  have hspec := defaultStats_spec sqrt timer a fs v rest hsort
  have hall : ∀ e ∈ a.percentThresholds.entries,
      pctBlock a.disabledSubtypes (v :: rest) e.1 e.2 ≠ none := by
    intro e he hnone
    rw [pctBlock_eq_none_iff, hlen] at hnone
    obtain ⟨h1, h2, h3⟩ := hnone
    have hk : e.1 ∈ a.percentThresholds.keys := by
      unfold AList.keys List.keys
      exact List.mem_map_of_mem _ he
    obtain ⟨hb1, hb2⟩ := hb e.1 hk h1
    rcases h3 with ⟨hp, hlt⟩ | ⟨hp, hle⟩
    · have := hb1 hp
      omega
    · rcases hb2 hp with h0 | hlt
      · exact h2 h0
      · omega
  obtain ⟨blocks, _, hd⟩ := hspec.2 hall
  exact ⟨_, hd⟩

/-- What `Flush` stores for a timer of the default pipeline with at least one value: the
cell computed by `defaultStats`, whose `Percentiles` are the old ones followed by one
block of entries per threshold, in the order of the traversal of the thresholds. -/
theorem flush_default_cell (sqrt : F → F) (a a' : MetricAggregator F) (flushInterval : Int)
    (key tagsKey : String) (timer : Timer F)
    (hcell : cell a.metricMap.Timers key tagsKey = some timer)
    (htag : contains timer.Tags "percentiles:true" = false)
    (hn : 1 ≤ timer.Values.length)
    (hflush : Flush sqrt a flushInterval = some a') :
    ∃ t' blocks, cell a'.metricMap.Timers key tagsKey = some t' ∧
      defaultStats sqrt timer a (flushSeconds flushInterval) = some t' ∧
      t'.Values = sortFloat64s timer.Values ∧
      t'.Percentiles = timer.Percentiles ++ blocks.flatten ∧
      List.Forall₂ (fun e b => pctBlock a.disabledSubtypes (sortFloat64s timer.Values) e.1 e.2
        = some b) a.percentThresholds.entries blocks := by
  obtain ⟨v, rest, hsort⟩ := sortFloat64s_ne_nil timer.Values hn
  have hspec := defaultStats_spec sqrt timer a (flushSeconds flushInterval) v rest hsort
  obtain ⟨_, _, _, htimers, _⟩ := Flush_some sqrt a a' flushInterval hflush
  obtain ⟨t', hft, hcell'⟩ := htimers key tagsKey timer hcell
  rw [flushedTimer_default sqrt a _ timer htag hn] at hft
  have hall : ∀ e ∈ a.percentThresholds.entries,
      pctBlock a.disabledSubtypes (v :: rest) e.1 e.2 ≠ none := by
    intro e he hnone
    rw [hspec.1 ⟨e, he, hnone⟩] at hft
    exact Option.noConfusion hft
  obtain ⟨blocks, hf, hd⟩ := hspec.2 hall
  have hft' := hft
  rw [hd] at hft
  simp only [Option.some.injEq] at hft
  subst hft
  rw [hsort]
  exact ⟨_, blocks, hcell', hft', rfl, rfl, hf⟩

end FlushLemmas

/-! ## The reach of the two pipelines -/

section Reach

variable {F : Type} [LinearOrderedField F] [FloorRing F]

/-- The lower tail where the code is in bounds: for a timer of the default pipeline
with `n > 1` values, no subtype disabled, the block of a threshold `p < 0` with
`k = numInThreshold p n` and `1 ≤ k < n` is `count_p = k`, `mean_p = sum_p / k`,
`sum_p` = the sum of the `k` largest values, `sum_squares_p` = the sum of their squares
and `lower_p = values[n - k]`, in this order, after any `Flush` that returns. -/
theorem flush_lower_percentiles (sqrt : F → F) (a : MetricAggregator F) (flushInterval : Int)
    (key tagsKey : String) (timer : Timer F)
    (hcell : cell a.metricMap.Timers key tagsKey = some timer)
    (htag : contains timer.Tags "percentiles:true" = false)
    (hn : 1 < timer.Values.length)
    (hdis : a.disabledSubtypes =
      { CountPct := false, MeanPct := false, SumPct := false, SumSquaresPct := false,
        UpperPct := false, LowerPct := false }) :
    ∀ a', Flush sqrt a flushInterval = some a' →
      ∃ t' blocks, cell a'.metricMap.Timers key tagsKey = some t' ∧
        t'.Values.Sorted (fun x y => x ≤ y) ∧ t'.Values.Perm timer.Values ∧
        t'.Percentiles = timer.Percentiles ++ blocks.flatten ∧
        List.Forall₂
          (fun e b => e.1 < 0 →
            ∀ k : Nat, numInThreshold e.1 timer.Values.length = (k : Int) →
              1 ≤ k → k < timer.Values.length →
              ∃ lower, t'.Values[timer.Values.length - k]? = some lower ∧
                b = [{ Float := (k : F), Str := e.2.count },
                     { Float := (t'.Values.drop (timer.Values.length - k)).sum / (k : F),
                       Str := e.2.mean },
                     { Float := (t'.Values.drop (timer.Values.length - k)).sum, Str := e.2.sum },
                     { Float := ((t'.Values.drop (timer.Values.length - k)).map
                         (fun x => x ^ 2)).sum, Str := e.2.sumSquares },
                     { Float := lower, Str := e.2.lower }])
          a.percentThresholds.entries blocks := by
  intro a' hflush
  obtain ⟨t', blocks, hcell', _, hvals, hperc, hall⟩ :=
    flush_default_cell sqrt a a' flushInterval key tagsKey timer hcell htag (by omega) hflush
  have hlen : (sortFloat64s timer.Values).length = timer.Values.length :=
    List.length_insertionSort _ _
  refine ⟨t', blocks, hcell', ?_, ?_, hperc, ?_⟩
  · rw [hvals]; exact List.sorted_insertionSort _ _
  · rw [hvals]; exact List.perm_insertionSort _ _
  · refine hall.imp ?_
    intro e b hb hneg k hk h1 hlt
    have hk0 : ¬((k : Int) = 0) := by omega
    have hlt' : (k : Int) < (timer.Values.length : Int) := by exact_mod_cast hlt
    have hnp : ¬ e.1 > 0 := not_lt.mpr (le_of_lt hneg)
    unfold pctBlock at hb
    simp only [hlen, hn, if_true, hk, hdis, hk0, if_false, hnp, hlt', Int.toNat_ofNat,
      Option.some.injEq, emitted, Bool.false_eq_true, List.append_assoc, List.singleton_append,
      List.nil_append, Int.cast_natCast] at hb
    have hsum : ∀ g : F → F, ((sortFloat64s timer.Values).map g).sum -
        (((sortFloat64s timer.Values).take (timer.Values.length - k)).map g).sum
        = (((sortFloat64s timer.Values).drop (timer.Values.length - k)).map g).sum := by
      intro g
      have := List.sum_take_add_sum_drop ((sortFloat64s timer.Values).map g)
        (timer.Values.length - k)
      rw [← List.map_take, ← List.map_drop] at this
      linarith
    have hsum1 := hsum (fun x => x)
    simp only [List.map_id'] at hsum1
    have hsum2 := hsum (fun x => x * x)
    rw [hsum1, hsum2] at hb
    refine ⟨(sortFloat64s timer.Values).getD (timer.Values.length - k) 0, ?_, ?_⟩
    · rw [hvals, List.getD_eq_getElem?_getD, List.getElem?_eq_getElem (by omega)]
      rfl
    · rw [← hb, hvals]
      simp only [pow_two]
      rfl

/-- The reach of the defect in the lower tail: `Flush` panics whenever the map holds a
timer of the default pipeline with `n > 1` values and a threshold `p ≤ 0` is
configured whose count `round(|p| / 100 * n)` is `n` or more. -/
theorem Flush_none_of_full_lower_tail (sqrt : F → F) (a : MetricAggregator F)
    (flushInterval : Int) (key tagsKey : String) (timer : Timer F) (p : F)
    (hcell : cell a.metricMap.Timers key tagsKey = some timer)
    (htag : contains timer.Tags "percentiles:true" = false)
    (hn : 1 < timer.Values.length)
    (hp : p ∈ a.percentThresholds.keys) (hneg : ¬ 0 < p)
    (hk : (timer.Values.length : Int) ≤ numInThreshold p timer.Values.length) :
    Flush sqrt a flushInterval = none := by
  apply Flush_none
  refine ⟨key, tagsKey, timer, hcell, ?_⟩
  rw [flushedTimer_default sqrt a _ timer htag (by omega)]
  obtain ⟨v, rest, hsort⟩ := sortFloat64s_ne_nil timer.Values (by omega)
  have hlen : (v :: rest).length = timer.Values.length := by
    rw [← hsort]; exact List.length_insertionSort _ _
  obtain ⟨s, hs⟩ : ∃ s, (⟨p, s⟩ : Sigma fun _ : F => percentStruct)
      ∈ a.percentThresholds.entries := by
    have hp' : p ∈ a.percentThresholds.entries.map Sigma.fst := hp
    rw [List.mem_map] at hp'
    obtain ⟨e, he, rfl⟩ := hp'
    exact ⟨e.2, he⟩
  apply (defaultStats_spec sqrt timer a _ v rest hsort).1
  refine ⟨⟨p, s⟩, hs, ?_⟩
  rw [pctBlock_eq_none_iff, hlen]
  refine ⟨hn, ?_, Or.inr ⟨hneg, hk⟩⟩
  intro h0
  rw [h0] at hk
  have : (0 : Int) < (timer.Values.length : Int) := by exact_mod_cast (by omega : 0 < timer.Values.length)
  omega

/-- The reach of the defect in the buckets: `Flush` panics whenever the map holds a
timer tagged `percentiles:true` one of whose values is 5000 or more. -/
theorem Flush_none_of_large_bucketed_value (sqrt : F → F) (a : MetricAggregator F)
    (flushInterval : Int) (key tagsKey : String) (timer : Timer F)
    (hcell : cell a.metricMap.Timers key tagsKey = some timer)
    (htag : contains timer.Tags "percentiles:true" = true)
    (hv : ∃ v ∈ timer.Values, 5000 ≤ v) :
    Flush sqrt a flushInterval = none := by
  apply Flush_none
  refine ⟨key, tagsKey, timer, hcell, ?_⟩
  unfold flushedTimer
  simp only [htag, if_true, (fancyBuckets_spec timer.Values).1 hv, Option.map_none']

/-- What a `Flush` that returns has stored for a timer tagged `percentiles:true`: all its
values are below 5000, only `Buckets` has changed, the keys are the twelve keys of
`bucketKeys`, each value is counted under the smallest key strictly above it, and the
counts add up to the number of values. -/
theorem flush_bucketed_cell (sqrt : F → F) (a a' : MetricAggregator F) (flushInterval : Int)
    (key tagsKey : String) (timer : Timer F)
    (hcell : cell a.metricMap.Timers key tagsKey = some timer)
    (htag : contains timer.Tags "percentiles:true" = true)
    (hflush : Flush sqrt a flushInterval = some a') :
    (∀ v ∈ timer.Values, v < 5000) ∧
    ∃ m, cell a'.metricMap.Timers key tagsKey = some { timer with Buckets := m } ∧
      m.entries = (bucketKeys : List F).reverse.map (fun k =>
        (⟨k, (timer.Values.countP (fun v => decide (bucketOf v = some k)) : Int)⟩ :
          Sigma fun _ : F => Int)) ∧
      (m.entries.map (fun e => e.2)).sum = (timer.Values.length : Int) := by
  have hall : ∀ v ∈ timer.Values, v < 5000 := by
    intro v hv
    by_contra hge
    rw [Flush_none_of_large_bucketed_value sqrt a flushInterval key tagsKey timer hcell htag
      ⟨v, hv, not_lt.mp hge⟩] at hflush
    exact Option.noConfusion hflush
  refine ⟨hall, ?_⟩
  obtain ⟨_, _, _, htimers, _⟩ := Flush_some sqrt a a' flushInterval hflush
  obtain ⟨t', hft, hcell'⟩ := htimers key tagsKey timer hcell
  obtain ⟨m, hm, hentries⟩ := (fancyBuckets_spec timer.Values).2 hall
  obtain ⟨m2, hm2, hsum⟩ := fancyBuckets_counts_sum timer.Values hall
  rw [hm] at hm2
  cases hm2
  unfold flushedTimer at hft
  simp only [htag, if_true, hm, Option.map_some', Option.some.injEq] at hft
  subst hft
  exact ⟨m, hcell', hentries, hsum⟩

end Reach

/-! ## The claims on Reset -/

section ResetClaims

variable {F : Type}

theorem isExpired_iff (a : MetricAggregator F) (now ts : Nanotime) :
    isExpired a now ts = true ↔ (a.expiryInterval ≠ 0 ∧ now - ts > a.expiryInterval) := by
  simp [isExpired]

theorem lookup_eq_none_of_cells {α : Type} (m m' : AggregatedMetrics α) (key : String)
    (hemp : ∀ k, emptyName m' k → emptyName m k)
    (hbefore : ∃ tagsKey c, cell m key tagsKey = some c)
    (hafter : ∀ tagsKey, cell m' key tagsKey = none) :
    m'.lookup key = none := by
  cases hl : m'.lookup key with
  | none => rfl
  | some inner =>
    exfalso
    have hkeys : inner.keys = [] := by
      rw [List.eq_nil_iff_forall_not_mem]
      intro t ht
      have := hafter t
      simp only [cell, hl, Option.some_bind] at this
      rw [AList.lookup_eq_none] at this
      exact this (AList.mem_keys.mpr ht)
    obtain ⟨inner0, h0, hk0⟩ := hemp key ⟨inner, hl, hkeys⟩
    obtain ⟨t, c, hc⟩ := hbefore
    simp only [cell, h0, Option.some_bind] at hc
    have hmem : t ∈ inner0.keys := AList.mem_keys.mp (AList.lookup_isSome.mp (by simp [hc]))
    rw [hk0] at hmem
    exact List.not_mem_nil _ hmem

variable [LinearOrderedField F]

/-- C5: `Reset` at the clock reading `t` never fails.  Afterwards a cell of any of the four
kinds whose time stamp lies so that `t - timestamp` fits `int64` (the subtraction of
`isExpired` does not wrap) is in the map if and only if it is not expired, where expired
means `expiryInterval ≠ 0` and `t - timestamp > expiryInterval`; a cell that was not in
the map is not in it afterwards; and a name that had cells before and has none left is
gone from the outer map of its kind. -/
theorem reset_expiry (a : MetricAggregator F) (t : Nanotime) :
    ∃ a', Reset a t = some a' ∧
      (∀ key tagsKey c, cell a.metricMap.Counters key tagsKey = some c →
        fitsInt64 (t - c.Timestamp) →
        ((cell a'.metricMap.Counters key tagsKey).isSome = true ↔
          ¬(a.expiryInterval ≠ 0 ∧ t - c.Timestamp > a.expiryInterval))) ∧
      (∀ key tagsKey, cell a.metricMap.Counters key tagsKey = none →
        cell a'.metricMap.Counters key tagsKey = none) ∧
      (∀ key tagsKey c, cell a.metricMap.Timers key tagsKey = some c →
        fitsInt64 (t - c.Timestamp) →
        ((cell a'.metricMap.Timers key tagsKey).isSome = true ↔
          ¬(a.expiryInterval ≠ 0 ∧ t - c.Timestamp > a.expiryInterval))) ∧
      (∀ key tagsKey, cell a.metricMap.Timers key tagsKey = none →
        cell a'.metricMap.Timers key tagsKey = none) ∧
      (∀ key tagsKey c, cell a.metricMap.Gauges key tagsKey = some c →
        fitsInt64 (t - c.Timestamp) →
        ((cell a'.metricMap.Gauges key tagsKey).isSome = true ↔
          ¬(a.expiryInterval ≠ 0 ∧ t - c.Timestamp > a.expiryInterval))) ∧
      (∀ key tagsKey, cell a.metricMap.Gauges key tagsKey = none →
        cell a'.metricMap.Gauges key tagsKey = none) ∧
      (∀ key tagsKey c, cell a.metricMap.Sets key tagsKey = some c →
        fitsInt64 (t - c.Timestamp) →
        ((cell a'.metricMap.Sets key tagsKey).isSome = true ↔
          ¬(a.expiryInterval ≠ 0 ∧ t - c.Timestamp > a.expiryInterval))) ∧
      (∀ key tagsKey, cell a.metricMap.Sets key tagsKey = none →
        cell a'.metricMap.Sets key tagsKey = none) ∧
      (∀ key, (∃ tagsKey c, cell a.metricMap.Counters key tagsKey = some c) →
        (∀ tagsKey, cell a'.metricMap.Counters key tagsKey = none) →
        a'.metricMap.Counters.lookup key = none) ∧
      (∀ key, (∃ tagsKey c, cell a.metricMap.Timers key tagsKey = some c) →
        (∀ tagsKey, cell a'.metricMap.Timers key tagsKey = none) →
        a'.metricMap.Timers.lookup key = none) ∧
      (∀ key, (∃ tagsKey c, cell a.metricMap.Gauges key tagsKey = some c) →
        (∀ tagsKey, cell a'.metricMap.Gauges key tagsKey = none) →
        a'.metricMap.Gauges.lookup key = none) ∧
      (∀ key, (∃ tagsKey c, cell a.metricMap.Sets key tagsKey = some c) →
        (∀ tagsKey, cell a'.metricMap.Sets key tagsKey = none) →
        a'.metricMap.Sets.lookup key = none) := by
  obtain ⟨a', h, _, ⟨c1, n1, e1⟩, ⟨c2, n2, e2⟩, ⟨c3, n3, e3⟩, ⟨c4, n4, e4⟩⟩ := Reset_spec a t
  have key : ∀ {α : Type} (ts : α → Nanotime) (fresh : α → α)
      (m m' : AggregatedMetrics α)
      (_ : ∀ k tk c, cell m k tk = some c →
        cell m' k tk = if isExpired a t (ts c) then none else some (fresh c))
      (k tk : String) (c : α), cell m k tk = some c → fitsInt64 (t - ts c) →
      ((cell m' k tk).isSome = true ↔
        ¬(a.expiryInterval ≠ 0 ∧ t - ts c > a.expiryInterval)) := by
    intro α ts fresh m m' hc k tk c hcell _
    rw [hc k tk c hcell]
    cases he : isExpired a t (ts c) with
    | true =>
      have := (isExpired_iff a t (ts c)).mp he
      simp only [if_true, Option.isSome_none, Bool.false_eq_true, false_iff, not_not]
      exact this
    | false =>
      have hne : ¬(a.expiryInterval ≠ 0 ∧ t - ts c > a.expiryInterval) := by
        intro h'
        rw [(isExpired_iff a t (ts c)).mpr h'] at he
        exact Bool.noConfusion he
      simp only [Bool.false_eq_true, if_false, Option.isSome_some, true_iff]
      exact hne
  refine ⟨a', h, key (fun c : Counter F => c.Timestamp) _ _ _ c1, n1,
    key (fun c : Timer F => c.Timestamp) _ _ _ c2, n2,
    key (fun c : Gauge F => c.Timestamp) (fun c => c) _ _ c3, n3,
    key (fun c : Set => c.Timestamp) _ _ _ c4, n4,
    fun k => lookup_eq_none_of_cells _ _ k e1, fun k => lookup_eq_none_of_cells _ _ k e2,
    fun k => lookup_eq_none_of_cells _ _ k e3, fun k => lookup_eq_none_of_cells _ _ k e4⟩

/-- On the sample aggregator, whose cells are stamped at 5 ns and expire after 10 ns: at
the clock reading 16 ns the counter is deleted and its name with it, at 12 ns it stays. -/
theorem reset_expiry_witness :
    (∃ a', Reset (sampleAggregator : MetricAggregator ℚ) 16 = some a' ∧
      cell a'.metricMap.Counters "hits" "env:prod" = none ∧
      a'.metricMap.Counters.lookup "hits" = none) ∧
    (∃ a', Reset (sampleAggregator : MetricAggregator ℚ) 12 = some a' ∧
      (cell a'.metricMap.Counters "hits" "env:prod").isSome = true) := by
  have hcell : cell (sampleAggregator : MetricAggregator ℚ).metricMap.Counters "hits" "env:prod"
      = some sampleCounter := by rfl
  constructor
  · obtain ⟨a', h, hc, hn, _, _, _, _, _, _, hname, _⟩ :=
      reset_expiry (sampleAggregator : MetricAggregator ℚ) 16
    have hexp := hc "hits" "env:prod" sampleCounter hcell (by decide)
    have hgone : cell a'.metricMap.Counters "hits" "env:prod" = none := by
      cases hc' : cell a'.metricMap.Counters "hits" "env:prod" with
      | none => rfl
      | some c =>
        rw [hc'] at hexp
        exact absurd (hexp.mp rfl) (by decide)
    refine ⟨a', h, hgone, hname "hits" ⟨"env:prod", sampleCounter, hcell⟩ ?_⟩
    intro tagsKey
    by_cases ht : tagsKey = "env:prod"
    · rw [ht]; exact hgone
    · apply hn
      cases hc0 : cell (sampleAggregator : MetricAggregator ℚ).metricMap.Counters "hits" tagsKey with
      | none => rfl
      | some c =>
        have hmem := (mem_cells _ "hits" tagsKey c).mpr hc0
        have hcells : cells (sampleAggregator : MetricAggregator ℚ).metricMap.Counters
            = [("hits", "env:prod", sampleCounter)] := rfl
        rw [hcells, List.mem_singleton] at hmem
        simp only [Prod.mk.injEq] at hmem
        exact absurd hmem.2.1 ht
  · obtain ⟨a', h, hc, _⟩ := reset_expiry (sampleAggregator : MetricAggregator ℚ) 12
    exact ⟨a', h, (hc "hits" "env:prod" sampleCounter hcell (by decide)).mpr (by decide)⟩

/-- C8: `Reset` at the clock reading `t` never fails, and every counter, timer or set
cell that is not expired keeps its `Timestamp`, `Hostname` and `Tags` while the rest
is cleared: a counter has `Value = 0` and `PerSecond = 0`; a timer has no `Values`,
`SampledCount = 0` and every derived statistic zero or empty; a set has no `Values`. -/
theorem reset_clears (a : MetricAggregator F) (t : Nanotime) :
    ∃ a', Reset a t = some a' ∧
      (∀ key tagsKey (c : Counter F), cell a.metricMap.Counters key tagsKey = some c →
        ¬(a.expiryInterval ≠ 0 ∧ t - c.Timestamp > a.expiryInterval) →
        ∃ c', cell a'.metricMap.Counters key tagsKey = some c' ∧
          c'.Timestamp = c.Timestamp ∧ c'.Hostname = c.Hostname ∧ c'.Tags = c.Tags ∧
          c'.Value = 0 ∧ c'.PerSecond = 0) ∧
      (∀ key tagsKey (c : Timer F), cell a.metricMap.Timers key tagsKey = some c →
        ¬(a.expiryInterval ≠ 0 ∧ t - c.Timestamp > a.expiryInterval) →
        ∃ c', cell a'.metricMap.Timers key tagsKey = some c' ∧
          c'.Timestamp = c.Timestamp ∧ c'.Hostname = c.Hostname ∧ c'.Tags = c.Tags ∧
          c'.Values.length = 0 ∧ c'.SampledCount = 0 ∧ c'.Count = 0 ∧ c'.PerSecond = 0 ∧
          c'.Min = 0 ∧ c'.Max = 0 ∧ c'.Mean = 0 ∧ c'.Median = 0 ∧ c'.StdDev = 0 ∧
          c'.Sum = 0 ∧ c'.SumSquares = 0 ∧ c'.Percentiles = [] ∧ c'.Buckets.entries = []) ∧
      (∀ key tagsKey (c : Set), cell a.metricMap.Sets key tagsKey = some c →
        ¬(a.expiryInterval ≠ 0 ∧ t - c.Timestamp > a.expiryInterval) →
        ∃ c', cell a'.metricMap.Sets key tagsKey = some c' ∧
          c'.Timestamp = c.Timestamp ∧ c'.Hostname = c.Hostname ∧ c'.Tags = c.Tags ∧
          c'.Values = ∅) := by
  obtain ⟨a', h, _, ⟨c1, _, _⟩, ⟨c2, _, _⟩, _, ⟨c4, _, _⟩⟩ := Reset_spec a t
  have hexp : ∀ ts, ¬(a.expiryInterval ≠ 0 ∧ t - ts > a.expiryInterval) →
      isExpired a t ts = false := by
    intro ts hne
    rw [Bool.eq_false_iff]
    intro h'
    exact hne ((isExpired_iff a t ts).mp h')
  refine ⟨a', h, ?_, ?_, ?_⟩
  · intro key tagsKey c hc hne
    rw [c1 key tagsKey c hc, hexp _ hne]
    exact ⟨_, rfl, rfl, rfl, rfl, rfl, rfl⟩
  · intro key tagsKey c hc hne
    rw [c2 key tagsKey c hc, hexp _ hne]
    exact ⟨_, rfl, rfl, rfl, rfl, rfl, rfl, rfl, rfl, rfl, rfl, rfl, rfl, rfl, rfl, rfl, rfl, rfl⟩
  · intro key tagsKey c hc hne
    rw [c4 key tagsKey c hc, hexp _ hne]
    exact ⟨_, rfl, rfl, rfl, rfl, rfl⟩

end ResetClaims

/-! ## The claims on Flush -/

section FlushClaims

variable {F : Type} [LinearOrderedField F] [FloorRing F]

/-- C1: after `Flush` with a positive interval every counter cell of the map is still
there, its `PerSecond` is `Value / flushSeconds` with `flushSeconds = flushInterval / 1s`
(so `PerSecond * flushSeconds = Value`), and its `Value`, `Timestamp`, `Hostname` and
`Tags` are unchanged.  The counter loop itself never fails, and `Flush` returns
whenever the pipeline of every timer does. -/
theorem flush_counter_rate (sqrt : F → F) (a : MetricAggregator F) (flushInterval : Int)
    (hpos : 0 < flushInterval) :
    (∃ a1, flushCounters a (flushSeconds flushInterval : F) = some a1) ∧
    ((∀ key tagsKey timer, cell a.metricMap.Timers key tagsKey = some timer →
        flushedTimer sqrt a (flushSeconds flushInterval) timer ≠ none) →
      ∃ a', Flush sqrt a flushInterval = some a') ∧
    ∀ a', Flush sqrt a flushInterval = some a' →
      ∀ key tagsKey (c : Counter F), cell a.metricMap.Counters key tagsKey = some c →
        ∃ c', cell a'.metricMap.Counters key tagsKey = some c' ∧
          c'.PerSecond = (c.Value : F) / ((flushInterval : F) / 1000000000) ∧
          c'.PerSecond * ((flushInterval : F) / 1000000000) = (c.Value : F) ∧
          c'.Value = c.Value ∧ c'.Timestamp = c.Timestamp ∧
          c'.Hostname = c.Hostname ∧ c'.Tags = c.Tags := by
  refine ⟨?_, ?_, ?_⟩
  · obtain ⟨a1, h1, _⟩ := flushCounters_spec a (flushSeconds flushInterval : F)
    exact ⟨a1, h1⟩
  · intro hall
    obtain ⟨a', h, _⟩ := Flush_isSome sqrt a flushInterval hall
    exact ⟨a', h⟩
  · intro a' h key tagsKey c hc
    obtain ⟨_, hcnt, _⟩ := Flush_some sqrt a a' flushInterval h
    have hfs : (flushSeconds flushInterval : F) = (flushInterval : F) / 1000000000 := by
      simp [flushSeconds]
    have hne : ((flushInterval : F) / 1000000000) ≠ 0 := by
      have : (0 : F) < (flushInterval : F) := by exact_mod_cast hpos
      positivity
    refine ⟨_, hcnt key tagsKey c hc, ?_, ?_, rfl, rfl, rfl, rfl⟩
    · simp [hfs]
    · simp only [hfs]
      exact div_mul_cancel₀ _ hne

/-- On the sample aggregator, flushed over two seconds: the counter with the value 6 has
the rate 3. -/
theorem flush_counter_rate_witness :
    ∃ a' c', Flush (fun x => x) (sampleAggregator : MetricAggregator ℚ) 2000000000 = some a' ∧
      cell a'.metricMap.Counters "hits" "env:prod" = some c' ∧ c'.PerSecond = 3 ∧ c'.Value = 6 := by
  obtain ⟨a', h⟩ : ∃ a', Flush (fun x => x) (sampleAggregator : MetricAggregator ℚ) 2000000000
      = some a' := Option.isSome_iff_exists.mp (by decide!)
  obtain ⟨c', h1, h2, _, h3, _⟩ :=
    (flush_counter_rate (fun x => x) (sampleAggregator : MetricAggregator ℚ) 2000000000
      (by decide)).2.2 a' h "hits" "env:prod" sampleCounter (by rfl)
  refine ⟨a', c', h, h1, ?_, ?_⟩
  · rw [h2]; norm_num [sampleCounter]
  · rw [h3]; rfl

/-- C7: a gauge cell that is not expired at the clock reading `t` of `Reset` is, after a
`Flush` and the `Reset` that follows it, still in the map, the very same cell (`Value`,
`Timestamp`, `Hostname` and `Tags`). -/
theorem gauge_sticky (sqrt : F → F) (a a1 : MetricAggregator F) (flushInterval : Int)
    (t : Nanotime) (key tagsKey : String) (g : Gauge F)
    (hcell : cell a.metricMap.Gauges key tagsKey = some g)
    (hfresh : ¬(a.expiryInterval ≠ 0 ∧ t - g.Timestamp > a.expiryInterval))
    (hflush : Flush sqrt a flushInterval = some a1) :
    ∃ a2, Reset a1 t = some a2 ∧ cell a2.metricMap.Gauges key tagsKey = some g := by
  obtain ⟨⟨f1, _, _, _, f5, _⟩, _⟩ := Flush_some sqrt a a1 flushInterval hflush
  obtain ⟨a2, h, _, _, _, ⟨c3, _, _⟩, _⟩ := Reset_spec a1 t
  refine ⟨a2, h, ?_⟩
  rw [c3 key tagsKey g (by rw [f5]; exact hcell)]
  have he : isExpired a1 t g.Timestamp = false := by
    rw [Bool.eq_false_iff]
    intro h'
    rw [isExpired_iff, f1] at h'
    exact hfresh h'
  simp [he]

/-- On the sample aggregator: the gauge stamped at 5 ns outlives a `Flush` and a `Reset`
at 12 ns, the expiry interval being 10 ns. -/
theorem gauge_sticky_witness :
    ∃ a1 a2, Flush (fun x => x) (sampleAggregator : MetricAggregator ℚ) 2000000000 = some a1 ∧
      Reset a1 12 = some a2 ∧ cell a2.metricMap.Gauges "temp" "env:prod" = some sampleGauge := by
  obtain ⟨a1, h⟩ : ∃ a', Flush (fun x => x) (sampleAggregator : MetricAggregator ℚ) 2000000000
      = some a' := Option.isSome_iff_exists.mp (by decide!)
  obtain ⟨a2, h2, h3⟩ := gauge_sticky (fun x => x) sampleAggregator a1 2000000000 12
    "temp" "env:prod" sampleGauge (by rfl) (by decide) h
  exact ⟨a1, a2, h, h2, h3⟩

end FlushClaims

/-! ## The claims on the default pipeline -/

section PipelineClaims

variable {F : Type} [LinearOrderedField F] [FloorRing F]

/-- C2: a timer cell that is not tagged `percentiles:true` and has `n ≥ 1` raw values
holds, after a `Flush` that returns, its values sorted ascending (a permutation of the
input), `Min` the least and `Max` the greatest value, `Sum` their sum, `SumSquares` the
sum of their squares, `Mean = Sum / n` and `StdDev ^ 2 * n = Σ (v - Mean) ^ 2`, for
any exact square root `sqrt`.  The pipeline of the cell returns whenever no configured
threshold selects more values than there are (and no lower-tail one all of them). -/
theorem flush_timer_statistics (sqrt : F → F) (hsqrt : ∀ x : F, 0 ≤ x → sqrt x * sqrt x = x)
    (a : MetricAggregator F) (flushInterval : Int) (key tagsKey : String) (timer : Timer F)
    (hcell : cell a.metricMap.Timers key tagsKey = some timer)
    (htag : contains timer.Tags "percentiles:true" = false)
    (hn : 1 ≤ timer.Values.length) :
    ((∀ p ∈ a.percentThresholds.keys, timer.Values.length > 1 →
        (0 < p → numInThreshold p timer.Values.length ≤ (timer.Values.length : Int)) ∧
        (¬ 0 < p → numInThreshold p timer.Values.length = 0 ∨
          numInThreshold p timer.Values.length < (timer.Values.length : Int))) →
      ∃ t', defaultStats sqrt timer a (flushSeconds flushInterval) = some t') ∧
    ∀ a', Flush sqrt a flushInterval = some a' →
      ∃ t', cell a'.metricMap.Timers key tagsKey = some t' ∧
        t'.Values.Sorted (fun x y => x ≤ y) ∧ t'.Values.Perm timer.Values ∧
        (t'.Min ∈ timer.Values ∧ ∀ x ∈ timer.Values, t'.Min ≤ x) ∧
        (t'.Max ∈ timer.Values ∧ ∀ x ∈ timer.Values, x ≤ t'.Max) ∧
        t'.Sum = timer.Values.sum ∧
        t'.SumSquares = (timer.Values.map (fun x => x ^ 2)).sum ∧
        t'.Mean = t'.Sum / (timer.Values.length : F) ∧
        t'.StdDev ^ 2 * (timer.Values.length : F) =
          (timer.Values.map (fun x => (x - t'.Mean) ^ 2)).sum := by
  obtain ⟨v, rest, hsort⟩ := sortFloat64s_ne_nil timer.Values hn
  have hperm : (v :: rest).Perm timer.Values := by
    rw [← hsort]; exact List.perm_insertionSort _ _
  have hsorted : (v :: rest).Sorted (fun x y => x ≤ y) := by
    rw [← hsort]; exact List.sorted_insertionSort _ _
  have hlen : (v :: rest).length = timer.Values.length := hperm.length_eq
  have hspec := defaultStats_spec sqrt timer a (flushSeconds flushInterval) v rest hsort
  constructor
  · exact defaultStats_isSome sqrt a _ timer hn
  · intro a' hflush
    obtain ⟨_, _, _, htimers, _⟩ := Flush_some sqrt a a' flushInterval hflush
    obtain ⟨t', hft, hcell'⟩ := htimers key tagsKey timer hcell
    rw [flushedTimer_default sqrt a _ timer htag hn] at hft
    have hall : ∀ e ∈ a.percentThresholds.entries,
        pctBlock a.disabledSubtypes (v :: rest) e.1 e.2 ≠ none := by
      intro e he hnone
      rw [hspec.1 ⟨e, he, hnone⟩] at hft
      exact Option.noConfusion hft
    obtain ⟨blocks, _, hd⟩ := hspec.2 hall
    rw [hd] at hft
    simp only [Option.some.injEq] at hft
    subst hft
    have hn0 : ((v :: rest).length : F) ≠ 0 := Nat.cast_ne_zero.mpr (by simp)
    refine ⟨_, hcell', ?_⟩
    dsimp only
    refine ⟨hsorted, hperm, ⟨?_, ?_⟩, ⟨?_, ?_⟩, hperm.sum_eq, ?_, ?_, ?_⟩
    · exact hperm.subset (List.mem_cons_self _ _)
    · intro x hx
      have hx' : x ∈ v :: rest := hperm.symm.subset hx
      rcases List.mem_cons.mp hx' with rfl | hr
      · exact le_refl _
      · exact List.rel_of_sorted_cons hsorted x hr
    · apply hperm.subset
      rw [List.getD_eq_getElem?_getD, List.getElem?_eq_getElem (by simp)]
      exact List.getElem_mem _
    · intro x hx
      exact sorted_getD_last_max v rest hsorted x (hperm.symm.subset hx)
    · simp only [pow_two]
      exact (hperm.map _).sum_eq
    · simp only [hlen]
    · rw [pow_two, hsqrt _ (by
        apply div_nonneg
        · apply List.sum_nonneg
          intro y hy
          rw [List.mem_map] at hy
          obtain ⟨x, _, rfl⟩ := hy
          exact mul_self_nonneg _
        · exact Nat.cast_nonneg _), ← hlen, div_mul_cancel₀ _ hn0]
      simp only [pow_two]
      exact (hperm.map _).sum_eq

theorem numInThreshold_sample_upper : numInThreshold (90 : ℝ) 2 = 2 := by
  have h : ((90 : ℚ) : ℝ) = 90 := by norm_num
  rw [← h, numInThreshold_ratCast]
  decide!

theorem numInThreshold_sample_lower : numInThreshold (-50 : ℝ) 2 = 1 := by
  have h : ((-50 : ℚ) : ℝ) = -50 := by norm_num
  rw [← h, numInThreshold_ratCast]
  decide!

/-- On the sample aggregator over the reals: the timer with the values 3 and 1 has the
sum 4, the sum of squares 10, the mean 2 and the standard deviation 1. -/
theorem flush_timer_statistics_witness :
    ∃ a' t', Flush Real.sqrt (sampleAggregator : MetricAggregator ℝ) 2000000000 = some a' ∧
      cell a'.metricMap.Timers "latency" "env:prod" = some t' ∧
      t'.Sum = 4 ∧ t'.SumSquares = 10 ∧ t'.Mean = 2 ∧ t'.StdDev ^ 2 * 2 = 2 := by
  have h := flush_timer_statistics Real.sqrt (fun x hx => Real.mul_self_sqrt hx)
    (sampleAggregator : MetricAggregator ℝ) 2000000000 "latency" "env:prod" sampleTimer
    (by rfl) (by rfl) (by simp [sampleTimer])
  have hstats : ∃ t', defaultStats Real.sqrt (sampleTimer : Timer ℝ) sampleAggregator
      (flushSeconds 2000000000) = some t' := by
    apply h.1
    intro p hp _
    have hp' : p = -50 ∨ p = 90 := by
      rw [← AList.mem_keys] at hp
      simp only [sampleAggregator, NewMetricAggregator, List.foldl, AList.mem_insert,
        AList.not_mem_empty, or_false] at hp
      exact hp
    have hlen : (sampleTimer : Timer ℝ).Values.length = 2 := rfl
    rw [hlen]
    rcases hp' with rfl | rfl
    · rw [numInThreshold_sample_lower]
      norm_num
    · rw [numInThreshold_sample_upper]
      norm_num
  obtain ⟨a', ha', _⟩ := Flush_isSome Real.sqrt (sampleAggregator : MetricAggregator ℝ)
    2000000000 (by
      intro k t c hc
      have hmem := (mem_cells _ k t c).mpr hc
      have hcells : cells (sampleAggregator : MetricAggregator ℝ).metricMap.Timers
          = [("latency", "env:prod", sampleTimer)] := rfl
      rw [hcells, List.mem_singleton] at hmem
      simp only [Prod.mk.injEq] at hmem
      obtain ⟨_, _, rfl⟩ := hmem
      obtain ⟨t', ht'⟩ := hstats
      rw [flushedTimer_default _ _ _ _ (by rfl) (by simp [sampleTimer]), ht']
      exact Option.some_ne_none _)
  obtain ⟨t', h1, _, _, _, _, h2, h3, h4, h5⟩ := h.2 a' ha'
  have hsum : t'.Sum = 4 := by rw [h2]; norm_num [sampleTimer]
  have hmean : t'.Mean = 2 := by rw [h4, hsum]; norm_num [sampleTimer]
  refine ⟨a', t', ha', h1, hsum, ?_, hmean, ?_⟩
  · rw [h3]; norm_num [sampleTimer]
  · have hl : (((sampleTimer : Timer ℝ).Values.length : Nat) : ℝ) = 2 := by
      norm_num [sampleTimer]
    rw [hl] at h5
    rw [h5, hmean]
    norm_num [sampleTimer]

end PipelineClaims

/-! ## Inputs on which the code leaves the specification -/

section Divergences

/-- C6: `Flush` panics on a default-pipeline timer with the values 3 and 1 when the one
configured threshold is -90, which lies in `[-100, 100]`: `numInThreshold` is
`round(1.8) = 2`, the number of values, so the lower-tail branch reads
`cumulativeValues[2 - 2 - 1]`, the index -1. -/
theorem flush_panics_on_full_lower_tail :
    (∀ p ∈ (timerAggregator [-90] sampleTimer : MetricAggregator ℚ).percentThresholds.keys,
      -100 ≤ p ∧ p ≤ 100) ∧
    contains (sampleTimer : Timer ℚ).Tags "percentiles:true" = false ∧
    numInThreshold (-90 : ℚ) 2 = 2 ∧
    index ([1, 4] : List ℚ) (2 - 2 - 1) = none ∧
    (Flush (fun x => x) (timerAggregator [-90] sampleTimer : MetricAggregator ℚ)
      1000000000).isNone = true := by
  decide!

/-- C4: for the threshold -90 and the sorted values 1 and 3 the count `k` is 2 with
`1 ≤ k ≤ n`, yet the loop body of `defaultPipeline` emits nothing: it panics on
`cumulativeValues[n - k - 1]`, the index -1, and with it the whole pipeline. -/
theorem lower_tail_of_all_values_panics :
    numInThreshold (-90 : ℚ) 2 = 2 ∧
    sortFloat64s (sampleTimer : Timer ℚ).Values = [1, 3] ∧
    (pctStep
      { CountPct := false, MeanPct := false, SumPct := false, SumSquaresPct := false,
        UpperPct := false, LowerPct := false }
      ([1, 3] : List ℚ) [1, 4] [1, 10] 2
      { sumSquares := 1, mean := 1, sum := 1, thresholdBoundary := 3, Percentiles := [] }
      (-90) (newPercentStruct (-90 : ℚ))).isNone = true ∧
    (defaultStats (fun x => x) (sampleTimer : Timer ℚ) (timerAggregator [-90] sampleTimer)
      1).isNone = true := by
  decide!

/-- C9: `Flush` panics on a timer tagged `percentiles:true` whose one value is 5000:
the value equals the largest key of the ordered map, the second `Ceiling` finds no key,
and the type assertion on the nil value fails. -/
theorem flush_panics_on_large_bucketed_value :
    contains (bucketedTimer : Timer ℚ).Tags "percentiles:true" = true ∧
    (bucketedTimer : Timer ℚ).Values = [5000] ∧
    fancyBuckets ([5000] : List ℚ) = none ∧
    (Flush (fun x => x) (timerAggregator [90] bucketedTimer : MetricAggregator ℚ)
      1000000000).isNone = true := by
  decide!

/-- C10: the keys of the `Buckets` map are the eleven bounds and 0, the zero value of the
twelfth array slot, with no overflow bucket: the value -5 is counted under the key 0,
which is not one of the bounds, and the value 6000, above the largest bound, makes the
pipeline panic. -/
theorem buckets_hold_zero_key_and_no_overflow :
    (fancyBuckets ([-5] : List ℚ)).map (fun m => (m.keys, m.lookup 0, m.lookup 20)) =
      some ([5000, 2000, 1000, 500, 200, 100, 75, 50, 40, 30, 20, 0], some 1, some 0) ∧
    fancyBuckets ([6000] : List ℚ) = none := by
  decide!

end Divergences

/-! ## The median, the count and the order of the statistics -/

section TimerFields
variable {F : Type} [LinearOrderedField F] [FloorRing F]

/-- The fields `Flush` stores for a timer of the default pipeline with at least one
value, over its sorted values `v :: rest`. -/
theorem flush_default_fields (sqrt : F → F) (a a' : MetricAggregator F) (flushInterval : Int)
    (key tagsKey : String) (timer : Timer F)
    (hcell : cell a.metricMap.Timers key tagsKey = some timer)
    (htag : contains timer.Tags "percentiles:true" = false)
    (hn : 1 ≤ timer.Values.length)
    (hflush : Flush sqrt a flushInterval = some a') :
    ∃ t' v rest, cell a'.metricMap.Timers key tagsKey = some t' ∧
      sortFloat64s timer.Values = v :: rest ∧
      t'.Values = v :: rest ∧ t'.Min = v ∧
      t'.Max = (v :: rest).getD ((v :: rest).length - 1) 0 ∧
      t'.Median =
        (if (v :: rest).length % 2 = 0 then
          ((v :: rest).getD ((v :: rest).length / 2 - 1) 0 +
            (v :: rest).getD ((v :: rest).length / 2) 0) / 2
        else (v :: rest).getD ((v :: rest).length / 2) 0) ∧
      t'.Mean = (v :: rest).sum / ((v :: rest).length : F) ∧
      t'.StdDev = sqrt (((v :: rest).map (fun x =>
          (x - (v :: rest).sum / ((v :: rest).length : F)) *
          (x - (v :: rest).sum / ((v :: rest).length : F)))).sum /
        ((v :: rest).length : F)) ∧
      t'.Count = ⌊rnd64 (timer.SampledCount + 1 / 2)⌋ ∧
      t'.PerSecond = timer.SampledCount / flushSeconds flushInterval ∧
      t'.SampledCount = timer.SampledCount ∧ t'.Tags = timer.Tags ∧
      t'.Buckets = timer.Buckets := by
  obtain ⟨v, rest, hsort⟩ := sortFloat64s_ne_nil timer.Values hn
  have hspec := defaultStats_spec sqrt timer a (flushSeconds flushInterval) v rest hsort
  obtain ⟨_, _, _, htimers, _⟩ := Flush_some sqrt a a' flushInterval hflush
  obtain ⟨t', hft, hcell'⟩ := htimers key tagsKey timer hcell
  rw [flushedTimer_default sqrt a _ timer htag hn] at hft
  have hall : ∀ e ∈ a.percentThresholds.entries,
      pctBlock a.disabledSubtypes (v :: rest) e.1 e.2 ≠ none := by
    intro e he hnone
    rw [hspec.1 ⟨e, he, hnone⟩] at hft
    exact Option.noConfusion hft
  obtain ⟨blocks, _, hd⟩ := hspec.2 hall
  rw [hd] at hft
  simp only [Option.some.injEq] at hft
  subst hft
  exact ⟨_, v, rest, hcell', hsort, rfl, rfl, rfl, rfl, rfl, rfl, rfl, rfl, rfl, rfl, rfl⟩

/-- C11: a timer cell that is not tagged `percentiles:true` and has `n ≥ 1` raw values
holds, after a `Flush` that returns, its values sorted ascending, and its `Median` is
`(values[n/2 - 1] + values[n/2]) / 2` of the sorted values when `n` is even and
`values[n/2]` (integer division) when `n` is odd.  The pipeline of the cell returns
whenever no configured threshold selects more values than there are (and no lower-tail
one all of them). -/
theorem flush_timer_median (sqrt : F → F) (a : MetricAggregator F) (flushInterval : Int)
    (key tagsKey : String) (timer : Timer F)
    (hcell : cell a.metricMap.Timers key tagsKey = some timer)
    (htag : contains timer.Tags "percentiles:true" = false)
    (hn : 1 ≤ timer.Values.length) :
    ((∀ p ∈ a.percentThresholds.keys, timer.Values.length > 1 →
        (0 < p → numInThreshold p timer.Values.length ≤ (timer.Values.length : Int)) ∧
        (¬ 0 < p → numInThreshold p timer.Values.length = 0 ∨
          numInThreshold p timer.Values.length < (timer.Values.length : Int))) →
      ∃ t', defaultStats sqrt timer a (flushSeconds flushInterval) = some t') ∧
    ∀ a', Flush sqrt a flushInterval = some a' →
      ∃ t', cell a'.metricMap.Timers key tagsKey = some t' ∧
        t'.Values.Sorted (fun x y => x ≤ y) ∧ t'.Values.Perm timer.Values ∧
        (timer.Values.length % 2 = 0 →
          ∃ lo hi, t'.Values[timer.Values.length / 2 - 1]? = some lo ∧
            t'.Values[timer.Values.length / 2]? = some hi ∧
            t'.Median = (lo + hi) / 2) ∧
        (timer.Values.length % 2 = 1 →
          ∃ mid, t'.Values[timer.Values.length / 2]? = some mid ∧ t'.Median = mid) := by
  refine ⟨defaultStats_isSome sqrt a _ timer hn, ?_⟩
  intro a' hflush
  obtain ⟨t', v, rest, hcell', hsort, hvals, _, _, hmed, _⟩ :=
    flush_default_fields sqrt a a' flushInterval key tagsKey timer hcell htag hn hflush
  have hperm : (v :: rest).Perm timer.Values := by
    rw [← hsort]; exact List.perm_insertionSort _ _
  have hsorted : (v :: rest).Sorted (fun x y => x ≤ y) := by
    rw [← hsort]; exact List.sorted_insertionSort _ _
  have hlen : (v :: rest).length = timer.Values.length := hperm.length_eq
  rw [hlen] at hmed
  have hget : ∀ i, i < timer.Values.length →
      (v :: rest)[i]? = some ((v :: rest).getD i 0) := by
    intro i hi
    rw [List.getD_eq_getElem?_getD, List.getElem?_eq_getElem (by omega)]
    rfl
  refine ⟨t', hcell', by rw [hvals]; exact hsorted, by rw [hvals]; exact hperm, ?_, ?_⟩
  · intro hpar
    refine ⟨(v :: rest).getD (timer.Values.length / 2 - 1) 0,
      (v :: rest).getD (timer.Values.length / 2) 0, ?_, ?_, ?_⟩
    · rw [hvals]; exact hget _ (by omega)
    · rw [hvals]; exact hget _ (by omega)
    · rw [hmed, if_pos hpar]
  · intro hpar
    refine ⟨(v :: rest).getD (timer.Values.length / 2) 0, ?_, ?_⟩
    · rw [hvals]; exact hget _ (by omega)
    · rw [hmed, if_neg (by omega)]

/-- On the sample aggregator: the median of the timer with the values 3 and 1 is 2. -/
theorem flush_timer_median_witness :
    ∃ a' t', Flush (fun x => x) (sampleAggregator : MetricAggregator ℚ) 2000000000 = some a' ∧
      cell a'.metricMap.Timers "latency" "env:prod" = some t' ∧
      t'.Values = [1, 3] ∧ t'.Median = 2 := by
  obtain ⟨a', h⟩ : ∃ a', Flush (fun x => x) (sampleAggregator : MetricAggregator ℚ) 2000000000
      = some a' := Option.isSome_iff_exists.mp (by decide!)
  obtain ⟨t', h1, hs, hp, heven, _⟩ :=
    (flush_timer_median (fun x => x) (sampleAggregator : MetricAggregator ℚ) 2000000000
      "latency" "env:prod" sampleTimer (by rfl) (by rfl) (by decide)).2 a' h
  have ht : t'.Values = [1, 3] := by
    refine List.eq_of_perm_of_sorted (hp.trans ?_) hs (by simp [List.Sorted])
    exact List.Perm.swap _ _ _
  obtain ⟨lo, hi, hlo, hhi, hm⟩ := heven (by rfl)
  rw [ht] at hlo hhi
  have e1 : lo = 1 := by simpa [sampleTimer] using hlo.symm
  have e2 : hi = 3 := by simpa [sampleTimer] using hhi.symm
  refine ⟨a', t', h, h1, ht, ?_⟩
  rw [hm, e1, e2]
  norm_num

end TimerFields

section TimerCount

variable {F : Type} [LinearOrderedField F] [FloorRing F]

/-- C12: a timer cell that is not tagged `percentiles:true` and has at least one value
holds, after a `Flush` that returns, `Count = ⌊fl(SampledCount + 0.5)⌋`, where `fl` rounds
the sum to the nearest `float64` (`rnd64`), provided this floor lies in the range of
`int`; so `Count = ⌊SampledCount + 0.5⌋` whenever the sum is a `float64` itself, as in
`round(0.5) = 1`, `round(-0.5) = 0` and `round(1.4999) = 1`.  For a flush interval other
than 0 it holds `PerSecond = SampledCount / flushSeconds` with
`flushSeconds = flushInterval / 1s`.  The pipeline of the cell returns whenever no
configured threshold selects more values than there are (and no lower-tail one all of
them). -/
theorem flush_timer_count (sqrt : F → F) (a : MetricAggregator F) (flushInterval : Int)
    (hne : flushInterval ≠ 0) (key tagsKey : String) (timer : Timer F)
    (hcell : cell a.metricMap.Timers key tagsKey = some timer)
    (htag : contains timer.Tags "percentiles:true" = false)
    (hn : 1 ≤ timer.Values.length)
    (_hrange : -2 ^ 63 ≤ ⌊rnd64 (timer.SampledCount + 1 / 2)⌋ ∧
      ⌊rnd64 (timer.SampledCount + 1 / 2)⌋ < 2 ^ 63) :
    ((∀ p ∈ a.percentThresholds.keys, timer.Values.length > 1 →
        (0 < p → numInThreshold p timer.Values.length ≤ (timer.Values.length : Int)) ∧
        (¬ 0 < p → numInThreshold p timer.Values.length = 0 ∨
          numInThreshold p timer.Values.length < (timer.Values.length : Int))) →
      ∃ t', defaultStats sqrt timer a (flushSeconds flushInterval) = some t') ∧
    (∀ a', Flush sqrt a flushInterval = some a' →
      ∃ t', cell a'.metricMap.Timers key tagsKey = some t' ∧
        t'.Count = ⌊rnd64 (timer.SampledCount + 1 / 2)⌋ ∧
        (t'.Count : F) = round timer.SampledCount ∧
        (rnd64 (timer.SampledCount + 1 / 2) = timer.SampledCount + 1 / 2 →
          t'.Count = ⌊timer.SampledCount + 1 / 2⌋) ∧
        t'.PerSecond = timer.SampledCount / ((flushInterval : F) / 1000000000) ∧
        t'.PerSecond * ((flushInterval : F) / 1000000000) = timer.SampledCount ∧
        t'.SampledCount = timer.SampledCount) ∧
    (round (1 / 2 : F) = 1 ∧ round (-(1 / 2) : F) = 0 ∧ round (14999 / 10000 : F) = 1) := by
  refine ⟨defaultStats_isSome sqrt a _ timer hn, ?_, ?_, ?_, ?_⟩
  · intro a' hflush
    obtain ⟨t', v, rest, hcell', _, _, _, _, _, _, _, hcount, hps, hsc, _⟩ :=
      flush_default_fields sqrt a a' flushInterval key tagsKey timer hcell htag hn hflush
    have hfs : (flushSeconds flushInterval : F) = (flushInterval : F) / 1000000000 := by
      simp [flushSeconds]
    have hne' : ((flushInterval : F) / 1000000000) ≠ 0 := by
      have : (flushInterval : F) ≠ 0 := by exact_mod_cast hne
      exact div_ne_zero this (by norm_num)
    refine ⟨t', hcell', hcount, ?_, ?_, ?_, ?_, hsc⟩
    · rw [hcount]; rfl
    · intro hexact
      rw [hcount, hexact]
    · rw [hps, hfs]
    · rw [hps, hfs]
      exact div_mul_cancel₀ _ hne'
  · have h : round (1 / 2 : ℚ) = 1 := by decide!
    have e : ((1 / 2 : ℚ) : F) = 1 / 2 := by push_cast; rfl
    rw [← e, round_ratCast, h]
    simp
  · have h : round (-(1 / 2) : ℚ) = 0 := by decide!
    have e : ((-(1 / 2) : ℚ) : F) = -(1 / 2) := by push_cast; rfl
    rw [← e, round_ratCast, h]
    simp
  · have h : round (14999 / 10000 : ℚ) = 1 := by decide!
    have e : ((14999 / 10000 : ℚ) : F) = 14999 / 10000 := by push_cast; rfl
    rw [← e, round_ratCast, h]
    simp

/-- C12, as stated, fails for the sampled count 0.49999999999999994, the `float64`
`1/2 - 2^-54`: the sum with 0.5 lies half-way between two `float64`s and is rounded to
1.0, so `Count` is 1, where `⌊SampledCount + 0.5⌋` is 0 and half-up rounding gives 0. -/
theorem count_of_largest_float_below_half :
    rnd64 (1 / 2 - 1 / 2 ^ 54 : ℚ) = 1 / 2 - 1 / 2 ^ 54 ∧
    ⌊(1 / 2 - 1 / 2 ^ 54 : ℚ) + 1 / 2⌋ = 0 ∧
    (Flush (fun x => x)
        (timerAggregator [90] { (sampleTimer : Timer ℚ) with SampledCount := 1 / 2 - 1 / 2 ^ 54 })
        1000000000).map
      (fun a' => (cell a'.metricMap.Timers "latency" "env:prod").map (fun t => t.Count)) =
      some (some 1) := by
  decide!

/-- On a timer with the values 3 and 1 and a sampled count of 2.5, flushed over two
seconds: the count is 3 and the rate 1.25. -/
theorem flush_timer_count_witness :
    ∃ a' t',
      Flush (fun x => x)
        (timerAggregator [90] { (sampleTimer : Timer ℚ) with SampledCount := 5 / 2 })
        2000000000 = some a' ∧
      cell a'.metricMap.Timers "latency" "env:prod" = some t' ∧
      t'.Count = 3 ∧ t'.PerSecond = 5 / 4 := by
  obtain ⟨a', h⟩ : ∃ a', Flush (fun x => x)
      (timerAggregator [90] { (sampleTimer : Timer ℚ) with SampledCount := 5 / 2 })
      2000000000 = some a' := Option.isSome_iff_exists.mp (by decide!)
  obtain ⟨t', h1, h2, _, _, h3, _⟩ :=
    (flush_timer_count (fun x => x)
      (timerAggregator [90] { (sampleTimer : Timer ℚ) with SampledCount := 5 / 2 })
      2000000000 (by decide) "latency" "env:prod"
      { (sampleTimer : Timer ℚ) with SampledCount := 5 / 2 }
      (by rfl) (by rfl) (by decide) (by decide!)).2.1 a' h
  refine ⟨a', t', h, h1, ?_, ?_⟩
  · rw [h2]
    decide!
  · rw [h3]
    norm_num

end TimerCount

section TimerOrder
variable {F : Type} [LinearOrderedField F] [FloorRing F]

omit [FloorRing F] in
/-- The mean of a non-empty list lies between a lower and an upper bound of its
members. -/
theorem mean_between (l : List F) (lo hi : F) (hl : 1 ≤ l.length)
    (hlo : ∀ x ∈ l, lo ≤ x) (hhi : ∀ x ∈ l, x ≤ hi) :
    lo ≤ l.sum / (l.length : F) ∧ l.sum / (l.length : F) ≤ hi := by
  have hpos : (0 : F) < (l.length : F) := by exact_mod_cast hl
  have h1 := List.card_nsmul_le_sum l lo hlo
  have h2 := List.sum_le_card_nsmul l hi hhi
  rw [nsmul_eq_mul] at h1 h2
  constructor
  · rw [le_div_iff₀ hpos]
    linarith
  · rw [div_le_iff₀ hpos]
    linarith

omit [FloorRing F] in
/-- The squared deviations of a constant list from its mean sum to zero. -/
theorem deviations_of_constant (l : List F) (c : F) (hl : 1 ≤ l.length)
    (hc : ∀ x ∈ l, x = c) :
    (l.map (fun x => (x - l.sum / (l.length : F)) * (x - l.sum / (l.length : F)))).sum = 0 := by
  have hpos : (l.length : F) ≠ 0 := Nat.cast_ne_zero.mpr (by omega)
  have hsum : l.sum = (l.length : F) * c := by
    rw [List.sum_eq_card_nsmul l c hc, nsmul_eq_mul]
  have hmean : l.sum / (l.length : F) = c := by
    rw [hsum]
    field_simp
  apply List.sum_eq_zero
  intro y hy
  rw [List.mem_map] at hy
  obtain ⟨x, hx, rfl⟩ := hy
  rw [hmean, hc x hx]
  ring

/-- C19: for a timer cell that is not tagged `percentiles:true` and has `n ≥ 1` values,
the statistics a `Flush` that returns stores are ordered, for the principal square root
`sqrt` and exact arithmetic: `Min ≤ Median ≤ Max`, `Min ≤ Mean ≤ Max`, `StdDev ≥ 0`, and
`StdDev = 0` when all values are equal.  The pipeline of the cell returns whenever no
configured threshold selects more values than there are (and no lower-tail one all of
them). -/
theorem flush_timer_order (sqrt : F → F)
    (hsqrt : ∀ x : F, 0 ≤ x → 0 ≤ sqrt x ∧ sqrt x * sqrt x = x)
    (a : MetricAggregator F) (flushInterval : Int) (key tagsKey : String) (timer : Timer F)
    (hcell : cell a.metricMap.Timers key tagsKey = some timer)
    (htag : contains timer.Tags "percentiles:true" = false)
    (hn : 1 ≤ timer.Values.length) :
    ((∀ p ∈ a.percentThresholds.keys, timer.Values.length > 1 →
        (0 < p → numInThreshold p timer.Values.length ≤ (timer.Values.length : Int)) ∧
        (¬ 0 < p → numInThreshold p timer.Values.length = 0 ∨
          numInThreshold p timer.Values.length < (timer.Values.length : Int))) →
      ∃ t', defaultStats sqrt timer a (flushSeconds flushInterval) = some t') ∧
    ∀ a', Flush sqrt a flushInterval = some a' →
      ∃ t', cell a'.metricMap.Timers key tagsKey = some t' ∧
        t'.Min ≤ t'.Median ∧ t'.Median ≤ t'.Max ∧
        t'.Min ≤ t'.Mean ∧ t'.Mean ≤ t'.Max ∧
        0 ≤ t'.StdDev ∧
        ((∀ x ∈ timer.Values, ∀ y ∈ timer.Values, x = y) → t'.StdDev = 0) := by
  refine ⟨defaultStats_isSome sqrt a _ timer hn, ?_⟩
  intro a' hflush
  obtain ⟨t', v, rest, hcell', hsort, hvals, hmin, hmax, hmed, hmean, hsd, _⟩ :=
    flush_default_fields sqrt a a' flushInterval key tagsKey timer hcell htag hn hflush
  have hperm : (v :: rest).Perm timer.Values := by
    rw [← hsort]; exact List.perm_insertionSort _ _
  have hsorted : (v :: rest).Sorted (fun x y => x ≤ y) := by
    rw [← hsort]; exact List.sorted_insertionSort _ _
  have hlo : ∀ x ∈ v :: rest, v ≤ x := by
    intro x hx
    rcases List.mem_cons.mp hx with rfl | hr
    · exact le_refl _
    · exact List.rel_of_sorted_cons hsorted x hr
  have hhi := sorted_getD_last_max v rest hsorted
  have hlen1 : 1 ≤ (v :: rest).length := by simp
  have hmem : ∀ i, i < (v :: rest).length → (v :: rest).getD i 0 ∈ v :: rest := by
    intro i hi
    rw [List.getD_eq_getElem?_getD, List.getElem?_eq_getElem hi]
    exact List.getElem_mem _
  have hdev : 0 ≤ ((v :: rest).map (fun x =>
      (x - (v :: rest).sum / ((v :: rest).length : F)) *
      (x - (v :: rest).sum / ((v :: rest).length : F)))).sum / ((v :: rest).length : F) := by
    apply div_nonneg
    · apply List.sum_nonneg
      intro y hy
      rw [List.mem_map] at hy
      obtain ⟨x, _, rfl⟩ := hy
      exact mul_self_nonneg _
    · exact Nat.cast_nonneg _
  obtain ⟨hm1, hm2⟩ := mean_between (v :: rest) v _ hlen1 hlo hhi
  refine ⟨t', hcell', ?_, ?_, ?_, ?_, ?_, ?_⟩
  · rw [hmin, hmed]
    split_ifs with hpar
    · have h1 := hlo _ (hmem ((v :: rest).length / 2 - 1) (by omega))
      have h2 := hlo _ (hmem ((v :: rest).length / 2) (by omega))
      linarith
    · exact hlo _ (hmem ((v :: rest).length / 2) (by omega))
  · rw [hmax, hmed]
    split_ifs with hpar
    · have h1 := hhi _ (hmem ((v :: rest).length / 2 - 1) (by omega))
      have h2 := hhi _ (hmem ((v :: rest).length / 2) (by omega))
      linarith
    · exact hhi _ (hmem ((v :: rest).length / 2) (by omega))
  · rw [hmin, hmean]; exact hm1
  · rw [hmax, hmean]; exact hm2
  · rw [hsd]; exact (hsqrt _ hdev).1
  · intro heq
    have hc : ∀ x ∈ v :: rest, x = v := fun x hx =>
      heq x (hperm.subset hx) v (hperm.subset (List.mem_cons_self _ _))
    rw [hsd, deviations_of_constant (v :: rest) v hlen1 hc, zero_div]
    have h0 := (hsqrt 0 (le_refl _)).2
    exact mul_self_eq_zero.mp h0

/-- C19, as stated, fails in `float64` for three values 0.1 (the `float64` nearest to
1/10): their running sum is rounded up to 0.30000000000000004, so the mean is
0.10000000000000002, above all three values, the deviations are not zero,
`sumOfDiffs / count` is the positive `float64` 1.925929944387236e-34, and `StdDev`, its
square root, is not 0 although all values are equal. -/
theorem float64_deviation_of_equal_values :
    rnd64 (rnd64 (1 / 10 : ℚ)) = rnd64 (1 / 10) ∧
    mean64 [rnd64 (1 / 10 : ℚ), rnd64 (1 / 10), rnd64 (1 / 10)] =
      rnd64 (1 / 10) + 1 / 2 ^ 56 ∧
    rnd64 (1 / 10 : ℚ) <
      mean64 [rnd64 (1 / 10 : ℚ), rnd64 (1 / 10), rnd64 (1 / 10)] ∧
    0 < variance64 [rnd64 (1 / 10 : ℚ), rnd64 (1 / 10), rnd64 (1 / 10)] ∧
    variance64 [rnd64 (1 / 10 : ℚ), rnd64 (1 / 10), rnd64 (1 / 10)] = 1 / 2 ^ 112 := by
  decide!

/-- Over the reals, with the real square root, `Flush` returns on the sample
aggregator. -/
theorem sample_flush_real :
    ∃ a', Flush Real.sqrt (sampleAggregator : MetricAggregator ℝ) 2000000000 = some a' := by
  have hstats : ∃ t', defaultStats Real.sqrt (sampleTimer : Timer ℝ) sampleAggregator
      (flushSeconds 2000000000) = some t' := by
    apply defaultStats_isSome Real.sqrt _ _ _ (by simp [sampleTimer])
    intro p hp _
    have hp' : p = -50 ∨ p = 90 := by
      rw [← AList.mem_keys] at hp
      simp only [sampleAggregator, NewMetricAggregator, List.foldl, AList.mem_insert,
        AList.not_mem_empty, or_false] at hp
      exact hp
    have hlen : (sampleTimer : Timer ℝ).Values.length = 2 := rfl
    rw [hlen]
    rcases hp' with rfl | rfl
    · rw [numInThreshold_sample_lower]
      norm_num
    · rw [numInThreshold_sample_upper]
      norm_num
  obtain ⟨a', ha', _⟩ := Flush_isSome Real.sqrt (sampleAggregator : MetricAggregator ℝ)
    2000000000 (by
      intro k t c hc
      have hmem := (mem_cells _ k t c).mpr hc
      have hcells : cells (sampleAggregator : MetricAggregator ℝ).metricMap.Timers
          = [("latency", "env:prod", sampleTimer)] := rfl
      rw [hcells, List.mem_singleton] at hmem
      simp only [Prod.mk.injEq] at hmem
      obtain ⟨_, _, rfl⟩ := hmem
      obtain ⟨t', ht'⟩ := hstats
      rw [flushedTimer_default _ _ _ _ (by rfl) (by simp [sampleTimer]), ht']
      exact Option.some_ne_none _)
  exact ⟨a', ha'⟩

/-- On the sample aggregator over the reals: the statistics of the timer with the values
3 and 1 are ordered and its standard deviation is not negative. -/
theorem flush_timer_order_witness :
    ∃ a' t', Flush Real.sqrt (sampleAggregator : MetricAggregator ℝ) 2000000000 = some a' ∧
      cell a'.metricMap.Timers "latency" "env:prod" = some t' ∧
      t'.Min ≤ t'.Median ∧ t'.Median ≤ t'.Max ∧ t'.Min ≤ t'.Mean ∧ t'.Mean ≤ t'.Max ∧
      0 ≤ t'.StdDev := by
  obtain ⟨a', ha'⟩ := sample_flush_real
  obtain ⟨t', h1, h2, h3, h4, h5, h6, _⟩ :=
    (flush_timer_order Real.sqrt (fun x hx => ⟨Real.sqrt_nonneg x, Real.mul_self_sqrt hx⟩)
      (sampleAggregator : MetricAggregator ℝ) 2000000000 "latency" "env:prod" sampleTimer
      (by rfl) (by rfl) (by simp [sampleTimer])).2 a' ha'
  exact ⟨a', t', ha', h1, h2, h3, h4, h5, h6⟩

end TimerOrder

/-! ## The entries of a threshold: single values and disabled subtypes -/

section ThresholdEntries
variable {F : Type} [LinearOrderedField F] [FloorRing F]

/-- C16: for a timer of the default pipeline with exactly one value `v`, no subtype
disabled, `Flush` returns from the pipeline of the cell and appends to `Percentiles` one
block per configured threshold `p`, which is `count_p = 1`, `mean_p = v`, `sum_p = v`,
`sum_squares_p = v ^ 2` and the boundary `v`, named `upper_p` for `p > 0` and `lower_p`
otherwise.  The block of a threshold is the same wherever the threshold stands in the
traversal. -/
theorem flush_single_value_percentiles (sqrt : F → F) (a : MetricAggregator F)
    (flushInterval : Int) (key tagsKey : String) (timer : Timer F) (v : F)
    (hcell : cell a.metricMap.Timers key tagsKey = some timer)
    (htag : contains timer.Tags "percentiles:true" = false)
    (hone : timer.Values = [v])
    (hdis : a.disabledSubtypes =
      { CountPct := false, MeanPct := false, SumPct := false, SumSquaresPct := false,
        UpperPct := false, LowerPct := false }) :
    (∃ t', defaultStats sqrt timer a (flushSeconds flushInterval) = some t') ∧
    ∀ a', Flush sqrt a flushInterval = some a' →
      ∃ t' blocks, cell a'.metricMap.Timers key tagsKey = some t' ∧
        t'.Percentiles = timer.Percentiles ++ blocks.flatten ∧
        List.Forall₂
          (fun e b =>
            b = [{ Float := 1, Str := e.2.count },
                 { Float := v, Str := e.2.mean },
                 { Float := v, Str := e.2.sum },
                 { Float := v ^ 2, Str := e.2.sumSquares },
                 { Float := v, Str := if 0 < e.1 then e.2.upper else e.2.lower }])
          a.percentThresholds.entries blocks := by
  have hn : 1 ≤ timer.Values.length := by rw [hone]; simp
  constructor
  · apply defaultStats_isSome sqrt a _ timer hn
    intro p _ hgt
    rw [hone] at hgt
    simp at hgt
  · intro a' hflush
    obtain ⟨t', blocks, hcell', _, _, hperc, hall⟩ :=
      flush_default_cell sqrt a a' flushInterval key tagsKey timer hcell htag hn hflush
    refine ⟨t', blocks, hcell', hperc, hall.imp ?_⟩
    intro e b hb
    have hs : sortFloat64s [v] = [v] := by simp [sortFloat64s]
    rw [hone, hs] at hb
    by_cases hp : 0 < e.1
    · have hgp : e.1 > 0 := hp
      simp only [pctBlock, List.length_singleton, gt_iff_lt, lt_self_iff_false, if_false,
        List.headD_cons, emitted, hdis, Bool.false_eq_true, hp, if_true, Nat.cast_one,
        Int.cast_one, Option.some.injEq, List.append_assoc, List.singleton_append,
        List.nil_append] at hb
      rw [← hb, pow_two]
      simp [hp]
    · simp only [pctBlock, List.length_singleton, gt_iff_lt, lt_self_iff_false, if_false,
        List.headD_cons, emitted, hdis, Bool.false_eq_true, hp, Nat.cast_one,
        Int.cast_one, Option.some.injEq, List.append_assoc, List.singleton_append,
        List.nil_append] at hb
      rw [← hb, pow_two]
      simp [hp]

/-- On a timer with the single value 7 and the thresholds 90 and -50: each threshold
emits the count 1, the value three times, its square, and its own boundary name. -/
theorem flush_single_value_percentiles_witness :
    ∃ a' t', Flush (fun x => x) (timerAggregator [90, -50] singleTimer : MetricAggregator ℚ)
        1000000000 = some a' ∧
      cell a'.metricMap.Timers "latency" "env:prod" = some t' ∧
      t'.Percentiles =
        [{ Float := 1, Str := "count_-50" }, { Float := 7, Str := "mean_-50" },
         { Float := 7, Str := "sum_-50" }, { Float := 49, Str := "sum_squares_-50" },
         { Float := 7, Str := "lower_-50" },
         { Float := 1, Str := "count_90" }, { Float := 7, Str := "mean_90" },
         { Float := 7, Str := "sum_90" }, { Float := 49, Str := "sum_squares_90" },
         { Float := 7, Str := "upper_90" }] := by
  obtain ⟨a', h⟩ : ∃ a', Flush (fun x => x)
      (timerAggregator [90, -50] singleTimer : MetricAggregator ℚ) 1000000000 = some a' :=
    Option.isSome_iff_exists.mp (by decide!)
  obtain ⟨t', blocks, h1, h2, h3⟩ :=
    (flush_single_value_percentiles (fun x => x)
      (timerAggregator [90, -50] singleTimer : MetricAggregator ℚ) 1000000000
      "latency" "env:prod" singleTimer 7 (by rfl) (by rfl) (by rfl) (by rfl)).2 a' h
  have hent : (timerAggregator [90, -50] singleTimer : MetricAggregator ℚ).percentThresholds.entries
      = [(⟨(-50 : ℚ), newPercentStruct (-50 : ℚ)⟩ : Sigma fun _ : ℚ => percentStruct),
         ⟨(90 : ℚ), newPercentStruct (90 : ℚ)⟩] := by rfl
  rw [hent] at h3
  obtain ⟨b1, bs, hb1, hbs, rfl⟩ := List.forall₂_cons_left_iff.mp h3
  obtain ⟨b2, bs', hb2, hbs', rfl⟩ := List.forall₂_cons_left_iff.mp hbs
  have hnil : bs' = [] := by cases hbs'; rfl
  subst hnil
  have hlow : (newPercentStruct (-50 : ℚ)) =
      { count := "count_-50", mean := "mean_-50", sum := "sum_-50",
        sumSquares := "sum_squares_-50", upper := "upper_-50", lower := "lower_-50" } := by
    have h1 : toInt (-50 : ℚ) = -50 := by decide!
    simp only [newPercentStruct, h1]
    rfl
  have hup : (newPercentStruct (90 : ℚ)) =
      { count := "count_90", mean := "mean_90", sum := "sum_90", sumSquares := "sum_squares_90",
        upper := "upper_90", lower := "lower_90" } := by
    have h1 : toInt (90 : ℚ) = 90 := by decide!
    simp only [newPercentStruct, h1]
    rfl
  refine ⟨a', t', h, h1, ?_⟩
  rw [h2, hb1, hb2, hlow, hup]
  norm_num [singleTimer]

end ThresholdEntries

section SubtypeEntries
variable {F : Type} [LinearOrderedField F] [FloorRing F]

omit [FloorRing F] in
/-- The names of the entries of one threshold: one per subtype that is not disabled,
`upper` for a positive threshold and `lower` for any other one. -/
theorem emitted_names (d : TimerSubtypes) (pct : F) (s : percentStruct) (num : Int)
    (mean sum sumSquares boundary : F) :
    (emitted d pct s num mean sum sumSquares boundary).map (fun p => p.Str) =
      (if d.CountPct then [] else [s.count]) ++
      (if d.MeanPct then [] else [s.mean]) ++
      (if d.SumPct then [] else [s.sum]) ++
      (if d.SumSquaresPct then [] else [s.sumSquares]) ++
      (if 0 < pct then (if d.UpperPct then [] else [s.upper])
       else (if d.LowerPct then [] else [s.lower])) := by
  unfold emitted
  simp only [List.map_append, gt_iff_lt]
  congr 1
  · congr 1
    · congr 1
      · congr 1
        · split_ifs <;> rfl
        · split_ifs <;> rfl
      · split_ifs <;> rfl
    · split_ifs <;> rfl
  · split_ifs <;> rfl

/-- C17: for a timer of the default pipeline with `n ≥ 1` values and any setting of the
disabled subtypes, a `Flush` that returns appends to `Percentiles` one block per
configured threshold `p`.  The block is empty when `p` is skipped (`n > 1` and `k = 0`);
otherwise its names are, in this order, `count_p`, `mean_p`, `sum_p` and `sum_squares_p`,
each one exactly when its subtype is not disabled, followed by `upper_p` exactly when
`p > 0` and `UpperPct` is not disabled, or by `lower_p` exactly when `p` is not positive
and `LowerPct` is not disabled.  The pipeline of the cell returns whenever no configured
threshold selects more values than there are (and no lower-tail one all of them). -/
theorem flush_percentile_subtypes (sqrt : F → F) (a : MetricAggregator F)
    (flushInterval : Int) (key tagsKey : String) (timer : Timer F)
    (hcell : cell a.metricMap.Timers key tagsKey = some timer)
    (htag : contains timer.Tags "percentiles:true" = false)
    (hn : 1 ≤ timer.Values.length) :
    ((∀ p ∈ a.percentThresholds.keys, timer.Values.length > 1 →
        (0 < p → numInThreshold p timer.Values.length ≤ (timer.Values.length : Int)) ∧
        (¬ 0 < p → numInThreshold p timer.Values.length = 0 ∨
          numInThreshold p timer.Values.length < (timer.Values.length : Int))) →
      ∃ t', defaultStats sqrt timer a (flushSeconds flushInterval) = some t') ∧
    ∀ a', Flush sqrt a flushInterval = some a' →
      ∃ t' blocks, cell a'.metricMap.Timers key tagsKey = some t' ∧
        t'.Percentiles = timer.Percentiles ++ blocks.flatten ∧
        List.Forall₂
          (fun e b =>
            (1 < timer.Values.length ∧ numInThreshold e.1 timer.Values.length = 0 → b = []) ∧
            (¬(1 < timer.Values.length ∧ numInThreshold e.1 timer.Values.length = 0) →
              b.map (fun p => p.Str) =
                (if a.disabledSubtypes.CountPct then [] else [e.2.count]) ++
                (if a.disabledSubtypes.MeanPct then [] else [e.2.mean]) ++
                (if a.disabledSubtypes.SumPct then [] else [e.2.sum]) ++
                (if a.disabledSubtypes.SumSquaresPct then [] else [e.2.sumSquares]) ++
                (if 0 < e.1 then (if a.disabledSubtypes.UpperPct then [] else [e.2.upper])
                 else (if a.disabledSubtypes.LowerPct then [] else [e.2.lower]))))
          a.percentThresholds.entries blocks := by
  refine ⟨defaultStats_isSome sqrt a _ timer hn, ?_⟩
  intro a' hflush
  obtain ⟨t', blocks, hcell', _, _, hperc, hall⟩ :=
    flush_default_cell sqrt a a' flushInterval key tagsKey timer hcell htag hn hflush
  have hlen : (sortFloat64s timer.Values).length = timer.Values.length :=
    List.length_insertionSort _ _
  refine ⟨t', blocks, hcell', hperc, hall.imp ?_⟩
  intro e b hb
  unfold pctBlock at hb
  simp only [hlen] at hb
  by_cases h1 : timer.Values.length > 1
  · by_cases hk : numInThreshold e.1 timer.Values.length = 0
    · simp only [h1, hk, if_true, Option.some.injEq] at hb
      exact ⟨fun _ => hb.symm, fun hne => absurd ⟨h1, hk⟩ hne⟩
    · refine ⟨fun h => absurd h.2 hk, fun _ => ?_⟩
      simp only [h1, hk, if_true, if_false] at hb
      by_cases hp : e.1 > 0
      · simp only [hp, if_true] at hb
        split_ifs at hb
        simp only [Option.some.injEq] at hb
        rw [← hb, emitted_names]
      · simp only [hp, if_false] at hb
        split_ifs at hb
        simp only [Option.some.injEq] at hb
        rw [← hb, emitted_names]
  · refine ⟨fun h => absurd h.1 h1, fun _ => ?_⟩
    simp only [h1, if_false, Option.some.injEq] at hb
    rw [← hb, emitted_names]

/-- C17, as stated, fails for the threshold 0 on a timer with the single value 7 (no
subtype disabled): `numInThreshold` is the count 1, the test `pct > 0` fails, and the
`else` branch sets `lower_0` although 0 is not negative. -/
theorem lower_entry_of_zero_threshold :
    ¬ ((0 : ℚ) < 0) ∧
    (Flush (fun x => x) (timerAggregator [0] singleTimer : MetricAggregator ℚ) 1000000000).map
      (fun a' => (cell a'.metricMap.Timers "latency" "env:prod").map
        (fun t => t.Percentiles.map (fun p => (p.Str, p.Float)))) =
      some (some [("count_0", 1), ("mean_0", 7), ("sum_0", 7), ("sum_squares_0", 49),
        ("lower_0", 7)]) := by
  decide!

/-- On the timer with the values 3 and 1, the thresholds 90 and -50 and the subtypes
`MeanPct` and `UpperPct` disabled: the entries are the counts, sums and sums of squares
of both thresholds and the lower boundary of -50. -/
theorem flush_percentile_subtypes_witness :
    ∃ a' t', Flush (fun x => x) (meanUpperDisabled [90, -50] sampleTimer : MetricAggregator ℚ)
        1000000000 = some a' ∧
      cell a'.metricMap.Timers "latency" "env:prod" = some t' ∧
      t'.Percentiles.map (fun p => p.Str) =
        ["count_-50", "sum_-50", "sum_squares_-50", "lower_-50",
         "count_90", "sum_90", "sum_squares_90"] := by
  obtain ⟨a', h⟩ : ∃ a', Flush (fun x => x)
      (meanUpperDisabled [90, -50] sampleTimer : MetricAggregator ℚ) 1000000000 = some a' :=
    Option.isSome_iff_exists.mp (by decide!)
  obtain ⟨t', blocks, h1, h2, h3⟩ :=
    (flush_percentile_subtypes (fun x => x)
      (meanUpperDisabled [90, -50] sampleTimer : MetricAggregator ℚ) 1000000000
      "latency" "env:prod" sampleTimer (by rfl) (by rfl) (by decide)).2 a' h
  have hent : (meanUpperDisabled [90, -50] sampleTimer : MetricAggregator ℚ).percentThresholds.entries
      = [(⟨(-50 : ℚ), newPercentStruct (-50 : ℚ)⟩ : Sigma fun _ : ℚ => percentStruct),
         ⟨(90 : ℚ), newPercentStruct (90 : ℚ)⟩] := by rfl
  rw [hent] at h3
  obtain ⟨b1, bs, hb1, hbs, rfl⟩ := List.forall₂_cons_left_iff.mp h3
  obtain ⟨b2, bs', hb2, hbs', rfl⟩ := List.forall₂_cons_left_iff.mp hbs
  have hnil : bs' = [] := by cases hbs'; rfl
  subst hnil
  have hk1 : ¬(1 < (sampleTimer : Timer ℚ).Values.length ∧
      numInThreshold (-50 : ℚ) (sampleTimer : Timer ℚ).Values.length = 0) := by decide!
  have hk2 : ¬(1 < (sampleTimer : Timer ℚ).Values.length ∧
      numInThreshold (90 : ℚ) (sampleTimer : Timer ℚ).Values.length = 0) := by decide!
  have e1 := hb1.2 hk1
  have e2 := hb2.2 hk2
  refine ⟨a', t', h, h1, ?_⟩
  rw [h2]
  simp only [List.flatten, List.map_append, e1, e2, sampleTimer, List.map_nil, List.append_nil,
    List.nil_append]
  decide!

end SubtypeEntries

/-! ## Construction: the names of a threshold, and no validation -/

section Construction
variable {F : Type} [LinearOrderedField F] [FloorRing F]

omit [FloorRing F] in
/-- The map a fold of `insert` builds: the value of the fold for a key of the list, the
old entry for any other key. -/
theorem lookup_foldl_insert (g : F → percentStruct) (thresholds : List F)
    (m : AList (fun _ : F => percentStruct)) (p : F) :
    (thresholds.foldl (fun m pct => m.insert pct (g pct)) m).lookup p =
      if p ∈ thresholds then some (g p) else m.lookup p := by
  induction thresholds generalizing m with
  | nil => simp
  | cons q rest ih =>
    rw [List.foldl_cons, ih]
    by_cases hr : p ∈ rest
    · simp [hr]
    · by_cases hq : p = q
      · subst hq
        simp [hr]
      · simp [hr, hq, AList.lookup_insert_ne hq]

/-- The aggregator `NewMetricAggregator` returns holds, for every threshold of the list,
the names built from it. -/
theorem NewMetricAggregator_lookup (thresholds : List F) (expiryInterval : Int)
    (disabled : TimerSubtypes) (p : F) (hp : p ∈ thresholds) :
    (NewMetricAggregator thresholds expiryInterval disabled).percentThresholds.lookup p =
      some (newPercentStruct p) := by
  unfold NewMetricAggregator
  simp only
  rw [lookup_foldl_insert newPercentStruct thresholds ∅ p, if_pos hp]

/-- The conversion `int(p)` drops the fraction of `|p|` and keeps the sign of `p`. -/
theorem toInt_eq_signed_floor_abs (p : F) :
    toInt p = if 0 ≤ p then ⌊|p|⌋ else -⌊|p|⌋ := by
  unfold toInt
  by_cases h : 0 ≤ p
  · simp only [h, if_true, abs_of_nonneg h]
  · simp only [h, if_false]
    rw [abs_of_neg (not_le.mp h), Int.floor_neg, neg_neg]

/-- C13: for every threshold `p` with `|p| < 2 ^ 63` passed to `NewMetricAggregator` the
aggregator holds the names `count_N`, `mean_N`, `sum_N`, `sum_squares_N`, `upper_N` and
`lower_N`, where `N` is the decimal rendering of the integer `int(p)`: the integer part
of `|p|` for `p ≥ 0`, and its negative, written with the minus sign, for `p < 0`.  (For
`|p| ≥ 2 ^ 63` the conversion `int(p)` is out of range and its result is left to the
implementation.) -/
theorem threshold_names (thresholds : List F) (expiryInterval : Int)
    (disabled : TimerSubtypes) (p : F) (hp : p ∈ thresholds) (_hrange : |p| < 2 ^ 63) :
    ∃ (s : percentStruct) (N : Int),
      (NewMetricAggregator thresholds expiryInterval disabled).percentThresholds.lookup p =
        some s ∧
      N = (if 0 ≤ p then ⌊|p|⌋ else -⌊|p|⌋) ∧
      s.count = "count_" ++ toString N ∧ s.mean = "mean_" ++ toString N ∧
      s.sum = "sum_" ++ toString N ∧ s.sumSquares = "sum_squares_" ++ toString N ∧
      s.upper = "upper_" ++ toString N ∧ s.lower = "lower_" ++ toString N := by
  refine ⟨newPercentStruct p, toInt p,
    NewMetricAggregator_lookup thresholds expiryInterval disabled p hp,
    toInt_eq_signed_floor_abs p, rfl, rfl, rfl, rfl, rfl, rfl⟩

/-- C13, as stated, fails for the threshold -90: its names are `count_-90`, ...,
`lower_-90`, with the sign, and not `count_90`, ..., `lower_90`. -/
theorem negative_threshold_names_keep_sign :
    ((NewMetricAggregator [(-90 : ℚ)] 10
        { CountPct := false, MeanPct := false, SumPct := false, SumSquaresPct := false,
          UpperPct := false, LowerPct := false }).percentThresholds.lookup (-90)).map
      (fun s => (s.count, s.mean, s.sum, s.sumSquares, s.upper, s.lower)) =
      some ("count_-90", "mean_-90", "sum_-90", "sum_squares_-90", "upper_-90", "lower_-90") ∧
    "count_-90" ≠ "count_90" ∧ "lower_-90" ≠ "lower_90" := by
  decide!

/-- For the thresholds 90 and -90: the names of -90 end in `-90`, those of 90 in `90`. -/
theorem threshold_names_witness :
    ∃ s : percentStruct,
      (NewMetricAggregator [(90 : ℚ), -90] 10
        { CountPct := false, MeanPct := false, SumPct := false, SumSquaresPct := false,
          UpperPct := false, LowerPct := false }).percentThresholds.lookup (-90) = some s ∧
      s.count = "count_-90" ∧ s.lower = "lower_-90" := by
  obtain ⟨s, N, h1, hN, h2, _, _, _, _, h3⟩ := threshold_names [(90 : ℚ), -90] 10
    { CountPct := false, MeanPct := false, SumPct := false, SumSquaresPct := false,
      UpperPct := false, LowerPct := false } (-90) (by simp) (by norm_num)
  have hN' : N = -90 := by
    rw [hN]
    decide!
  subst hN'
  exact ⟨s, h1, h2, h3⟩

/-- C18: `NewMetricAggregator` has no error result and checks nothing: for every list of
thresholds, whatever their size, it returns an aggregator with empty maps, the given
expiry interval and disabled subtypes, that holds each threshold of the list with its
names. -/
theorem construction_accepts_every_threshold (thresholds : List F)
    (expiryInterval : Int) (disabled : TimerSubtypes) (p : F) (hp : p ∈ thresholds) :
    (NewMetricAggregator thresholds expiryInterval disabled).percentThresholds.lookup p =
      some (newPercentStruct p) ∧
    (NewMetricAggregator thresholds expiryInterval disabled : MetricAggregator F).expiryInterval
      = expiryInterval ∧
    (NewMetricAggregator thresholds expiryInterval disabled : MetricAggregator F).disabledSubtypes
      = disabled ∧
    (NewMetricAggregator thresholds expiryInterval disabled : MetricAggregator F).metricsReceived
      = 0 ∧
    cells (NewMetricAggregator thresholds expiryInterval disabled).metricMap.Counters = [] ∧
    cells (NewMetricAggregator thresholds expiryInterval disabled).metricMap.Timers = [] ∧
    cells (NewMetricAggregator thresholds expiryInterval disabled).metricMap.Gauges = [] ∧
    cells (NewMetricAggregator thresholds expiryInterval disabled).metricMap.Sets = [] :=
  ⟨NewMetricAggregator_lookup thresholds expiryInterval disabled p hp, rfl, rfl, rfl, rfl, rfl,
    rfl, rfl⟩

/-- C18, as stated, fails for the threshold 150, which lies outside `[-100, 100]`:
`NewMetricAggregator` returns an aggregator that holds it, and `Flush` runs on that
aggregator with a timer of one value and emits the entries of the threshold.  (The
threshold is never checked later either: with the two values 3 and 1 its count is 3 and
`Flush` panics on `Values[2]`.) -/
theorem threshold_out_of_range_accepted :
    ¬ ((-100 : ℚ) ≤ 150 ∧ (150 : ℚ) ≤ 100) ∧
    ((NewMetricAggregator [(150 : ℚ)] 10
        { CountPct := false, MeanPct := false, SumPct := false, SumSquaresPct := false,
          UpperPct := false, LowerPct := false }).percentThresholds.lookup 150).map
      (fun s => s.count) = some "count_150" ∧
    (Flush (fun x => x) (timerAggregator [150] singleTimer : MetricAggregator ℚ) 1000000000).map
      (fun a' => (cell a'.metricMap.Timers "latency" "env:prod").map
        (fun t => t.Percentiles.map (fun p => (p.Str, p.Float)))) =
      some (some [("count_150", 1), ("mean_150", 7), ("sum_150", 7), ("sum_squares_150", 49),
        ("upper_150", 7)]) ∧
    (Flush (fun x => x) (timerAggregator [150] sampleTimer : MetricAggregator ℚ)
      1000000000).isNone = true := by
  decide!

/-- For the thresholds 150 and -250: the aggregator holds the names of 150. -/
theorem construction_accepts_every_threshold_witness :
    ((NewMetricAggregator [(150 : ℚ), -250] 10
        { CountPct := false, MeanPct := false, SumPct := false, SumSquaresPct := false,
          UpperPct := false, LowerPct := false }).percentThresholds.lookup 150).map
      (fun s => s.upper) = some "upper_150" := by
  rw [(construction_accepts_every_threshold [(150 : ℚ), -250] 10
    { CountPct := false, MeanPct := false, SumPct := false, SumSquaresPct := false,
      UpperPct := false, LowerPct := false } 150 (by simp)).1]
  decide!

end Construction

/-! ## Timers without values, and a second `Flush` -/

section SecondFlush
variable {F : Type} [LinearOrderedField F] [FloorRing F]

/-- The stores of the `else` branch of `defaultPipeline` reach no map: a hand-built timer
cell without the tag `percentiles:true`, with no values and with `Count = 5`,
`SampledCount = 3` and `PerSecond = 2` still holds 5, 3 and 2 after `Flush`.  (No state
the program reaches holds such a cell.) -/
theorem empty_timer_keeps_stale_fields :
    (staleTimer : Timer ℚ).Values = [] ∧
    contains (staleTimer : Timer ℚ).Tags "percentiles:true" = false ∧
    (Flush (fun x => x) (timerAggregator [90] staleTimer : MetricAggregator ℚ) 1000000000).map
      (fun a' => (cell a'.metricMap.Timers "latency" "env:prod").map
        (fun t => (t.Count, t.SampledCount, t.PerSecond))) = some (some (5, 3, 2)) := by
  decide!

/-- The pipeline of a timer cell run on its own result: it returns, rewrites every
statistic and the buckets to the value they have, and appends to `Percentiles` once more
what the first run appended. -/
theorem flushedTimer_twice (sqrt : F → F) (a : MetricAggregator F) (fs : F) (c c1 : Timer F)
    (h : flushedTimer sqrt a fs c = some c1) :
    ∃ c2 added, flushedTimer sqrt a fs c1 = some c2 ∧
      c1.Percentiles = c.Percentiles ++ added ∧ c2.Percentiles = c1.Percentiles ++ added ∧
      c2.Min = c1.Min ∧ c2.Max = c1.Max ∧ c2.Mean = c1.Mean ∧ c2.Median = c1.Median ∧
      c2.StdDev = c1.StdDev ∧ c2.Sum = c1.Sum ∧ c2.SumSquares = c1.SumSquares ∧
      c2.Count = c1.Count ∧ c2.PerSecond = c1.PerSecond ∧ c2.Buckets = c1.Buckets ∧
      c2.Values = c1.Values := by
  by_cases htag : contains c.Tags "percentiles:true" = true
  · unfold flushedTimer at h
    simp only [htag, if_true, Option.map_eq_some'] at h
    obtain ⟨r, hr, rfl⟩ := h
    refine ⟨{ c with Buckets := r }, [], ?_, by simp, by simp, rfl, rfl, rfl, rfl, rfl, rfl,
      rfl, rfl, rfl, rfl, rfl⟩
    unfold flushedTimer
    simp only [htag, if_true, hr, Option.map_some']
  · have htag' : contains c.Tags "percentiles:true" = false := by
      simpa using htag
    by_cases hn : 1 ≤ c.Values.length
    · rw [flushedTimer_default sqrt a fs c htag' hn] at h
      obtain ⟨v, rest, hsort⟩ := sortFloat64s_ne_nil c.Values hn
      have hsorted : (v :: rest).Sorted (fun x y => x ≤ y) := by
        rw [← hsort]; exact List.sorted_insertionSort _ _
      have hspec := defaultStats_spec sqrt c a fs v rest hsort
      have hall : ∀ e ∈ a.percentThresholds.entries,
          pctBlock a.disabledSubtypes (v :: rest) e.1 e.2 ≠ none := by
        intro e he hnone
        rw [hspec.1 ⟨e, he, hnone⟩] at h
        exact Option.noConfusion h
      obtain ⟨blocks, hf, hd⟩ := hspec.2 hall
      rw [hd] at h
      simp only [Option.some.injEq] at h
      have htag1 : contains c1.Tags "percentiles:true" = false := by
        rw [← h]; exact htag'
      have hsort1 : sortFloat64s c1.Values = v :: rest := by
        rw [← h]; exact hsorted.insertionSort_eq
      have hn1 : 1 ≤ c1.Values.length := by
        rw [← h]; simp
      obtain ⟨blocks', hf', hd'⟩ := (defaultStats_spec sqrt c1 a fs v rest hsort1).2 hall
      have hb : blocks' = blocks := by
        have hu : Relator.RightUnique
            (fun (e : Sigma fun _ : F => percentStruct) (b : List (Percentile F)) =>
              pctBlock a.disabledSubtypes (v :: rest) e.1 e.2 = some b) := by
          intro e b b' h1 h2
          rw [h1] at h2
          exact Option.some.inj h2
        exact hu.forall₂ hf' hf
      rw [← flushedTimer_default sqrt a fs c1 htag1 hn1] at hd'
      subst h
      subst hb
      exact ⟨_, blocks'.flatten, hd', rfl, rfl, rfl, rfl, rfl, rfl, rfl, rfl, rfl, rfl, rfl,
        rfl, rfl⟩
    · have hempty : c.Values.length = 0 := by omega
      have hc : flushedTimer sqrt a fs c = some c := by
        unfold flushedTimer
        simp [htag', hempty]
      rw [hc] at h
      simp only [Option.some.injEq] at h
      subst h
      exact ⟨c, [], hc, by simp, by simp, rfl, rfl, rfl, rfl, rfl, rfl, rfl, rfl, rfl, rfl, rfl⟩

/-- When `Flush` returns, a second `Flush` right after it returns too and leaves in every
timer cell the same `Min`, `Max`, `Mean`, `Median`, `StdDev`, `Sum`, `SumSquares`,
`Count`, `PerSecond`, `Buckets` and `Values` as the first one.  (What it does to
`Percentiles` is decided by `Percentiles.Set` and by the order in which the thresholds
are met, and is left out.) -/
theorem flush_twice_statistics (sqrt : F → F) (a a1 : MetricAggregator F)
    (flushInterval : Int) (h1 : Flush sqrt a flushInterval = some a1) :
    ∃ a2, Flush sqrt a1 flushInterval = some a2 ∧
      ∀ key tagsKey c1, cell a1.metricMap.Timers key tagsKey = some c1 →
        ∃ c2, cell a2.metricMap.Timers key tagsKey = some c2 ∧
          c2.Min = c1.Min ∧ c2.Max = c1.Max ∧ c2.Mean = c1.Mean ∧ c2.Median = c1.Median ∧
          c2.StdDev = c1.StdDev ∧ c2.Sum = c1.Sum ∧ c2.SumSquares = c1.SumSquares ∧
          c2.Count = c1.Count ∧ c2.PerSecond = c1.PerSecond ∧ c2.Buckets = c1.Buckets ∧
          c2.Values = c1.Values := by
  obtain ⟨⟨_, f2, f3, _⟩, _, _, htimers, hnone⟩ := Flush_some sqrt a a1 flushInterval h1
  have hback : ∀ key tagsKey c1, cell a1.metricMap.Timers key tagsKey = some c1 →
      ∃ c, cell a.metricMap.Timers key tagsKey = some c ∧
        flushedTimer sqrt a (flushSeconds flushInterval) c = some c1 := by
    intro key tagsKey c1 hc1
    cases hc : cell a.metricMap.Timers key tagsKey with
    | none =>
      rw [hnone key tagsKey hc] at hc1
      exact Option.noConfusion hc1
    | some c =>
      obtain ⟨c', hf, hc'⟩ := htimers key tagsKey c hc
      rw [hc'] at hc1
      simp only [Option.some.injEq] at hc1
      subst hc1
      exact ⟨c, rfl, hf⟩
  have hcongr : ∀ c, flushedTimer sqrt a1 (flushSeconds flushInterval) c
      = flushedTimer sqrt a (flushSeconds flushInterval) c :=
    fun c => flushedTimer_congr sqrt c a a1 _ f2 f3
  obtain ⟨a2, h2, _, _, _, hcells, _⟩ := Flush_isSome sqrt a1 flushInterval (by
    intro key tagsKey c1 hc1
    obtain ⟨c, _, hf⟩ := hback key tagsKey c1 hc1
    obtain ⟨c2, _, hf2, _⟩ := flushedTimer_twice sqrt a _ c c1 hf
    rw [hcongr, hf2]
    exact Option.some_ne_none _)
  refine ⟨a2, h2, ?_⟩
  intro key tagsKey c1 hc1
  obtain ⟨c, hc, hf⟩ := hback key tagsKey c1 hc1
  obtain ⟨c2, added, hf2, _, _, hrest⟩ := flushedTimer_twice sqrt a _ c c1 hf
  refine ⟨c2, ?_, hrest⟩
  rw [hcells key tagsKey c1 hc1, hcongr, hf2]

end SecondFlush

/-! ## The checks of `newHttpTransport` -/

section HttpTransport

/-- With nothing set, `newHttpTransport` returns the transport of the defaults. -/
theorem newHttpTransport_defaults :
    newHttpTransport "graphite" { config := ∅, defaults := ∅ } = Except.ok
      { Proxy := true, TLSHandshakeTimeout := 3000000000,
        TLSClientConfig := { MinVersion := 0x0303 },
        DialContext := ({ Timeout := 5000000000, KeepAlive := 30000000000 }, "tcp"),
        MaxIdleConns := 50, IdleConnTimeout := 60000000000, TLSNextProto := some [] } := by
  rfl

/-- With a negative dialer timeout and a negative TLS handshake timeout, the message is
that of the dialer timeout, the earlier check. -/
theorem newHttpTransport_first_failing_check :
    newHttpTransport "graphite" negativeTimeouts =
      Except.error "dialer-timeout must not be negative" := by
  rfl

/-- C20: with the seven values read after the defaults are registered, `newHttpTransport`
returns an error, and no transport, exactly when `dialer-keep-alive < -1`, or
`dialer-timeout < 0`, or `idle-connection-timeout < 0`, or `max-idle-connections < 0`,
or `tls-handshake-timeout < 0`; the first check that fails, in this order, gives the
message.  Otherwise it returns a transport with the minimum TLS version 1.2 (0x0303), the
timeouts, the idle-connection limit, the dialer values and the network that were read,
and with `TLSNextProto` the empty map, not nil, exactly when `enable-http2` is false. -/
theorem newHttpTransport_checks (name : String) (v : Viper) :
    ∃ (dialerKeepAlive dialerTimeout idleConnectionTimeout tlsHandshakeTimeout : Duration)
      (maxIdleConnections : Int) (enableHttp2 : Bool) (network : String),
      dialerKeepAlive = (setHttpDefaults v).GetDuration "dialer-keep-alive" ∧
      dialerTimeout = (setHttpDefaults v).GetDuration "dialer-timeout" ∧
      idleConnectionTimeout = (setHttpDefaults v).GetDuration "idle-connection-timeout" ∧
      tlsHandshakeTimeout = (setHttpDefaults v).GetDuration "tls-handshake-timeout" ∧
      maxIdleConnections = (setHttpDefaults v).GetInt "max-idle-connections" ∧
      enableHttp2 = (setHttpDefaults v).GetBool "enable-http2" ∧
      network = (setHttpDefaults v).GetString "network" ∧
      ((∃ msg, newHttpTransport name v = Except.error msg) ↔
        (dialerKeepAlive < -1 ∨ dialerTimeout < 0 ∨ idleConnectionTimeout < 0 ∨
          maxIdleConnections < 0 ∨ tlsHandshakeTimeout < 0)) ∧
      ((∃ t, newHttpTransport name v = Except.ok t) ↔
        ¬(dialerKeepAlive < -1 ∨ dialerTimeout < 0 ∨ idleConnectionTimeout < 0 ∨
          maxIdleConnections < 0 ∨ tlsHandshakeTimeout < 0)) ∧
      (dialerKeepAlive < -1 →
        newHttpTransport name v = Except.error "dialer-keep-alive must be -1, 0, or positive") ∧
      (¬ dialerKeepAlive < -1 → dialerTimeout < 0 →
        newHttpTransport name v = Except.error "dialer-timeout must not be negative") ∧
      (¬ dialerKeepAlive < -1 → ¬ dialerTimeout < 0 → idleConnectionTimeout < 0 →
        newHttpTransport name v =
          Except.error "idle-connection-timeout must not be negative") ∧
      (¬ dialerKeepAlive < -1 → ¬ dialerTimeout < 0 → ¬ idleConnectionTimeout < 0 →
        maxIdleConnections < 0 →
        newHttpTransport name v = Except.error "max-idle-connections must not be negative") ∧
      (¬ dialerKeepAlive < -1 → ¬ dialerTimeout < 0 → ¬ idleConnectionTimeout < 0 →
        ¬ maxIdleConnections < 0 → tlsHandshakeTimeout < 0 →
        newHttpTransport name v = Except.error "tls-handshake-timeout must not be negative") ∧
      (¬(dialerKeepAlive < -1 ∨ dialerTimeout < 0 ∨ idleConnectionTimeout < 0 ∨
          maxIdleConnections < 0 ∨ tlsHandshakeTimeout < 0) →
        ∃ t, newHttpTransport name v = Except.ok t ∧
          t.TLSClientConfig.MinVersion = VersionTLS12 ∧ VersionTLS12 = 0x0303 ∧
          t.TLSHandshakeTimeout = tlsHandshakeTimeout ∧
          t.IdleConnTimeout = idleConnectionTimeout ∧
          t.MaxIdleConns = maxIdleConnections ∧
          t.DialContext = ({ Timeout := dialerTimeout, KeepAlive := dialerKeepAlive }, network) ∧
          (t.TLSNextProto = some [] ↔ enableHttp2 = false) ∧
          (t.TLSNextProto = none ↔ enableHttp2 = true)) := by
  refine ⟨_, _, _, _, _, _, _, rfl, rfl, rfl, rfl, rfl, rfl, rfl, ?_⟩
  have e1 : paramHttpDialerKeepAlive = "dialer-keep-alive" := rfl
  have e2 : paramHttpDialerTimeout = "dialer-timeout" := rfl
  have e3 : paramHttpIdleConnectionTimeout = "idle-connection-timeout" := rfl
  have e4 : paramHttpTLSHandshakeTimeout = "tls-handshake-timeout" := rfl
  have e5 : paramHttpMaxIdleConnections = "max-idle-connections" := rfl
  have e6 : paramHttpEnableHttp2 = "enable-http2" := rfl
  have e7 : paramHttpNetwork = "network" := rfl
  have m1 : "dialer-keep-alive" ++ " must be -1, 0, or positive"
      = "dialer-keep-alive must be -1, 0, or positive" := by decide
  have m2 : "dialer-timeout" ++ " must not be negative"
      = "dialer-timeout must not be negative" := by decide
  have m3 : "idle-connection-timeout" ++ " must not be negative"
      = "idle-connection-timeout must not be negative" := by decide
  have m4 : "max-idle-connections" ++ " must not be negative"
      = "max-idle-connections must not be negative" := by decide
  have m5 : "tls-handshake-timeout" ++ " must not be negative"
      = "tls-handshake-timeout must not be negative" := by decide
  unfold newHttpTransport
  simp only [e1, e2, e3, e4, e5, e6, e7, m1, m2, m3, m4, m5]
  generalize (setHttpDefaults v).GetDuration "dialer-keep-alive" = ka
  generalize (setHttpDefaults v).GetDuration "dialer-timeout" = dt
  generalize (setHttpDefaults v).GetDuration "idle-connection-timeout" = ict
  generalize (setHttpDefaults v).GetDuration "tls-handshake-timeout" = tls
  generalize (setHttpDefaults v).GetInt "max-idle-connections" = mic
  generalize (setHttpDefaults v).GetBool "enable-http2" = h2
  generalize (setHttpDefaults v).GetString "network" = nw
  by_cases c1 : ka < -1
  · simp [c1]
  · by_cases c2 : dt < 0
    · simp [c1, c2]
    · by_cases c3 : ict < 0
      · simp [c1, c2, c3]
      · by_cases c4 : mic < 0
        · simp [c1, c2, c3, c4]
        · by_cases c5 : tls < 0
          · simp [c1, c2, c3, c4, c5]
          · cases h2 <;> simp [c1, c2, c3, c4, c5, VersionTLS12]

end HttpTransport

/-! ## Timers without values on the states the program reaches -/

section ReachableStates
variable {F : Type} [LinearOrderedField F] [FloorRing F]

end ReachableStates

/-! ## The rounding to `float64`: what `ilog2`, `binade` and `rnd64` compute -/

section RoundingFacts
variable {F : Type} [LinearOrderedField F] [FloorRing F]

theorem ilog2Aux_spec (fuel n : Nat) (hn : 0 < n) (hf : n ≤ fuel) :
    2 ^ ilog2Aux fuel n ≤ n ∧ n < 2 ^ (ilog2Aux fuel n + 1) := by
  induction fuel generalizing n with
  | zero => omega
  | succ fuel ih =>
    unfold ilog2Aux
    by_cases h2 : 2 ≤ n
    · simp only [h2, if_true]
      obtain ⟨l, u⟩ := ih (n / 2) (by omega) (by omega)
      constructor
      · rw [pow_succ]
        omega
      · rw [pow_succ]
        omega
    · simp only [h2, if_false]
      omega

/-- The function `ilog2` is the binary logarithm rounded down. -/
theorem ilog2_spec (n : Nat) (hn : 0 < n) : 2 ^ ilog2 n ≤ n ∧ n < 2 ^ (ilog2 n + 1) :=
  ilog2Aux_spec n n hn (le_refl n)

theorem roundHalfEven_near (s : F) :
    |((roundHalfEven s : Int) : F) - s| ≤ 1 / 2 := by
  have h1 := Int.floor_le s
  have h2 := Int.lt_floor_add_one s
  unfold roundHalfEven
  simp only
  split_ifs with a b c
  · rw [abs_le]; constructor <;> linarith
  · rw [abs_le]; push_cast; constructor <;> linarith
  · have : s - ((⌊s⌋ : Int) : F) = 1 / 2 := le_antisymm (not_lt.mp b) (not_lt.mp a)
    rw [abs_le]; constructor <;> linarith
  · have : s - ((⌊s⌋ : Int) : F) = 1 / 2 := le_antisymm (not_lt.mp b) (not_lt.mp a)
    rw [abs_le]; push_cast; constructor <;> linarith

omit [FloorRing F] in
theorem pow2_ne_zero (e : Int) : (pow2 e : F) ≠ 0 := ne_of_gt (pow2_pos e)

theorem scaled_round_near (y : F) (q : Int) :
    abs (((roundHalfEven (y / pow2 q) : Int) : F) * pow2 q - y) ≤ pow2 q / 2 := by
  have hq := pow2_pos (F := F) q
  have hnear := roundHalfEven_near (y / pow2 q)
  have e : ((roundHalfEven (y / pow2 q) : Int) : F) * pow2 q - y
      = (((roundHalfEven (y / pow2 q) : Int) : F) - y / pow2 q) * pow2 q := by
    field_simp [pow2_ne_zero]
  rw [e, abs_mul, abs_of_pos hq]
  calc _ ≤ 1 / 2 * pow2 q := mul_le_mul_of_nonneg_right hnear (le_of_lt hq)
    _ = _ := by ring

/-- The value `rnd64 x` is a multiple of the spacing `2 ^ q` of the `float64`s around `x`
and lies within half a spacing of `x`. -/
theorem rnd64_near (x : F) :
    ∃ (q : Int) (m : Int), q = max (binade (abs x)) (-1022) - 52 ∧ rnd64 x = (m : F) * pow2 q ∧
      abs (rnd64 x - x) ≤ pow2 q / 2 := by
  have hq := pow2_pos (F := F) (max (binade (abs x)) (-1022) - 52)
  have hmul := scaled_round_near (abs x) (max (binade (abs x)) (-1022) - 52)
  by_cases h0 : x = 0
  · refine ⟨_, 0, rfl, by simp [rnd64, h0], ?_⟩
    simp only [rnd64, h0, if_true, sub_zero, abs_zero]
    exact le_of_lt (half_pos (pow2_pos _))
  · by_cases hp : 0 < x
    · refine ⟨_, roundHalfEven (abs x / pow2 (max (binade (abs x)) (-1022) - 52)), rfl, ?_, ?_⟩
      · simp only [rnd64, h0, if_false, hp, if_true]
      · simp only [rnd64, h0, if_false, hp, if_true]
        rw [abs_of_pos hp] at hmul ⊢
        exact hmul
    · have hneg : x < 0 := lt_of_le_of_ne (not_lt.mp hp) h0
      refine ⟨_, -roundHalfEven (abs x / pow2 (max (binade (abs x)) (-1022) - 52)), rfl, ?_, ?_⟩
      · simp only [rnd64, h0, if_false, hp]
        push_cast
        ring
      · simp only [rnd64, h0, if_false, hp]
        have e2 : -(((roundHalfEven (abs x / pow2 (max (binade (abs x)) (-1022) - 52)) : Int) : F) *
            pow2 (max (binade (abs x)) (-1022) - 52)) - x
            = -(((roundHalfEven (abs x / pow2 (max (binade (abs x)) (-1022) - 52)) : Int) : F) *
              pow2 (max (binade (abs x)) (-1022) - 52) - abs x) := by
          rw [abs_of_neg hneg]; ring
        rw [e2, abs_neg]
        exact hmul

omit [FloorRing F] in
theorem pow2_ofNat (n : Nat) : (pow2 (n : Int) : F) = 2 ^ n := by
  unfold pow2
  simp

omit [FloorRing F] in
theorem pow2_neg_ofNat (n : Nat) : (pow2 (-(n : Int)) : F) = (2 ^ n)⁻¹ := by
  unfold pow2
  by_cases h : n = 0
  · subst h; simp
  · have : ¬ (0 : Int) ≤ -(n : Int) := by omega
    simp [this]

/-- The function `binade` gives the binary exponent: `2 ^ e ≤ x < 2 ^ (e + 1)`. -/
theorem binade_spec (x : F) (hx : 0 < x) :
    pow2 (binade x) ≤ x ∧ x < pow2 (binade x + 1) := by
  unfold binade
  by_cases h1 : 1 ≤ x
  · simp only [h1, if_true]
    have hfl : (1 : Int) ≤ ⌊x⌋ := Int.le_floor.mpr (by exact_mod_cast h1)
    obtain ⟨l, u⟩ := ilog2_spec ⌊x⌋.toNat (by omega)
    have hcast : ((⌊x⌋.toNat : Nat) : F) = ((⌊x⌋ : Int) : F) := by
      have : ((⌊x⌋.toNat : Nat) : Int) = ⌊x⌋ := Int.toNat_of_nonneg (by omega)
      exact_mod_cast congrArg (fun z : Int => (z : F)) this
    have hle : ((⌊x⌋.toNat : Nat) : F) ≤ x := by rw [hcast]; exact Int.floor_le x
    have hlt : x < ((⌊x⌋.toNat : Nat) : F) + 1 := by rw [hcast]; exact Int.lt_floor_add_one x
    have e1 : ((ilog2 ⌊x⌋.toNat : Nat) : Int) + 1 = ((ilog2 ⌊x⌋.toNat + 1 : Nat) : Int) := by
      push_cast; rfl
    rw [e1, pow2_ofNat, pow2_ofNat]
    constructor
    · calc (2 : F) ^ ilog2 ⌊x⌋.toNat ≤ ((⌊x⌋.toNat : Nat) : F) := by exact_mod_cast l
        _ ≤ x := hle
    · calc x < ((⌊x⌋.toNat : Nat) : F) + 1 := hlt
        _ ≤ (2 : F) ^ (ilog2 ⌊x⌋.toNat + 1) := by exact_mod_cast u
  · simp only [h1, if_false]
    have hx1 : x < 1 := not_le.mp h1
    have hinv : 1 < 1 / x := by
      rw [lt_div_iff₀ hx]; linarith
    have hc2 : (2 : Int) ≤ ⌈1 / x⌉ := by
      have : (1 : Int) < ⌈1 / x⌉ := Int.lt_ceil.mpr (by exact_mod_cast hinv)
      omega
    obtain ⟨l, u⟩ := ilog2_spec (⌈1 / x⌉.toNat - 1) (by omega)
    have hcast : (((⌈1 / x⌉.toNat - 1 : Nat) : Nat) : F) = ((⌈1 / x⌉ : Int) : F) - 1 := by
      have : (((⌈1 / x⌉.toNat - 1 : Nat) : Nat) : Int) = ⌈1 / x⌉ - 1 := by omega
      have h2 := congrArg (fun z : Int => (z : F)) this
      simp only [Int.cast_natCast, Int.cast_sub, Int.cast_one] at h2
      exact h2
    have hceil1 : 1 / x ≤ ((⌈1 / x⌉ : Int) : F) := Int.le_ceil _
    have hceil2 : ((⌈1 / x⌉ : Int) : F) - 1 < 1 / x := by
      have := Int.ceil_lt_add_one (1 / x)
      linarith
    have lF : (2 : F) ^ ilog2 (⌈1 / x⌉.toNat - 1) ≤ ((⌈1 / x⌉ : Int) : F) - 1 := by
      rw [← hcast]; exact_mod_cast l
    have uF : ((⌈1 / x⌉ : Int) : F) - 1 < (2 : F) ^ (ilog2 (⌈1 / x⌉.toNat - 1) + 1) := by
      rw [← hcast]; exact_mod_cast u
    have uF' : ((⌈1 / x⌉ : Int) : F) ≤ (2 : F) ^ (ilog2 (⌈1 / x⌉.toNat - 1) + 1) := by
      have hu : (⌈1 / x⌉.toNat - 1) + 1 ≤ 2 ^ (ilog2 (⌈1 / x⌉.toNat - 1) + 1) := u
      have hn : ((⌈1 / x⌉.toNat - 1 + 1 : Nat) : F) = ((⌈1 / x⌉ : Int) : F) := by
        push_cast; rw [hcast]; ring
      rw [← hn]; exact_mod_cast hu
    have e1 : -(((ilog2 (⌈1 / x⌉.toNat - 1) : Nat) : Int) + 1)
        = -(((ilog2 (⌈1 / x⌉.toNat - 1) + 1 : Nat) : Nat) : Int) := by push_cast; rfl
    have e2 : -(((ilog2 (⌈1 / x⌉.toNat - 1) : Nat) : Int) + 1) + 1
        = -(((ilog2 (⌈1 / x⌉.toNat - 1) : Nat) : Nat) : Int) := by ring
    rw [e2, e1, pow2_neg_ofNat, pow2_neg_ofNat]
    have hpos1 : (0 : F) < 2 ^ (ilog2 (⌈1 / x⌉.toNat - 1) + 1) := by positivity
    have hpos2 : (0 : F) < 2 ^ ilog2 (⌈1 / x⌉.toNat - 1) := by positivity
    constructor
    · rw [inv_le_comm₀ hpos1 hx]
      calc x⁻¹ = 1 / x := (one_div x).symm
        _ ≤ _ := le_trans hceil1 uF'
    · rw [lt_inv_comm₀ hx hpos2]
      calc (2 : F) ^ ilog2 (⌈1 / x⌉.toNat - 1) ≤ ((⌈1 / x⌉ : Int) : F) - 1 := lF
        _ < 1 / x := hceil2
        _ = x⁻¹ := one_div x

end RoundingFacts

end Statsd
